import Mathlib

/-!
# Fee and tax enforcement ante stage (`custom/auth/ante/fee.go`)

A shallow embedding of `FeeDecorator.AnteHandle`, `checkDeductFee`, `DeductFees`,
`checkTxFee` and `getTxPriority`, together with the coin arithmetic of the SDK
(`types/coin.go`, `math/int.go`, `math/dec.go`) that those functions call.
The last part embeds `Keeper.GetParams` of `x/staking/keeper/params.go` with the
store lookup of the SDK's multistore.

Conventions.
* A Go panic is the value `none` of an `Option` result.
* `sdk.Int` and `sdk.Dec` are mathematical integers (they are backed by
  `math/big`). The bit-length guards of `Dec.Mul` and `Dec.RoundInt` are
  modelled; sums and differences of coin amounts are exact, and `C1`, whose sum
  of required gas fees and taxes could leave the 256 bits of `sdk.Int`, bounds
  it in a hypothesis.
* `uint64` values are natural numbers; the conversion `int64(gas)` is `int64`.
* Go strings are compared bytewise; denominations are compared on their
  character lists, which is the same order.
-/

namespace Core

/-! ## Integers -/

/-- The constant `math.MaxInt64`. -/
def MaxInt64 : Int := 2 ^ 63 - 1

/-- The constant `math.MinInt64`. -/
def MinInt64 : Int := -(2 ^ 63)

/-- The Go conversion `int64(x)` of a `uint64` value: reduction modulo `2^64`
read as a two's-complement number. -/
def int64 (x : Nat) : Int :=
  if x % 2 ^ 64 < 2 ^ 63 then ((x % 2 ^ 64 : Nat) : Int) else ((x % 2 ^ 64 : Nat) : Int) - 2 ^ 64

/-- The method `Int.IsInt64`: the value fits a signed 64-bit integer. -/
def IsInt64 (i : Int) : Bool := decide (MinInt64 ≤ i) && decide (i ≤ MaxInt64)

/-- The method `Int.QuoRaw(i2 int64)`: truncated division, panicking on a zero divisor. -/
def QuoRaw (i i2 : Int) : Option Int :=
  if i2 = 0 then none else some (i.tdiv i2)

/-! ## Fixed-point decimals (`sdk.Dec`, 18 fractional digits) -/

/-- The decimal `sdk.Dec`: the integer `i` stands for `i / 10^18`. -/
structure Dec where
  i : Int
deriving DecidableEq, Repr

/-- The scale `10^18` of `sdk.Dec`. -/
def precisionReuse : Int := 10 ^ 18

/-- Half of the scale, `5 * 10^17`. -/
def fivePrecision : Int := 5 * 10 ^ 17

/-- The non-negative branch of `chopPrecisionAndRound`: divide by the scale with
banker's rounding. -/
def chopNonNegative (d : Int) : Int :=
  let quo := d.tdiv precisionReuse
  let rem := d.tmod precisionReuse
  if rem = 0 then quo
  else if rem < fivePrecision then quo
  else if fivePrecision < rem then quo + 1
  else if quo % 2 = 0 then quo
  else quo + 1

/-- The function `chopPrecisionAndRound`: remove 18 digits of precision, rounding
half to even; a negative argument is negated, chopped and negated back. -/
def chopPrecisionAndRound (d : Int) : Int :=
  if d < 0 then -(chopNonNegative (-d)) else chopNonNegative d

/-- The constructor `sdk.NewDec(i int64)`. -/
def NewDec (i : Int) : Dec := ⟨i * precisionReuse⟩

/-- The constant `MaxBitLen` of `sdk.Int`. -/
def MaxBitLen : Nat := 256

/-- The constant `decimalTruncateBits` of `sdk.Dec`: the least number of bits that
a truncation removes. -/
def decimalTruncateBits : Nat := 59

/-- The test `i.BitLen() > MaxBitLen` on a `big.Int`. -/
def exceedsMaxBitLen (i : Int) : Bool := decide (2 ^ MaxBitLen ≤ i.natAbs)

/-- The test `i.BitLen() > maxDecBitLen` on a `big.Int`, where
`maxDecBitLen = MaxBitLen + decimalTruncateBits = 315`. -/
def exceedsMaxDecBitLen (i : Int) : Bool :=
  decide (2 ^ MaxBitLen * 2 ^ decimalTruncateBits ≤ i.natAbs)

/-- The method `Dec.Mul`: the product is chopped to 18 digits and the call panics
with "Int overflow" when the result has more than `maxDecBitLen` bits. -/
def Dec.Mul (d d2 : Dec) : Option Dec :=
  let chopped := chopPrecisionAndRound (d.i * d2.i)
  if exceedsMaxDecBitLen chopped then none else some ⟨chopped⟩

/-- The method `Dec.Ceil`: the smallest whole decimal not below `d`. -/
def Dec.Ceil (d : Dec) : Dec :=
  let quo := d.i.tdiv precisionReuse
  let rem := d.i.tmod precisionReuse
  if rem = 0 then NewDec quo
  else if rem < 0 then NewDec quo
  else NewDec (quo + 1)

/-- The method `Dec.RoundInt`: the rounded value goes through `NewIntFromBigInt`,
which panics when it has more than `MaxBitLen` bits. -/
def Dec.RoundInt (d : Dec) : Option Int :=
  let rounded := chopPrecisionAndRound d.i
  if exceedsMaxBitLen rounded then none else some rounded

/-- The method `Dec.IsZero`. -/
def Dec.IsZero (d : Dec) : Bool := decide (d.i = 0)

/-! ## Denominations and coins -/

/-- The characters allowed after the first one of a denomination. -/
def isDenomChar (c : Char) : Bool :=
  c.isAlphanum || c == '/' || c == ':' || c == '.' || c == '_' || c == '-'

/-- The function `ValidateDenom`: a letter followed by 2 to 127 characters among
letters, digits and `/ : . _ -`. The result `true` stands for a nil error. -/
def ValidateDenom (denom : String) : Bool :=
  match denom.data with
  | [] => false
  | c :: cs => c.isAlpha && decide (2 ≤ cs.length) && decide (cs.length ≤ 127) && cs.all isDenomChar

/-- The type `sdk.Coin`. -/
structure Coin where
  Denom : String
  Amount : Int
deriving DecidableEq, Repr

/-- The type `sdk.Coins`, a slice of coins. -/
abbrev Coins := List Coin

/-- The method `Coin.IsZero`. -/
def Coin.IsZero (coin : Coin) : Bool := decide (coin.Amount = 0)

/-- The method `Coin.IsPositive`. -/
def Coin.IsPositive (coin : Coin) : Bool := decide (0 < coin.Amount)

/-- The method `Coin.IsNegative`. -/
def Coin.IsNegative (coin : Coin) : Bool := decide (coin.Amount < 0)

/-- The method `Coin.Validate`; `true` stands for a nil error. -/
def Coin.Validate (coin : Coin) : Bool :=
  ValidateDenom coin.Denom && !coin.IsNegative

/-- The constructor `sdk.NewCoin`, which panics when the coin does not validate. -/
def NewCoin (denom : String) (amount : Int) : Option Coin :=
  if Coin.Validate ⟨denom, amount⟩ then some ⟨denom, amount⟩ else none

/-- The method `Coins.IsZero`: every coin of the set has amount zero. -/
def Coins.IsZero (coins : Coins) : Bool := coins.all Coin.IsZero

/-- The method `Coins.IsAnyNegative`. -/
def Coins.IsAnyNegative (coins : Coins) : Bool := coins.any Coin.IsNegative

/-- The method `Coins.isSorted`: no coin has a denomination below its predecessor's. -/
def Coins.isSorted : Coins → Bool
  | a :: b :: rest => !decide (b.Denom.data < a.Denom.data) && Coins.isSorted (b :: rest)
  | _ => true

/-- The method `Coins.Sort`: sort by denomination. -/
def Coins.Sort (coins : Coins) : Coins :=
  coins.insertionSort (fun a b => a.Denom.data ≤ b.Denom.data)

/-- The loop of `Coins.Validate` over `coins[1:]`, with the last denomination seen
and the set of denominations seen so far. -/
def Coins.validateLoop (lowDenom : String) (seenDenoms : List String) : Coins → Bool
  | [] => true
  | coin :: rest =>
    if seenDenoms.contains coin.Denom then false
    else if !ValidateDenom coin.Denom then false
    else if decide (coin.Denom.data ≤ lowDenom.data) then false
    else if !coin.IsPositive then false
    else Coins.validateLoop coin.Denom (coin.Denom :: seenDenoms) rest

/-- The method `Coins.Validate`; `true` stands for a nil error. -/
def Coins.Validate : Coins → Bool
  | [] => true
  | [coin] => ValidateDenom coin.Denom && coin.IsPositive
  | coin :: rest =>
    (ValidateDenom coin.Denom && coin.IsPositive) && Coins.validateLoop coin.Denom [coin.Denom] rest

/-- The method `Coins.IsValid`. -/
def Coins.IsValid (coins : Coins) : Bool := Coins.Validate coins

/-- The recursion of `Coins.Find`, a binary search by denomination; the first
argument bounds the recursion depth and `Coins.Find` passes the length. -/
def Coins.findAux : Nat → Coins → String → Option Coin
  | 0, _, _ => none
  | n + 1, coins, denom =>
    match coins with
    | [] => none
    | [coin] => if coin.Denom = denom then some coin else none
    | _ =>
      let midIdx := coins.length / 2
      match coins.get? midIdx with
      | none => none
      | some coin =>
        if denom.data < coin.Denom.data then Coins.findAux n (coins.take midIdx) denom
        else if denom = coin.Denom then some coin
        else Coins.findAux n (coins.drop (midIdx + 1)) denom

/-- The method `Coins.Find`. -/
def Coins.Find (coins : Coins) (denom : String) : Option Coin :=
  Coins.findAux coins.length coins denom

/-- The method `Coins.AmountOfNoDenomValidation`. -/
def Coins.AmountOfNoDenomValidation (coins : Coins) (denom : String) : Int :=
  match Coins.Find coins denom with
  | some c => c.Amount
  | none => 0

/-- The method `Coins.AmountOf`, which panics on an invalid denomination. -/
def Coins.AmountOf (coins : Coins) (denom : String) : Option Int :=
  if ValidateDenom denom then some (Coins.AmountOfNoDenomValidation coins denom) else none

/-- The function `removeZeroCoins`. -/
def removeZeroCoins (coins : Coins) : Coins := coins.filter (fun c => !c.IsZero)

/-- The method `Coins.safeAdd`: panics unless both sets are sorted; groups the
coins of both sets by denomination, sums each group, drops zero sums and sorts. -/
def Coins.safeAdd (coins coinsB : Coins) : Option Coins :=
  if !Coins.isSorted coins then none
  else if !Coins.isSorted coinsB then none
  else
    let all := coins ++ coinsB
    let uniqDenoms := (all.map Coin.Denom).dedup
    let combo : Coins := uniqDenoms.map fun denom =>
      ⟨denom, ((all.filter (fun c => decide (c.Denom = denom))).map Coin.Amount).sum⟩
    some (Coins.Sort (combo.filter (fun c => !c.IsZero)))

/-- The method `Coins.Add`. -/
def Coins.Add (coins coinsB : Coins) : Option Coins := Coins.safeAdd coins coinsB

/-- The method `Coins.negative`. -/
def Coins.negative (coins : Coins) : Coins := coins.map fun c => ⟨c.Denom, -c.Amount⟩

/-- The constructor `sdk.NewCoins`: drop zero coins, sort, and panic when the
result does not validate. -/
def NewCoins (coins : Coins) : Option Coins :=
  let newCoins := Coins.Sort (removeZeroCoins coins)
  if Coins.Validate newCoins then some newCoins else none

/-- The method `Coins.SafeSub`: the difference and whether it has a negative amount. -/
def Coins.SafeSub (coins coinsB : Coins) : Option (Coins × Bool) :=
  match NewCoins coinsB with
  | none => none
  | some b =>
    match Coins.safeAdd coins (Coins.negative b) with
    | none => none
    | some diff => some (diff, Coins.IsAnyNegative diff)

/-- The method `Coins.Sub`, which panics on a negative amount. -/
def Coins.Sub (coins coinsB : Coins) : Option Coins :=
  match Coins.SafeSub coins coinsB with
  | none => none
  | some (diff, hasNeg) => if hasNeg then none else some diff

/-- The loop of `Coins.IsAnyGTE` over the coins of the receiver. -/
def Coins.isAnyGTELoop (coinsB : Coins) : Coins → Option Bool
  | [] => some false
  | coin :: rest =>
    match Coins.AmountOf coinsB coin.Denom with
    | none => none
    | some amt =>
      if decide (amt ≤ coin.Amount) && !decide (amt = 0) then some true
      else Coins.isAnyGTELoop coinsB rest

/-- The method `Coins.IsAnyGTE`: some coin of the receiver has a denomination
present in `coinsB` at a non-zero amount not above its own. -/
def Coins.IsAnyGTE (coins coinsB : Coins) : Option Bool :=
  if coinsB.length = 0 then some false else Coins.isAnyGTELoop coinsB coins

/-- The type `sdk.DecCoin`. -/
structure DecCoin where
  Denom : String
  Amount : Dec
deriving DecidableEq, Repr

/-- The type `sdk.DecCoins`. -/
abbrev DecCoins := List DecCoin

/-- The method `DecCoins.IsZero`. -/
def DecCoins.IsZero (coins : DecCoins) : Bool := coins.all fun c => c.Amount.IsZero

/-! ## Transactions, errors, context -/

/-- The type `sdk.AccAddress`, a byte string. -/
structure AccAddress where
  bytes : List Nat
deriving DecidableEq, Repr

/-- The method `AccAddress.Equals`. -/
def AccAddress.Equals (aa aa2 : AccAddress) : Bool := decide (aa.bytes = aa2.bytes)

/-- A message of a transaction: whether it belongs to the exempt (oracle) class,
and its content. -/
structure Msg where
  exemptClass : Bool
  content : Nat
deriving DecidableEq, Repr

/-- Modelled from the spec: the function `isOracleTx` is declared outside the
sources at hand; the spec gives `isExempt(messages)`: true iff every message
belongs to a designated exempt class. -/
def isOracleTx (msgs : List Msg) : Bool := msgs.all fun m => m.exemptClass

/-- The interface `sdk.FeeTx`: the accessors of a fee-capable transaction. -/
structure FeeTx where
  GetMsgs : List Msg
  GetFee : Coins
  GetGas : Nat
  FeePayer : AccAddress
  FeeGranter : Option AccAddress
deriving DecidableEq, Repr

/-- The interface `sdk.Tx`: a transaction either implements `sdk.FeeTx` or not. -/
inductive Tx where
  | feeTx (t : FeeTx)
  | other (msgs : List Msg)
deriving DecidableEq, Repr

/-- The registered errors of `sdkerrors` that the stage raises. -/
inductive ErrKind where
  | ErrTxDecode
  | ErrInvalidGasLimit
  | ErrInsufficientFee
  | ErrInvalidRequest
  | ErrUnknownAddress
  | ErrInsufficientFunds
deriving DecidableEq, Repr

/-- An argument of a format string. -/
inductive Arg where
  | coins (c : Coins)
  | address (a : AccAddress)
  | text (s : String)
deriving DecidableEq, Repr

/-- Error values: a registered error, an error value produced by a collaborator,
`fmt.Errorf`, `errorsmod.Wrapf(err, format, args...)`, and
`errorsmod.Wrapf(err, source.Error())`. -/
inductive Error where
  | registered (kind : ErrKind)
  | collaborator (code : Nat)
  | Errorf (format : String) (args : List Arg)
  | Wrapf (err : Error) (format : String) (args : List Arg)
  | WrapErrorText (err : Error) (source : Error)
deriving DecidableEq, Repr

/-- The registered error at the root of a chain of wraps, if any. -/
def Error.kind : Error → Option ErrKind
  | .registered k => some k
  | .collaborator _ => none
  | .Errorf _ _ => none
  | .Wrapf e _ _ => e.kind
  | .WrapErrorText e _ => e.kind

/-- The fields of `sdk.Context` that the stage reads or sets. -/
structure Context where
  BlockHeight : Int
  IsCheckTx : Bool
  MinGasPrices : DecCoins
  Priority : Int
deriving DecidableEq, Repr

/-- The method `Context.WithPriority`. -/
def Context.WithPriority (ctx : Context) (p : Int) : Context := { ctx with Priority := p }

/-- The event that `checkDeductFee` emits: type `tx` with the attributes `fee`
and `fee_payer`, holding the values whose `String()` the code records. -/
structure Event where
  fee : Coins
  feePayer : AccAddress
deriving DecidableEq, Repr

/-- The type `AccountI`, as far as the stage uses it. -/
structure Account where
  GetAddress : AccAddress
deriving DecidableEq, Repr

/-- The state-changing calls that the stage makes on its collaborators. -/
inductive Call where
  | UseGrantedFees (granter grantee : AccAddress) (fee : Coins) (msgs : List Msg)
  | MintCoins (moduleName : String) (amt : Coins)
  | SendCoinsFromModuleToAccount (senderModule : String) (recipient : AccAddress) (amt : Coins)
  | SendCoinsFromAccountToModule (sender : AccAddress) (recipientModule : String) (amt : Coins)
  | BurnTaxSplit (taxes : Coins)
  | RecordEpochTaxProceeds (taxes : Coins)
deriving DecidableEq, Repr

/-- What the stage can change through its context: the collaborators' store,
the log of the state-changing calls made on them, and the event log. -/
structure World (σ : Type) where
  ledger : σ
  calls : List Call
  events : List Event
deriving DecidableEq

/-- The interface `ante.AccountKeeper`. -/
structure AccountKeeper (σ : Type) where
  GetModuleAddress : σ → String → Option AccAddress
  GetAccount : σ → AccAddress → Option Account

/-- The interface `BankKeeper`; each call gives the new store and its error. -/
structure BankKeeper (σ : Type) where
  MintCoins : σ → String → Coins → σ × Option Error
  SendCoinsFromModuleToAccount : σ → String → AccAddress → Coins → σ × Option Error
  SendCoinsFromAccountToModule : σ → AccAddress → String → Coins → σ × Option Error

/-- The interface `ante.FeegrantKeeper`. -/
structure FeegrantKeeper (σ : Type) where
  UseGrantedFees : σ → AccAddress → AccAddress → Coins → List Msg → σ × Option Error

/-- The interface `TreasuryKeeper`, with the two functions of the package that
work on it and are declared outside the sources at hand, taken as given:
`FilterMsgAndComputeTax` and `FeeDecorator.BurnTaxSplit`. -/
structure TreasuryKeeper (σ : Type) where
  RecordEpochTaxProceeds : σ → Coins → σ
  FilterMsgAndComputeTax : Context → σ → Bool → List Msg → Coins
  BurnTaxSplit : σ → Coins → σ × Option Error

/-- The type `FeeDecorator`; a nil `feegrantKeeper` is `none`. -/
structure FeeDecorator (σ : Type) where
  accountKeeper : AccountKeeper σ
  bankKeeper : BankKeeper σ
  feegrantKeeper : Option (FeegrantKeeper σ)
  treasuryKeeper : TreasuryKeeper σ

/-- The constant `types.FeeCollectorName`. -/
def FeeCollectorName : String := "fee_collector"

/-- The constant `minttypes.ModuleName`. -/
def MintModuleName : String := "mint"

/-- Record a state-changing call and the store it leaves. -/
def World.step {σ : Type} (w : World σ) (c : Call) (ledger : σ) : World σ :=
  { w with ledger := ledger, calls := w.calls ++ [c] }

/-! ## `getTxPriority` and `checkTxFee` -/

/-- The loop of `getTxPriority` with the accumulator `priority`. -/
def getTxPriorityLoop (gas : Int) : Coins → Int → Option Int
  | [], priority => some priority
  | c :: rest, priority =>
    match QuoRaw c.Amount gas with
    | none => none
    | some gasPrice =>
      let p := if IsInt64 gasPrice then gasPrice else MaxInt64
      if priority = 0 ∨ p < priority then getTxPriorityLoop gas rest p
      else getTxPriorityLoop gas rest priority

/-- The function `getTxPriority`; `none` is the division-by-zero panic of `QuoRaw`. -/
def getTxPriority (fee : Coins) (gas : Int) : Option Int :=
  getTxPriorityLoop gas fee 0

/-- The loop of `checkTxFee` that fills `requiredGasFees`: one coin
`ceil(minGasPrice * gasLimit)` per minimum gas price. -/
def requiredGasFeesLoop (glDec : Dec) : DecCoins → Option Coins
  | [] => some []
  | gp :: rest =>
    match Dec.Mul gp.Amount glDec with
    | none => none
    | some fee =>
      match Dec.RoundInt (Dec.Ceil fee) with
      | none => none
      | some amount =>
        match NewCoin gp.Denom amount with
        | none => none
        | some coin =>
          match requiredGasFeesLoop glDec rest with
          | none => none
          | some coins => some (coin :: coins)

/-- The value of `requiredGasFees` in `checkTxFee`. -/
def requiredGasFees (minGasPrices : DecCoins) (gas : Nat) : Option Coins :=
  if !DecCoins.IsZero minGasPrices then requiredGasFeesLoop (NewDec (int64 gas)) minGasPrices
  else some []

/-- The insufficient-fee error of `checkTxFee`. -/
def insufficientFeeError (feeCoins requiredFees requiredGasFees taxes : Coins) : Error :=
  .Wrapf (.registered .ErrInsufficientFee)
    "insufficient fees; got: %q, required: %q = %q(gas) + %q(stability)"
    [.coins feeCoins, .coins requiredFees, .coins requiredGasFees, .coins taxes]

/-- The minimum-fee check of `checkTxFee` in check-phase for a non-exempt
transaction: `none` is a panic, `some none` a pass, `some (some e)` the error. -/
def checkRequiredFees (ctx : Context) (feeCoins : Coins) (gas : Nat) (taxes : Coins) :
    Option (Option Error) :=
  match requiredGasFees ctx.MinGasPrices gas with
  | none => none
  | some requiredGasFees =>
    match Coins.Add requiredGasFees taxes with
    | none => none
    | some requiredFees =>
      if Coins.IsZero requiredFees then some none
      else
        match Coins.IsAnyGTE feeCoins requiredFees with
        | none => none
        | some true => some none
        | some false =>
          some (some (insufficientFeeError feeCoins requiredFees requiredGasFees taxes))

/-- The method `FeeDecorator.checkTxFee`: the priority and the error. -/
def checkTxFee (ctx : Context) (tx : Tx) (taxes : Coins) : Option (Int × Option Error) :=
  match tx with
  | .other _ => some (0, some (.Wrapf (.registered .ErrTxDecode) "Tx must be a FeeTx" []))
  | .feeTx feeTx =>
    let feeCoins := feeTx.GetFee
    let gas := feeTx.GetGas
    let msgs := feeTx.GetMsgs
    let isOracle := isOracleTx msgs
    let checked : Option (Option Error) :=
      if ctx.IsCheckTx && !isOracle then checkRequiredFees ctx feeCoins gas taxes
      else some none
    match checked with
    | none => none
    | some (some err) => some (0, some err)
    | some none =>
      if !isOracle then
        match getTxPriority feeCoins (int64 gas) with
        | none => none
        | some priority => some (priority, none)
      else some (MaxInt64, none)

/-! ## `DeductFees`, `checkDeductFee`, `AnteHandle` -/

/-- The function `DeductFees`: the error and the world it leaves. -/
def DeductFees {σ : Type} (bankKeeper : BankKeeper σ) (w : World σ) (acc : Account)
    (fees : Coins) : Option Error × World σ :=
  if !Coins.IsValid fees then
    (some (.Wrapf (.registered .ErrInsufficientFee) "invalid fee amount: %s" [.coins fees]), w)
  else
    let r := bankKeeper.SendCoinsFromAccountToModule w.ledger acc.GetAddress FeeCollectorName fees
    let w1 := w.step (.SendCoinsFromAccountToModule acc.GetAddress FeeCollectorName fees) r.1
    match r.2 with
    | some err => (some (.WrapErrorText (.registered .ErrInsufficientFunds) err), w1)
    | none => (none, w1)

/-- The loop of `checkDeductFee` over the taxes during simulation, with the
current value of `feesOrTax`. -/
def feesOrTaxLoop : Coins → Coins → Option Coins
  | [], feesOrTax => some feesOrTax
  | tax :: rest, feesOrTax =>
    match Coins.AmountOf feesOrTax tax.Denom with
    | none => none
    | some feeAmount =>
      if feeAmount = 0 then
        match Coins.Add feesOrTax [tax] with
        | none => none
        | some sum => feesOrTaxLoop rest sum
      else if feeAmount < tax.Amount then
        let missingAmount := tax.Amount - feeAmount
        match NewCoin tax.Denom missingAmount with
        | none => none
        | some coin =>
          match Coins.Add feesOrTax [coin] with
          | none => none
          | some sum => feesOrTaxLoop rest sum
      else feesOrTaxLoop rest feesOrTax

/-- The value of `feesOrTax` after the simulation-only adjustment of `checkDeductFee`. -/
def simulateFeesOrTax (fee taxes : Coins) : Option Coins :=
  feesOrTaxLoop taxes (if Coins.IsZero fee then taxes else fee)

/-- The value of `needMint` in `checkDeductFee`. -/
def needMint (feesOrTax fee : Coins) : Option Coins :=
  Coins.Sub (Coins.Sort feesOrTax) (Coins.Sort fee)

/-- The part of `checkDeductFee` from the deduction on: transfer `feesOrTax`,
settle the taxes, emit the event. -/
def deductAndSettle {σ : Type} (fd : FeeDecorator σ) (w : World σ) (acc : Account)
    (deductFeesFrom : AccAddress) (fee feesOrTax taxes : Coins) : Option Error × World σ :=
  let emit (w : World σ) : Option Error × World σ :=
    (none, { w with events := w.events ++ [⟨fee, deductFeesFrom⟩] })
  if !Coins.IsZero feesOrTax then
    match DeductFees fd.bankKeeper w acc feesOrTax with
    | (some err, w1) => (some err, w1)
    | (none, w1) =>
      if !Coins.IsZero taxes then
        let r := fd.treasuryKeeper.BurnTaxSplit w1.ledger taxes
        let w2 := w1.step (.BurnTaxSplit taxes) r.1
        match r.2 with
        | some err => (some err, w2)
        | none =>
          emit (w2.step (.RecordEpochTaxProceeds taxes)
            (fd.treasuryKeeper.RecordEpochTaxProceeds w2.ledger taxes))
      else emit w1
  else emit w

/-- The part of `checkDeductFee` after the deduction-target account is resolved:
the simulation-only adjustment and minting, then the deduction. The in-place
`Sort` of `feesOrTax` and `fee` is rendered by passing on the sorted values. -/
def mintAndDeduct {σ : Type} (fd : FeeDecorator σ) (w : World σ) (acc : Account)
    (deductFeesFrom : AccAddress) (fee taxes : Coins) (simulate : Bool) :
    Option (Option Error × World σ) :=
  if simulate then
    match simulateFeesOrTax fee taxes with
    | none => none
    | some feesOrTax =>
      if !Coins.IsZero feesOrTax then
        match needMint feesOrTax fee with
        | none => none
        | some mint =>
          let feesOrTax := Coins.Sort feesOrTax
          let fee := Coins.Sort fee
          if !Coins.IsZero mint then
            let r := fd.bankKeeper.MintCoins w.ledger MintModuleName mint
            let w1 := w.step (.MintCoins MintModuleName mint) r.1
            match r.2 with
            | some err => some (some err, w1)
            | none =>
              let r2 := fd.bankKeeper.SendCoinsFromModuleToAccount w1.ledger MintModuleName
                acc.GetAddress mint
              let w2 := w1.step (.SendCoinsFromModuleToAccount MintModuleName acc.GetAddress mint) r2.1
              match r2.2 with
              | some err => some (some err, w2)
              | none => some (deductAndSettle fd w2 acc deductFeesFrom fee feesOrTax taxes)
          else some (deductAndSettle fd w acc deductFeesFrom fee feesOrTax taxes)
      else some (deductAndSettle fd w acc deductFeesFrom fee feesOrTax taxes)
  else some (deductAndSettle fd w acc deductFeesFrom fee fee taxes)

/-- The part of `checkDeductFee` that resolves the deduction-target account. -/
def resolveAndDeduct {σ : Type} (fd : FeeDecorator σ) (w : World σ)
    (deductFeesFrom : AccAddress) (fee taxes : Coins) (simulate : Bool) :
    Option (Option Error × World σ) :=
  match fd.accountKeeper.GetAccount w.ledger deductFeesFrom with
  | none =>
    some (some (.Wrapf (.registered .ErrUnknownAddress) "fee payer address: %s does not exist"
      [.address deductFeesFrom]), w)
  | some acc => mintAndDeduct fd w acc deductFeesFrom fee taxes simulate

/-- The method `FeeDecorator.checkDeductFee`: `none` is a panic, otherwise the
error and the world it leaves. -/
def checkDeductFee {σ : Type} (fd : FeeDecorator σ) (w : World σ) (feeTx : FeeTx)
    (taxes : Coins) (simulate : Bool) : Option (Option Error × World σ) :=
  match fd.accountKeeper.GetModuleAddress w.ledger FeeCollectorName with
  | none =>
    some (some (.Errorf "fee collector module account (%s) has not been set"
      [.text FeeCollectorName]), w)
  | some _ =>
    let fee := feeTx.GetFee
    let feePayer := feeTx.FeePayer
    match feeTx.FeeGranter with
    | some feeGranter =>
      match fd.feegrantKeeper with
      | none => some (some (.Wrapf (.registered .ErrInvalidRequest) "fee grants are not enabled" []), w)
      | some feegrantKeeper =>
        if !feeGranter.Equals feePayer then
          let r := feegrantKeeper.UseGrantedFees w.ledger feeGranter feePayer fee feeTx.GetMsgs
          let w1 := w.step (.UseGrantedFees feeGranter feePayer fee feeTx.GetMsgs) r.1
          match r.2 with
          | some err =>
            some (some (.Wrapf err "%s does not not allow to pay fees for %s"
              [.address feeGranter, .address feePayer]), w1)
          | none => resolveAndDeduct fd w1 feeGranter fee taxes simulate
        else resolveAndDeduct fd w feeGranter fee taxes simulate
    | none => resolveAndDeduct fd w feePayer fee taxes simulate

/-- The type `sdk.AnteHandler` of the next stage. -/
abbrev AnteHandler (σ : Type) :=
  Context → Tx → Bool → World σ → Option ((Context × Option Error) × World σ)

/-- The body of `AnteHandle` after the gas-limit check: compute the taxes, check
the fee unless simulating, deduct, set the priority and call the next stage. -/
def anteHandleBody {σ : Type} (fd : FeeDecorator σ) (ctx : Context) (w : World σ) (feeTx : FeeTx)
    (simulate : Bool) (next : AnteHandler σ) : Option ((Context × Option Error) × World σ) :=
  let msgs := feeTx.GetMsgs
  let taxes := fd.treasuryKeeper.FilterMsgAndComputeTax ctx w.ledger simulate msgs
  let checked : Option (Int × Option Error) :=
    if !simulate then checkTxFee ctx (.feeTx feeTx) taxes else some (0, none)
  match checked with
  | none => none
  | some (_, some err) => some ((ctx, some err), w)
  | some (priority, none) =>
    match checkDeductFee fd w feeTx taxes simulate with
    | none => none
    | some (some err, w1) => some ((ctx, some err), w1)
    | some (none, w1) => next (ctx.WithPriority priority) (.feeTx feeTx) simulate w1

/-- The method `FeeDecorator.AnteHandle`: `none` is a panic, otherwise the
returned context and error, and the world it leaves. -/
def AnteHandle {σ : Type} (fd : FeeDecorator σ) (ctx : Context) (w : World σ) (tx : Tx)
    (simulate : Bool) (next : AnteHandler σ) : Option ((Context × Option Error) × World σ) :=
  match tx with
  | .other _ => some ((ctx, some (.Wrapf (.registered .ErrTxDecode) "Tx must be a FeeTx" [])), w)
  | .feeTx feeTx =>
    if !simulate && decide (0 < ctx.BlockHeight) && decide (feeTx.GetGas = 0) then
      some ((ctx, some (.Wrapf (.registered .ErrInvalidGasLimit) "must provide positive gas" [])), w)
    else anteHandleBody fd ctx w feeTx simulate next

/-! ## Concrete collaborators for examples -/

/-- Collaborators over a trivial store: every account exists and every call succeeds. -/
def permissiveDecorator (feegrant : Bool) : FeeDecorator Unit where
  accountKeeper :=
    { GetModuleAddress := fun _ _ => some ⟨[0]⟩
      GetAccount := fun _ addr => some ⟨addr⟩ }
  bankKeeper :=
    { MintCoins := fun _ _ _ => ((), none)
      SendCoinsFromModuleToAccount := fun _ _ _ _ => ((), none)
      SendCoinsFromAccountToModule := fun _ _ _ _ => ((), none) }
  feegrantKeeper :=
    if feegrant then some { UseGrantedFees := fun _ _ _ _ _ => ((), none) } else none
  treasuryKeeper :=
    { RecordEpochTaxProceeds := fun _ _ => ()
      FilterMsgAndComputeTax := fun _ _ _ _ => []
      BurnTaxSplit := fun _ _ => ((), none) }

/-- The empty world over the trivial store. -/
def emptyWorld : World Unit := ⟨(), [], []⟩

/-- A next stage that returns its context and no error. -/
def nextOk : AnteHandler Unit := fun ctx _ _ w => some ((ctx, none), w)

/-- A transaction with one non-exempt message, a given fee and gas limit, payer
`[1]` and no granter. -/
def plainTx (fee : Coins) (gas : Nat) : FeeTx :=
  ⟨[⟨false, 0⟩], fee, gas, ⟨[1]⟩, none⟩

/-- A check-phase context at height 10 with minimum gas price `1 denomA`. -/
def checkCtx : Context := ⟨10, true, [⟨"denomA", ⟨10 ^ 18⟩⟩], 0⟩

/-! ## Denomination-wise amounts -/

/-- The amount of a denomination in a coin set: the sum of the amounts of the
coins of that denomination. -/
def amountOf (coins : Coins) (denom : String) : Int :=
  ((coins.filter (fun c => decide (c.Denom = denom))).map Coin.Amount).sum

/-- The calls that mint or that pay out of the mint reserve. -/
def Call.isMint : Call → Bool
  | .MintCoins _ _ => true
  | _ => false

/-- The payout of a module account to an account. -/
def Call.isModulePayout : Call → Bool
  | .SendCoinsFromModuleToAccount _ _ _ => true
  | _ => false

/-! ## Notions used in the statements -/

/-- Strictly increasing denominations. -/
def StrictSorted (coins : Coins) : Prop :=
  coins.Pairwise (fun a b => a.Denom.data < b.Denom.data)

/-- The amount that `checkDeductFee` hands to `DeductFees`: the stated fee outside
simulation, the adjusted `feesOrTax` (after its in-place sort) during simulation. -/
def DeductedAmount (fee taxes : Coins) (simulate : Bool) (amt : Coins) : Prop :=
  (simulate = false ∧ amt = fee) ∨
  (simulate = true ∧ ∃ feesOrTax, simulateFeesOrTax fee taxes = some feesOrTax ∧
    Coins.IsZero feesOrTax = false ∧ amt = Coins.Sort feesOrTax)

/-- The two calls of the simulation-only minting: only during simulation, for a
non-zero `needMint`, into the mint reserve and from there to the account. -/
def MintStep (acc : Account) (fee taxes : Coins) (simulate : Bool) (c : Call) : Prop :=
  simulate = true ∧ ∃ feesOrTax mint, simulateFeesOrTax fee taxes = some feesOrTax ∧
    Coins.IsZero feesOrTax = false ∧ needMint feesOrTax fee = some mint ∧
    Coins.IsZero mint = false ∧
    (c = .MintCoins MintModuleName mint ∨
      c = .SendCoinsFromModuleToAccount MintModuleName acc.GetAddress mint)

/-- The state-changing calls that `checkDeductFee` can make once the
deduction-target account `acc` is resolved. -/
def DeductCall (acc : Account) (fee taxes : Coins) (simulate : Bool) (c : Call) : Prop :=
  (∃ amt, c = .SendCoinsFromAccountToModule acc.GetAddress FeeCollectorName amt ∧
    DeductedAmount fee taxes simulate amt) ∨
  c = .BurnTaxSplit taxes ∨ c = .RecordEpochTaxProceeds taxes ∨
  MintStep acc fee taxes simulate c

/-- The ceiling of `x / 10^18`. -/
def ceilDiv (x : Int) : Int := -((-x) / precisionReuse)

/-- The integer `r` is the least one with `r ≥ price * g`, the decimal `price`
standing for `price.i / 10^18`. -/
def IsCeilOf (price : Dec) (g : Int) (r : Int) : Prop :=
  price.i * g ≤ r * precisionReuse ∧ ∀ r' : Int, price.i * g ≤ r' * precisionReuse → r ≤ r'

/-- The required amount of a denomination: the sum over the minimum-gas-price
entries of that denomination of `ceil(price * gas)`, plus the tax of that
denomination. -/
def requiredAmount (minGasPrices : DecCoins) (gas : Int) (taxes : Coins) (denom : String) : Int :=
  ((minGasPrices.filter (fun gp => decide (gp.Denom = denom))).map
    (fun gp => ceilDiv (gp.Amount.i * gas))).sum + amountOf taxes denom

/-- The stated fee is insufficient: some required amount is non-zero and no coin
of the fee reaches a non-zero required amount of its own denomination. -/
def FeeInsufficient (minGasPrices : DecCoins) (gas : Int) (taxes feeCoins : Coins) : Prop :=
  (∃ d, requiredAmount minGasPrices gas taxes d ≠ 0) ∧
  ¬ ∃ c ∈ feeCoins, requiredAmount minGasPrices gas taxes c.Denom ≠ 0 ∧
      requiredAmount minGasPrices gas taxes c.Denom ≤ c.Amount

/-- The order of `Coins.Sort` is total. -/
instance denomLeTotal : IsTotal Coin (fun a b => a.Denom.data ≤ b.Denom.data) :=
  ⟨fun a b => le_total a.Denom.data b.Denom.data⟩

/-- The order of `Coins.Sort` is transitive. -/
instance denomLeTrans : IsTrans Coin (fun a b => a.Denom.data ≤ b.Denom.data) :=
  ⟨fun _ _ _ h1 h2 => le_trans h1 h2⟩

/-- A context at block height 0, outside check-phase, with no minimum gas price. -/
def genesisCtx : Context := ⟨0, false, [], 0⟩

/-- A context at height 10, outside check-phase, with no minimum gas price. -/
def deliverCtx : Context := ⟨10, false, [], 0⟩

/-- A fee-grant keeper that denies with the collaborator error 3 and a bank whose
transfer to a module fails with the collaborator error 7; all else succeeds. -/
def failingDecorator : FeeDecorator Unit where
  accountKeeper :=
    { GetModuleAddress := fun _ _ => some ⟨[0]⟩
      GetAccount := fun _ addr => some ⟨addr⟩ }
  bankKeeper :=
    { MintCoins := fun _ _ _ => ((), none)
      SendCoinsFromModuleToAccount := fun _ _ _ _ => ((), none)
      SendCoinsFromAccountToModule := fun _ _ _ _ => ((), some (.collaborator 7)) }
  feegrantKeeper := some { UseGrantedFees := fun _ _ _ _ _ => ((), some (.collaborator 3)) }
  treasuryKeeper :=
    { RecordEpochTaxProceeds := fun _ _ => ()
      FilterMsgAndComputeTax := fun _ _ _ _ => []
      BurnTaxSplit := fun _ _ => ((), none) }

/-- The deduction target of `checkDeductFee`: the fee granter when one is set,
otherwise the fee payer. -/
def deductionTarget (feeTx : FeeTx) : AccAddress :=
  match feeTx.FeeGranter with
  | some feeGranter => feeGranter
  | none => feeTx.FeePayer

/-- The errors that `checkDeductFee` and `DeductFees` raise themselves. -/
def StageError (e : Error) : Prop :=
  e = .Errorf "fee collector module account (%s) has not been set" [.text FeeCollectorName] ∨
  e = .Wrapf (.registered .ErrInvalidRequest) "fee grants are not enabled" [] ∨
  (∃ addr, e = .Wrapf (.registered .ErrUnknownAddress) "fee payer address: %s does not exist"
    [.address addr]) ∨
  (∃ fees, e = .Wrapf (.registered .ErrInsufficientFee) "invalid fee amount: %s" [.coins fees])

/-- The forms in which an error of a collaborator leaves `checkDeductFee`: the
error of the fee-grant keeper wrapped with a description, the error of the
transfer to the fee collector as the text of an insufficient-funds error, and
the errors of the mint, of the payout of the mint reserve and of the tax
burn-split as they are. -/
def CollaboratorError {σ : Type} (fd : FeeDecorator σ) (e : Error) : Prop :=
  (∃ keeper s granter grantee fee msgs err, fd.feegrantKeeper = some keeper ∧
    (keeper.UseGrantedFees s granter grantee fee msgs).2 = some err ∧
    e = .Wrapf err "%s does not not allow to pay fees for %s"
      [.address granter, .address grantee]) ∨
  (∃ s sender recipientModule amt err,
    (fd.bankKeeper.SendCoinsFromAccountToModule s sender recipientModule amt).2 = some err ∧
    e = .WrapErrorText (.registered .ErrInsufficientFunds) err) ∨
  (∃ s moduleName amt, (fd.bankKeeper.MintCoins s moduleName amt).2 = some e) ∨
  (∃ s senderModule recipient amt,
    (fd.bankKeeper.SendCoinsFromModuleToAccount s senderModule recipient amt).2 = some e) ∨
  (∃ s taxes, (fd.treasuryKeeper.BurnTaxSplit s taxes).2 = some e)

/-- No error of a collaborator, in any of the forms in which it leaves
`checkDeductFee`, is an invalid-gas-limit error. -/
def NoGasLimitError {σ : Type} (fd : FeeDecorator σ) : Prop :=
  ∀ e, CollaboratorError fd e → e.kind ≠ some .ErrInvalidGasLimit

/-- The next stage returns no invalid-gas-limit error. -/
def NextNoGasLimitError {σ : Type} (next : AnteHandler σ) : Prop :=
  ∀ ctx tx simulate w r e, next ctx tx simulate w = some r → r.1.2 = some e →
    e.kind ≠ some .ErrInvalidGasLimit

/-! ## The staking keeper's parameters (`x/staking/keeper/params.go`) -/

/-- The type `types.Params` of x/staking; the zero value of `MinCommissionRate`
is `none`. -/
structure Params where
  UnbondingTime : Int
  MaxValidators : Nat
  MaxEntries : Nat
  HistoricalEntries : Nat
  BondDenom : String
  MinCommissionRate : Option Dec
deriving DecidableEq, Repr

/-- The zero value of `types.Params`, the value of `var params types.Params`. -/
def Params.zero : Params := ⟨0, 0, 0, 0, "", none⟩

/-- What a context holds of the legacy parameter subspace: for each parameter the
stored value, if any. -/
structure Subspace where
  UnbondingTime : Option Int
  MaxValidators : Option Nat
  MaxEntries : Option Nat
  HistoricalEntries : Option Nat
  BondDenom : Option String
  MinCommissionRate : Option Dec
deriving DecidableEq, Repr

/-- The method `Subspace.GetParamSetIfExists`: every parameter that the subspace
holds is written into `params`, the others are left as they are. -/
def Subspace.GetParamSetIfExists (ss : Subspace) (params : Params) : Params :=
  { UnbondingTime := ss.UnbondingTime.getD params.UnbondingTime
    MaxValidators := ss.MaxValidators.getD params.MaxValidators
    MaxEntries := ss.MaxEntries.getD params.MaxEntries
    HistoricalEntries := ss.HistoricalEntries.getD params.HistoricalEntries
    BondDenom := ss.BondDenom.getD params.BondDenom
    MinCommissionRate :=
      match ss.MinCommissionRate with
      | some rate => some rate
      | none => params.MinCommissionRate }

/-- The type `*storetypes.KVStoreKey`: a pointer, here the address it holds, to
a key with a name. Two store keys are the same key when they are the same
pointer, whatever their names. -/
structure KVStoreKey where
  pointer : Nat
  name : String
deriving DecidableEq, Repr

/-- A key-value store: the value under a key, if any. -/
abbrev KVStore := List Nat → Option (List Nat)

/-- The context as `GetParams` reads it: the stores mounted in the multistore,
each under its store key, and the content of the legacy parameter subspace. -/
structure StakingContext where
  stores : List (KVStoreKey × KVStore)
  legacySubspace : Subspace

/-- The function `sdk.NewKVStoreKey`: a newly allocated key with the given name;
its pointer differs from the pointers of the keys that exist. -/
def NewKVStoreKey (ctx : StakingContext) (name : String) : KVStoreKey :=
  ⟨(ctx.stores.map fun s => s.1.pointer).foldr max 0 + 1, name⟩

/-- The method `Context.KVStore`: the store mounted under the key, found by the
identity of the key; `none` is the panic of the multistore for a key under
which no store is mounted. -/
def StakingContext.KVStore (ctx : StakingContext) (key : KVStoreKey) : Option KVStore :=
  (ctx.stores.find? fun s => decide (s.1.pointer = key.pointer)).map fun s => s.2

/-- The constant `stakingtypes.StoreKey`. -/
def StakingStoreKey : String := "staking"

/-- The constant `types.ParamsKey`. -/
def ParamsKey : List Nat := [0x51]

/-- The staking `Keeper`: the embedded base keeper, of which `GetParams` is used
and taken as given. -/
structure Keeper where
  baseGetParams : StakingContext → Params

/-- The method `Keeper.getLegacyParams`. -/
def Keeper.getLegacyParams (_k : Keeper) (ctx : StakingContext) : Params :=
  ctx.legacySubspace.GetParamSetIfExists Params.zero

/-- The method `Keeper.GetParams`: it makes a store key named `staking`, looks
the store up under it and returns the legacy parameters when the store has no
value under `ParamsKey`, otherwise the parameters of the base keeper; `none` is
a panic. -/
def Keeper.GetParams (k : Keeper) (ctx : StakingContext) : Option Params :=
  let key := NewKVStoreKey ctx StakingStoreKey
  match ctx.KVStore key with
  | none => none
  | some store =>
    match store ParamsKey with
    | none => some (k.getLegacyParams ctx)
    | some _ => some (k.baseGetParams ctx)

/-- A context whose multistore holds the staking store under the key that the
application mounted it with, with a value under `ParamsKey`, and whose legacy
subspace holds the bond denomination. -/
def stakingCtx : StakingContext :=
  ⟨[(⟨1, "staking"⟩, fun key => if key = ParamsKey then some [1] else none)],
    ⟨none, none, none, none, some "uluna", none⟩⟩

/-- A keeper whose base keeper returns fixed parameters. -/
def stakingKeeper : Keeper := ⟨fun _ => ⟨1, 2, 3, 4, "uluna", none⟩⟩

/-! ## The ledger behind the bank keeper -/

/-- Modelled from the spec: the ledger behind `BankKeeper` is an external
collaborator; the spec gives its interface as "move coins between
accounts/modules; mint coins into a named module reserve". The laws say what a
successful call does to the balances and to the total supply, observed through
`balance` and `supply`, the account of a module being `moduleAddress`. -/
structure LedgerLaws {σ : Type} (bankKeeper : BankKeeper σ)
    (balance : σ → AccAddress → String → Int) (supply : σ → String → Int)
    (moduleAddress : String → AccAddress) : Prop where
  mint : ∀ s moduleName amt, (bankKeeper.MintCoins s moduleName amt).2 = none →
    ∀ d, supply (bankKeeper.MintCoins s moduleName amt).1 d = supply s d + amountOf amt d ∧
      ∀ a, balance (bankKeeper.MintCoins s moduleName amt).1 a d
        = balance s a d + (if a = moduleAddress moduleName then amountOf amt d else 0)
  moduleToAccount : ∀ s senderModule recipient amt,
    (bankKeeper.SendCoinsFromModuleToAccount s senderModule recipient amt).2 = none →
    ∀ d, supply (bankKeeper.SendCoinsFromModuleToAccount s senderModule recipient amt).1 d
        = supply s d ∧
      ∀ a, balance (bankKeeper.SendCoinsFromModuleToAccount s senderModule recipient amt).1 a d
        = balance s a d - (if a = moduleAddress senderModule then amountOf amt d else 0)
          + (if a = recipient then amountOf amt d else 0)
  accountToModule : ∀ s sender recipientModule amt,
    (bankKeeper.SendCoinsFromAccountToModule s sender recipientModule amt).2 = none →
    ∀ d, supply (bankKeeper.SendCoinsFromAccountToModule s sender recipientModule amt).1 d
        = supply s d ∧
      ∀ a, balance (bankKeeper.SendCoinsFromAccountToModule s sender recipientModule amt).1 a d
        = balance s a d - (if a = sender then amountOf amt d else 0)
          + (if a = moduleAddress recipientModule then amountOf amt d else 0)

/-- The world after the two minting steps of the simulation: `needMint` minted
into the mint reserve and paid out to the account. -/
def worldAfterMint {σ : Type} (fd : FeeDecorator σ) (w : World σ) (acc : Account)
    (mint : Coins) : World σ :=
  let w1 := w.step (.MintCoins MintModuleName mint)
    (fd.bankKeeper.MintCoins w.ledger MintModuleName mint).1
  w1.step (.SendCoinsFromModuleToAccount MintModuleName acc.GetAddress mint)
    (fd.bankKeeper.SendCoinsFromModuleToAccount w1.ledger MintModuleName acc.GetAddress mint).1

/-- The world after the three ledger steps of the simulation: `needMint` minted
and paid out to the account, then `feesOrTax` moved from the account to the fee
collector. -/
def worldAfterDeduction {σ : Type} (fd : FeeDecorator σ) (w : World σ) (acc : Account)
    (mint feesOrTax : Coins) : World σ :=
  let w2 := worldAfterMint fd w acc mint
  w2.step (.SendCoinsFromAccountToModule acc.GetAddress FeeCollectorName feesOrTax)
    (fd.bankKeeper.SendCoinsFromAccountToModule w2.ledger acc.GetAddress FeeCollectorName
      feesOrTax).1

/-- A ledger of balances per address and denomination with a total supply. -/
structure SimpleLedger where
  balance : AccAddress → String → Int
  supply : String → Int

/-- The address of a module account in the simple ledger. -/
def simpleModuleAddress (moduleName : String) : AccAddress :=
  ⟨0 :: moduleName.data.map Char.toNat⟩

/-- Move an amount between two addresses of the simple ledger. -/
def SimpleLedger.move (s : SimpleLedger) (sender recipient : AccAddress) (amt : Coins) :
    SimpleLedger :=
  { s with balance := fun a d => s.balance a d - (if a = sender then amountOf amt d else 0)
      + (if a = recipient then amountOf amt d else 0) }

/-- A bank keeper over the simple ledger whose calls always succeed. -/
def simpleBank : BankKeeper SimpleLedger where
  MintCoins := fun s moduleName amt =>
    ({ balance := fun a d => s.balance a d
          + (if a = simpleModuleAddress moduleName then amountOf amt d else 0)
       supply := fun d => s.supply d + amountOf amt d }, none)
  SendCoinsFromModuleToAccount := fun s senderModule recipient amt =>
    (s.move (simpleModuleAddress senderModule) recipient amt, none)
  SendCoinsFromAccountToModule := fun s sender recipientModule amt =>
    (s.move sender (simpleModuleAddress recipientModule) amt, none)

/-- A decorator over the simple ledger: every account exists, no fee grants. -/
def simpleDecorator : FeeDecorator SimpleLedger where
  accountKeeper :=
    { GetModuleAddress := fun _ name => some (simpleModuleAddress name)
      GetAccount := fun _ addr => some ⟨addr⟩ }
  bankKeeper := simpleBank
  feegrantKeeper := none
  treasuryKeeper :=
    { RecordEpochTaxProceeds := fun s _ => s
      FilterMsgAndComputeTax := fun _ _ _ _ => []
      BurnTaxSplit := fun s _ => (s, none) }

/-- The simple ledger with no balance and no supply. -/
def simpleWorld : World SimpleLedger := ⟨⟨fun _ _ => 0, fun _ => 0⟩, [], []⟩

/-! ## Coin sets as maps from denominations to amounts -/

theorem amountOf_nil (d : String) : amountOf [] d = 0 := rfl

theorem amountOf_cons (c : Coin) (cs : Coins) (d : String) :
    amountOf (c :: cs) d = (if c.Denom = d then c.Amount else 0) + amountOf cs d := by
  unfold amountOf
  by_cases h : c.Denom = d <;> simp [List.filter_cons, h]

theorem amountOf_append (a b : Coins) (d : String) :
    amountOf (a ++ b) d = amountOf a d + amountOf b d := by
  induction a with
  | nil => simp [amountOf_nil]
  | cons c cs ih => simp only [List.cons_append, amountOf_cons, ih]; ring

theorem amountOf_perm {a b : Coins} (h : a.Perm b) (d : String) : amountOf a d = amountOf b d := by
  unfold amountOf
  exact ((h.filter _).map _).sum_eq

theorem amountOf_eq_zero_of_not_mem (coins : Coins) (d : String)
    (h : ∀ c ∈ coins, c.Denom ≠ d) : amountOf coins d = 0 := by
  induction coins with
  | nil => rfl
  | cons c cs ih =>
    rw [amountOf_cons, if_neg (h c (List.mem_cons_self _ _)),
      ih (fun x hx => h x (List.mem_cons_of_mem _ hx))]
    rfl

theorem amountOf_removeZero (coins : Coins) (d : String) :
    amountOf (coins.filter (fun c => !c.IsZero)) d = amountOf coins d := by
  induction coins with
  | nil => rfl
  | cons c cs ih =>
    by_cases hz : c.Amount = 0
    · have : (fun c : Coin => !c.IsZero) c = false := by simp [Coin.IsZero, hz]
      rw [List.filter_cons_of_neg (by simp [Coin.IsZero, hz]), ih, amountOf_cons, hz]
      simp
    · rw [List.filter_cons_of_pos (by simp [Coin.IsZero, hz]), amountOf_cons, amountOf_cons, ih]

theorem denom_ne_of_lt {a b : String} (h : a.data < b.data) : a ≠ b := by
  intro e
  subst e
  exact lt_irrefl _ h

theorem StrictSorted.amountOf_mem {coins : Coins} (h : StrictSorted coins) {c : Coin}
    (hc : c ∈ coins) : amountOf coins c.Denom = c.Amount := by
  induction coins with
  | nil => cases hc
  | cons x xs ih =>
    have hp := List.pairwise_cons.mp h
    rw [amountOf_cons]
    rcases List.mem_cons.mp hc with e | hm
    · subst e
      rw [if_pos rfl, amountOf_eq_zero_of_not_mem xs _ (fun y hy => (denom_ne_of_lt (hp.1 y hy)).symm)]
      simp
    · rw [if_neg (denom_ne_of_lt (hp.1 c hm)), ih hp.2 hm]
      simp

theorem StrictSorted.isSorted {coins : Coins} (h : StrictSorted coins) :
    Coins.isSorted coins = true := by
  induction coins with
  | nil => rfl
  | cons a rest ih =>
    cases rest with
    | nil => rfl
    | cons b rest =>
      have hp := List.pairwise_cons.mp h
      have hab : a.Denom.data < b.Denom.data := hp.1 b (List.mem_cons_self _ _)
      simp only [Coins.isSorted, Bool.and_eq_true, Bool.not_eq_true', decide_eq_false_iff_not]
      exact ⟨not_lt.mpr (le_of_lt hab), ih hp.2⟩

theorem find_eq_none_of_forall_ne (coins : Coins) (d : String) (h : ∀ c ∈ coins, c.Denom ≠ d) :
    coins.find? (fun c => decide (c.Denom = d)) = none := by
  rw [List.find?_eq_none]
  intro c hc
  simpa using h c hc

theorem take_cons_drop {α : Type} : ∀ (l : List α) (i : Nat) (c : α), l.get? i = some c →
    l.take i ++ c :: l.drop (i + 1) = l
  | [], i, c, h => by simp at h
  | x :: xs, 0, c, h => by
    simp at h
    simp [h]
  | x :: xs, i + 1, c, h => by
    have h2 : xs.get? i = some c := by simpa using h
    simp [take_cons_drop xs i c h2]

theorem findAux_succ (n : Nat) (coins : Coins) (d : String) (h : 2 ≤ coins.length) :
    Coins.findAux (n + 1) coins d =
      match coins.get? (coins.length / 2) with
      | none => none
      | some coin =>
        if d.data < coin.Denom.data then Coins.findAux n (coins.take (coins.length / 2)) d
        else if d = coin.Denom then some coin
        else Coins.findAux n (coins.drop (coins.length / 2 + 1)) d := by
  match coins, h with
  | _ :: _ :: _, _ => rfl

theorem findAux_eq_find (n : Nat) : ∀ (coins : Coins) (d : String), StrictSorted coins →
    coins.length ≤ n → Coins.findAux n coins d = coins.find? (fun c => decide (c.Denom = d)) := by
  induction n with
  | zero =>
    intro coins d _ hl
    have : coins = [] := List.length_eq_zero.mp (Nat.le_zero.mp hl)
    subst this
    rfl
  | succ n ih =>
    intro coins d hs hl
    by_cases h2 : 2 ≤ coins.length
    · have hmid : coins.length / 2 < coins.length := Nat.div_lt_self (by omega) (by decide)
      obtain ⟨coin, hcoin⟩ : ∃ coin, coins.get? (coins.length / 2) = some coin :=
        ⟨_, List.get?_eq_get hmid⟩
      have hsplit := take_cons_drop coins _ coin hcoin
      have hs' := hs
      unfold StrictSorted at hs'
      rw [← hsplit, List.pairwise_append] at hs'
      obtain ⟨hL, hR, hLR⟩ := hs'
      have hRp := List.pairwise_cons.mp hR
      have hlenL : (coins.take (coins.length / 2)).length ≤ n := by
        rw [List.length_take]
        have := Nat.min_le_left (coins.length / 2) coins.length
        omega
      have hlenR : (coins.drop (coins.length / 2 + 1)).length ≤ n := by
        rw [List.length_drop]
        omega
      rw [findAux_succ n coins d h2, hcoin]
      simp only
      conv_rhs => rw [← hsplit]
      rw [List.find?_append]
      by_cases h1 : d.data < coin.Denom.data
      · rw [if_pos h1, ih _ _ hL hlenL]
        have : (coin :: coins.drop (coins.length / 2 + 1)).find?
            (fun c => decide (c.Denom = d)) = none := by
          apply find_eq_none_of_forall_ne
          intro c hc
          rcases List.mem_cons.mp hc with e | hm
          · subst e; exact (denom_ne_of_lt h1).symm
          · exact (denom_ne_of_lt (lt_trans h1 (hRp.1 c hm))).symm
        rw [this]
        simp
      · rw [if_neg h1]
        have hLnone : (coins.take (coins.length / 2)).find?
            (fun c => decide (c.Denom = d)) = none := by
          apply find_eq_none_of_forall_ne
          intro c hc e
          have := hLR c hc coin (List.mem_cons_self _ _)
          rw [e] at this
          exact h1 this
        rw [hLnone]
        by_cases h3 : d = coin.Denom
        · rw [if_pos h3]
          simp [List.find?_cons, h3]
        · rw [if_neg h3, ih _ _ hRp.2 hlenR]
          have : decide (coin.Denom = d) = false := by simpa using fun e => h3 e.symm
          simp [List.find?_cons, this]
    · match coins, h2 with
      | [], _ => rfl
      | [c], _ =>
        by_cases h : c.Denom = d <;> simp [Coins.findAux, h]
      | _ :: _ :: _, h2 => exact absurd (by simp) h2

theorem StrictSorted.find_amount {coins : Coins} (h : StrictSorted coins) (d : String) :
    (match coins.find? (fun c => decide (c.Denom = d)) with
      | some c => c.Amount
      | none => 0) = amountOf coins d := by
  cases hf : coins.find? (fun c => decide (c.Denom = d)) with
  | none =>
    rw [List.find?_eq_none] at hf
    exact (amountOf_eq_zero_of_not_mem coins d (fun c hc => by simpa using hf c hc)).symm
  | some c =>
    have hd : c.Denom = d := by simpa using List.find?_some hf
    have hm : c ∈ coins := List.mem_of_find?_eq_some hf
    simp only
    rw [← hd, h.amountOf_mem hm]

theorem StrictSorted.AmountOfNoDenomValidation {coins : Coins} (h : StrictSorted coins)
    (d : String) : Coins.AmountOfNoDenomValidation coins d = amountOf coins d := by
  unfold Coins.AmountOfNoDenomValidation Coins.Find
  rw [findAux_eq_find _ _ _ h (le_refl _)]
  exact h.find_amount d

theorem StrictSorted.AmountOf {coins : Coins} (h : StrictSorted coins) {d : String}
    (hd : ValidateDenom d = true) : Coins.AmountOf coins d = some (amountOf coins d) := by
  simp [Coins.AmountOf, hd, h.AmountOfNoDenomValidation]

/-! ## Sorting and `safeAdd` -/

theorem Sort_perm (coins : Coins) : (Coins.Sort coins).Perm coins :=
  List.perm_insertionSort _ coins

theorem Sort_sorted (coins : Coins) :
    (Coins.Sort coins).Pairwise (fun a b => a.Denom.data ≤ b.Denom.data) :=
  List.sorted_insertionSort _ coins

theorem StrictSorted.Sort_eq {coins : Coins} (h : StrictSorted coins) : Coins.Sort coins = coins :=
  List.Sorted.insertionSort_eq (List.Pairwise.imp (fun hab => le_of_lt hab) h)

theorem strictSorted_Sort_of_nodup (coins : Coins) (h : (coins.map Coin.Denom).Nodup) :
    StrictSorted (Coins.Sort coins) := by
  have hn : ((Coins.Sort coins).map Coin.Denom).Nodup :=
    ((Sort_perm coins).map Coin.Denom).nodup_iff.mpr h
  have hne : (Coins.Sort coins).Pairwise (fun a b => a.Denom ≠ b.Denom) :=
    List.pairwise_map.mp hn
  refine ((Sort_sorted coins).and hne).imp ?_
  intro a b hab
  refine lt_of_le_of_ne hab.1 (fun e => hab.2 (String.ext e))

theorem amountOf_map_keys (keys : List String) (g : String → Int) (hn : keys.Nodup) (d : String) :
    amountOf (keys.map fun k => (⟨k, g k⟩ : Coin)) d = if d ∈ keys then g d else 0 := by
  induction keys with
  | nil => rfl
  | cons k ks ih =>
    have hp := List.nodup_cons.mp hn
    rw [List.map_cons, amountOf_cons, ih hp.2]
    by_cases hk : k = d
    · subst hk
      simp [hp.1]
    · have : ¬ d = k := fun e => hk e.symm
      simp [hk, this]

theorem safeAdd_spec (a b : Coins) (ha : Coins.isSorted a = true) (hb : Coins.isSorted b = true) :
    ∃ r, Coins.safeAdd a b = some r ∧ StrictSorted r ∧ (∀ c ∈ r, c.Amount ≠ 0) ∧
      (∀ d, amountOf r d = amountOf a d + amountOf b d) := by
  refine ⟨_, by simp only [Coins.safeAdd, ha, hb]; rfl, ?_, ?_, ?_⟩
  · apply strictSorted_Sort_of_nodup
    refine List.Nodup.sublist (List.Sublist.map _ (List.filter_sublist _)) ?_
    rw [List.map_map]
    have : (Coin.Denom ∘ fun denom => (⟨denom, ((List.filter (fun c => decide (c.Denom = denom))
        (a ++ b)).map Coin.Amount).sum⟩ : Coin)) = id := rfl
    rw [this, List.map_id]
    exact List.nodup_dedup _
  · intro c hc
    have hc' := (Sort_perm _).mem_iff.mp hc
    have := (List.mem_filter.mp hc').2
    simpa [Coin.IsZero] using this
  · intro d
    rw [amountOf_perm (Sort_perm _), amountOf_removeZero]
    have h := amountOf_map_keys ((a ++ b).map Coin.Denom).dedup (amountOf (a ++ b))
      (List.nodup_dedup _) d
    rw [← amountOf_append]
    refine h.trans ?_
    split_ifs with hm
    · rfl
    · symm
      apply amountOf_eq_zero_of_not_mem
      intro c hc e
      apply hm
      rw [List.mem_dedup]
      exact List.mem_map.mpr ⟨c, hc, e⟩

theorem Add_spec (a b : Coins) (ha : Coins.isSorted a = true) (hb : Coins.isSorted b = true) :
    ∃ r, Coins.Add a b = some r ∧ StrictSorted r ∧ (∀ c ∈ r, c.Amount ≠ 0) ∧
      (∀ d, amountOf r d = amountOf a d + amountOf b d) :=
  safeAdd_spec a b ha hb

/-! ## Valid coin sets -/

theorem validateLoop_spec : ∀ (coins : Coins) (low : String) (seen : List String),
    Coins.validateLoop low seen coins = true →
    (∀ c ∈ coins, low.data < c.Denom.data) ∧ StrictSorted coins ∧
      ∀ c ∈ coins, ValidateDenom c.Denom = true ∧ 0 < c.Amount
  | [], _, _, _ => ⟨by simp, List.Pairwise.nil, by simp⟩
  | coin :: rest, low, seen, h => by
    unfold Coins.validateLoop at h
    split_ifs at h with h1 h2 h3 h4
    have ih := validateLoop_spec rest coin.Denom (coin.Denom :: seen) h
    have hlow : low.data < coin.Denom.data := by simpa using h3
    have hv : ValidateDenom coin.Denom = true := by simpa using h2
    have hp : 0 < coin.Amount := by simpa [Coin.IsPositive] using h4
    refine ⟨?_, ?_, ?_⟩
    · intro c hc
      rcases List.mem_cons.mp hc with e | hm
      · subst e; exact hlow
      · exact lt_trans hlow (ih.1 c hm)
    · exact List.pairwise_cons.mpr ⟨ih.1, ih.2.1⟩
    · intro c hc
      rcases List.mem_cons.mp hc with e | hm
      · subst e; exact ⟨hv, hp⟩
      · exact ih.2.2 c hm

theorem Validate_spec (coins : Coins) (h : Coins.Validate coins = true) :
    StrictSorted coins ∧ ∀ c ∈ coins, ValidateDenom c.Denom = true ∧ 0 < c.Amount := by
  match coins, h with
  | [], _ => exact ⟨List.Pairwise.nil, by simp⟩
  | [c], h =>
    simp only [Coins.Validate, Bool.and_eq_true, Coin.IsPositive, decide_eq_true_eq] at h
    exact ⟨List.pairwise_singleton _ _, by simpa using h⟩
  | c :: c2 :: rest, h =>
    simp only [Coins.Validate, Bool.and_eq_true, Coin.IsPositive, decide_eq_true_eq] at h
    have ih := validateLoop_spec (c2 :: rest) c.Denom [c.Denom] h.2
    refine ⟨List.pairwise_cons.mpr ⟨ih.1, ih.2.1⟩, ?_⟩
    intro x hx
    rcases List.mem_cons.mp hx with e | hm
    · subst e; exact h.1
    · exact ih.2.2 x hm

theorem validateLoop_of_sorted : ∀ (coins : Coins) (low : String) (seen : List String),
    (∀ s ∈ seen, s.data ≤ low.data) → (∀ c ∈ coins, low.data < c.Denom.data) →
    StrictSorted coins → (∀ c ∈ coins, ValidateDenom c.Denom = true ∧ 0 < c.Amount) →
    Coins.validateLoop low seen coins = true
  | [], _, _, _, _, _, _ => rfl
  | coin :: rest, low, seen, hseen, hlow, hs, hv => by
    have hp := List.pairwise_cons.mp hs
    have hl := hlow coin (List.mem_cons_self _ _)
    have hvc := hv coin (List.mem_cons_self _ _)
    unfold Coins.validateLoop
    have h1 : seen.contains coin.Denom = false := by
      rw [Bool.eq_false_iff]
      intro hc
      have hm : coin.Denom ∈ seen := by simpa using hc
      exact absurd (hseen _ hm) (not_le.mpr hl)
    have h3 : ¬ coin.Denom.data ≤ low.data := not_le.mpr hl
    have h4 : coin.IsPositive = true := by simpa [Coin.IsPositive] using hvc.2
    simp only [h1, hvc.1, h3, h4, Bool.false_eq_true, if_false, Bool.not_true, decide_False]
    apply validateLoop_of_sorted rest coin.Denom (coin.Denom :: seen)
    · intro s hs'
      rcases List.mem_cons.mp hs' with e | hm
      · subst e; exact le_refl _
      · exact le_trans (hseen s hm) (le_of_lt hl)
    · exact hp.1
    · exact hp.2
    · exact fun c hc => hv c (List.mem_cons_of_mem _ hc)

theorem Validate_of_sorted (coins : Coins) (hs : StrictSorted coins)
    (hv : ∀ c ∈ coins, ValidateDenom c.Denom = true ∧ 0 < c.Amount) :
    Coins.Validate coins = true := by
  match coins, hs, hv with
  | [], _, _ => rfl
  | [c], _, hv =>
    have := hv c (List.mem_cons_self _ _)
    simp [Coins.Validate, Coin.IsPositive, this.1, this.2]
  | c :: c2 :: rest, hs, hv =>
    have := hv c (List.mem_cons_self _ _)
    have hp := List.pairwise_cons.mp hs
    simp only [Coins.Validate, Coin.IsPositive, this.1, this.2, decide_True, Bool.and_self,
      Bool.true_and]
    apply validateLoop_of_sorted
    · intro s hs'
      simp at hs'
      subst hs'
      exact le_refl _
    · exact hp.1
    · exact hp.2
    · exact fun x hx => hv x (List.mem_cons_of_mem _ hx)

/-! ## The simulation-only adjustment of `feesOrTax` and `needMint` -/

theorem isSorted_singleton (c : Coin) : Coins.isSorted [c] = true := rfl

theorem amountOf_singleton (c : Coin) (d : String) :
    amountOf [c] d = if c.Denom = d then c.Amount else 0 := by
  rw [amountOf_cons, amountOf_nil, add_zero]

theorem feesOrTaxLoop_spec : ∀ (taxes f : Coins), StrictSorted taxes →
    (∀ c ∈ taxes, ValidateDenom c.Denom = true ∧ 0 < c.Amount) → StrictSorted f →
    ∃ r, feesOrTaxLoop taxes f = some r ∧ StrictSorted r ∧
      ∀ d, amountOf r d = if (∃ c ∈ taxes, c.Denom = d) then max (amountOf f d) (amountOf taxes d)
        else amountOf f d
  | [], f, _, _, hf => ⟨f, rfl, hf, fun d => by simp⟩
  | tax :: rest, f, ht, hv, hf => by
    have hp := List.pairwise_cons.mp ht
    have hvt := hv tax (List.mem_cons_self _ _)
    have hvr : ∀ c ∈ rest, ValidateDenom c.Denom = true ∧ 0 < c.Amount :=
      fun c hc => hv c (List.mem_cons_of_mem _ hc)
    have hrest0 : amountOf rest tax.Denom = 0 :=
      amountOf_eq_zero_of_not_mem rest _ (fun y hy => (denom_ne_of_lt (hp.1 y hy)).symm)
    -- the value of `feesOrTax` after the iteration for `tax`
    have step : ∃ f', (match Coins.AmountOf f tax.Denom with
        | none => none
        | some feeAmount =>
          if feeAmount = 0 then
            match Coins.Add f [tax] with
            | none => none
            | some sum => feesOrTaxLoop rest sum
          else if feeAmount < tax.Amount then
            match NewCoin tax.Denom (tax.Amount - feeAmount) with
            | none => none
            | some coin =>
              match Coins.Add f [coin] with
              | none => none
              | some sum => feesOrTaxLoop rest sum
          else feesOrTaxLoop rest f) = feesOrTaxLoop rest f' ∧ StrictSorted f' ∧
        ∀ d, amountOf f' d = if tax.Denom = d then max (amountOf f d) tax.Amount
          else amountOf f d := by
      rw [hf.AmountOf hvt.1]
      simp only
      by_cases h0 : amountOf f tax.Denom = 0
      · obtain ⟨s, hs, hss, _, hsa⟩ := Add_spec f [tax] hf.isSorted (isSorted_singleton tax)
        refine ⟨s, by rw [if_pos h0, hs], hss, fun d => ?_⟩
        rw [hsa d, amountOf_singleton]
        by_cases hd : tax.Denom = d
        · subst hd
          rw [if_pos rfl, if_pos rfl, h0, zero_add, max_eq_right (le_of_lt hvt.2)]
        · rw [if_neg hd, if_neg hd, add_zero]
      · rw [if_neg h0]
        by_cases hlt : amountOf f tax.Denom < tax.Amount
        · have hnc : NewCoin tax.Denom (tax.Amount - amountOf f tax.Denom)
              = some ⟨tax.Denom, tax.Amount - amountOf f tax.Denom⟩ := by
            have : ¬ (tax.Amount - amountOf f tax.Denom < 0) := by omega
            simp [NewCoin, Coin.Validate, hvt.1, Coin.IsNegative, this]
          obtain ⟨s, hs, hss, _, hsa⟩ := Add_spec f [⟨tax.Denom, tax.Amount - amountOf f tax.Denom⟩]
            hf.isSorted (isSorted_singleton _)
          refine ⟨s, by rw [if_pos hlt, hnc]; simp only; rw [hs], hss, fun d => ?_⟩
          rw [hsa d, amountOf_singleton]
          by_cases hd : tax.Denom = d
          · subst hd
            simp only [if_true]
            rw [max_eq_right (le_of_lt hlt)]
            ring
          · simp only [hd, if_false, add_zero]
        · refine ⟨f, by rw [if_neg hlt], hf, fun d => ?_⟩
          by_cases hd : tax.Denom = d
          · subst hd
            rw [if_pos rfl, max_eq_left (not_lt.mp hlt)]
          · rw [if_neg hd]
    obtain ⟨f', hstep, hf', hamt⟩ := step
    obtain ⟨r, hr, hrs, hra⟩ := feesOrTaxLoop_spec rest f' hp.2 hvr hf'
    refine ⟨r, ?_, hrs, fun d => ?_⟩
    · rw [feesOrTaxLoop, hstep, hr]
    · rw [hra d, hamt d, amountOf_cons]
      by_cases hd : tax.Denom = d
      · subst hd
        have hno : ¬ ∃ c ∈ rest, c.Denom = tax.Denom :=
          fun ⟨c, hc, e⟩ => denom_ne_of_lt (hp.1 c hc) e.symm
        have hyes : ∃ c ∈ tax :: rest, c.Denom = tax.Denom := ⟨tax, List.mem_cons_self _ _, rfl⟩
        rw [if_neg hno, if_pos rfl, if_pos hyes, if_pos rfl, hrest0, add_zero]
      · have hiff : (∃ c ∈ tax :: rest, c.Denom = d) ↔ ∃ c ∈ rest, c.Denom = d := by
          constructor
          · rintro ⟨c, hc, e⟩
            rcases List.mem_cons.mp hc with e' | hm
            · subst e'; exact absurd e hd
            · exact ⟨c, hm, e⟩
          · rintro ⟨c, hc, e⟩
            exact ⟨c, List.mem_cons_of_mem _ hc, e⟩
        simp only [hd, if_false, zero_add, hiff]

theorem amountOf_nonneg (coins : Coins) (h : ∀ c ∈ coins, 0 < c.Amount) (d : String) :
    0 ≤ amountOf coins d := by
  induction coins with
  | nil => exact le_refl _
  | cons c cs ih =>
    rw [amountOf_cons]
    have h1 := h c (List.mem_cons_self _ _)
    have h2 := ih (fun x hx => h x (List.mem_cons_of_mem _ hx))
    split_ifs <;> omega

theorem IsZero_of_valid (coins : Coins) (h : ∀ c ∈ coins, 0 < c.Amount) :
    Coins.IsZero coins = true ↔ coins = [] := by
  constructor
  · intro hz
    cases coins with
    | nil => rfl
    | cons c cs =>
      have := h c (List.mem_cons_self _ _)
      simp [Coins.IsZero, Coin.IsZero] at hz
      omega
  · intro e
    subst e
    rfl

/-- For valid fee and taxes the adjusted `feesOrTax` is computed, is strictly
sorted, and holds in every denomination the larger of the fee and the tax. -/
theorem simulateFeesOrTax_spec (fee taxes : Coins) (hfee : Coins.IsValid fee = true)
    (htax : Coins.IsValid taxes = true) :
    ∃ r, simulateFeesOrTax fee taxes = some r ∧ StrictSorted r ∧
      ∀ d, amountOf r d = max (amountOf fee d) (amountOf taxes d) := by
  obtain ⟨hfs, hfv⟩ := Validate_spec fee hfee
  obtain ⟨hts, htv⟩ := Validate_spec taxes htax
  have hfn := amountOf_nonneg fee (fun c hc => (hfv c hc).2)
  have htn := amountOf_nonneg taxes (fun c hc => (htv c hc).2)
  unfold simulateFeesOrTax
  by_cases hz : Coins.IsZero fee = true
  · have he := (IsZero_of_valid fee (fun c hc => (hfv c hc).2)).mp hz
    subst he
    obtain ⟨r, hr, hrs, hra⟩ := feesOrTaxLoop_spec taxes taxes hts htv hts
    refine ⟨r, by simpa using hr, hrs, fun d => ?_⟩
    rw [hra d, amountOf_nil, max_self, max_eq_right (htn d)]
    simp
  · obtain ⟨r, hr, hrs, hra⟩ := feesOrTaxLoop_spec taxes fee hts htv hfs
    refine ⟨r, by simpa [hz] using hr, hrs, fun d => ?_⟩
    rw [hra d]
    split_ifs with hm
    · rfl
    · have : amountOf taxes d = 0 :=
        amountOf_eq_zero_of_not_mem taxes d (fun c hc e => hm ⟨c, hc, e⟩)
      rw [this, max_eq_left (hfn d)]

theorem amountOf_negative (coins : Coins) (d : String) :
    amountOf (Coins.negative coins) d = - amountOf coins d := by
  induction coins with
  | nil => rfl
  | cons c cs ih =>
    have : Coins.negative (c :: cs) = ⟨c.Denom, -c.Amount⟩ :: Coins.negative cs := rfl
    rw [this, amountOf_cons, amountOf_cons, ih]
    split_ifs <;> ring

theorem StrictSorted.negative {coins : Coins} (h : StrictSorted coins) :
    StrictSorted (Coins.negative coins) := by
  unfold StrictSorted Coins.negative
  rw [List.pairwise_map]
  exact h

theorem removeZeroCoins_of_pos (coins : Coins) (h : ∀ c ∈ coins, 0 < c.Amount) :
    removeZeroCoins coins = coins := by
  unfold removeZeroCoins
  rw [List.filter_eq_self]
  intro c hc
  have := h c hc
  simp [Coin.IsZero]
  omega

theorem NewCoins_of_valid (coins : Coins) (h : Coins.IsValid coins = true) :
    NewCoins coins = some coins := by
  obtain ⟨hs, hv⟩ := Validate_spec coins h
  unfold NewCoins
  rw [removeZeroCoins_of_pos coins (fun c hc => (hv c hc).2), hs.Sort_eq]
  simp only
  exact if_pos h

/-- For a valid fee and a strictly sorted `feesOrTax` that is nowhere below the
fee, `needMint` is computed (the subtraction does not panic), is strictly sorted
with positive amounts, and is the denomination-wise difference. -/
theorem needMint_spec (feesOrTax fee : Coins) (hfee : Coins.IsValid fee = true)
    (hs : StrictSorted feesOrTax) (hge : ∀ d, amountOf fee d ≤ amountOf feesOrTax d) :
    ∃ m, needMint feesOrTax fee = some m ∧ StrictSorted m ∧ (∀ c ∈ m, 0 < c.Amount) ∧
      ∀ d, amountOf m d = amountOf feesOrTax d - amountOf fee d := by
  obtain ⟨hfs, hfv⟩ := Validate_spec fee hfee
  obtain ⟨m, hm, hms, hmz, hma⟩ := safeAdd_spec feesOrTax (Coins.negative fee) hs.isSorted
    hfs.negative.isSorted
  have hma' : ∀ d, amountOf m d = amountOf feesOrTax d - amountOf fee d := by
    intro d
    rw [hma d, amountOf_negative]
    ring
  have hpos : ∀ c ∈ m, 0 < c.Amount := by
    intro c hc
    have h1 := hms.amountOf_mem hc
    have h2 := hma' c.Denom
    have h3 := hge c.Denom
    have h4 := hmz c hc
    omega
  have hneg : Coins.IsAnyNegative m = false := by
    rw [Bool.eq_false_iff]
    intro hn
    simp only [Coins.IsAnyNegative, List.any_eq_true, Coin.IsNegative, decide_eq_true_eq] at hn
    obtain ⟨c, hc, hlt⟩ := hn
    have := hpos c hc
    omega
  refine ⟨m, ?_, hms, hpos, hma'⟩
  unfold needMint Coins.Sub Coins.SafeSub
  rw [hs.Sort_eq, hfs.Sort_eq, NewCoins_of_valid fee hfee]
  simp only [hm, hneg]
  rfl

/-! ## The calls made by `checkDeductFee` -/

theorem deductAndSettle_calls {σ : Type} (fd : FeeDecorator σ) (w : World σ) (acc : Account)
    (deductFeesFrom : AccAddress) (fee feesOrTax taxes : Coins) :
    ∃ new, (deductAndSettle fd w acc deductFeesFrom fee feesOrTax taxes).2.calls = w.calls ++ new ∧
      ∀ c ∈ new, (c = .SendCoinsFromAccountToModule acc.GetAddress FeeCollectorName feesOrTax ∧
          Coins.IsZero feesOrTax = false) ∨
        c = .BurnTaxSplit taxes ∨ c = .RecordEpochTaxProceeds taxes := by
  unfold deductAndSettle DeductFees
  by_cases hz : Coins.IsZero feesOrTax = true
  · exact ⟨[], by simp [hz], by simp⟩
  · have hz' : Coins.IsZero feesOrTax = false := by simpa using hz
    by_cases hv : Coins.IsValid feesOrTax = true
    · cases hsend : (fd.bankKeeper.SendCoinsFromAccountToModule w.ledger acc.GetAddress
          FeeCollectorName feesOrTax).2 with
      | some err =>
        exact ⟨[.SendCoinsFromAccountToModule acc.GetAddress FeeCollectorName feesOrTax],
          by simp [hz, hv, hsend, World.step], by simp [hz']⟩
      | none =>
        by_cases htz : Coins.IsZero taxes = true
        · exact ⟨[.SendCoinsFromAccountToModule acc.GetAddress FeeCollectorName feesOrTax],
            by simp [hz, hv, hsend, htz, World.step], by simp [hz']⟩
        · cases hb : (fd.treasuryKeeper.BurnTaxSplit (fd.bankKeeper.SendCoinsFromAccountToModule
              w.ledger acc.GetAddress FeeCollectorName feesOrTax).1 taxes).2 with
          | some err =>
            exact ⟨[.SendCoinsFromAccountToModule acc.GetAddress FeeCollectorName feesOrTax,
              .BurnTaxSplit taxes], by simp [hz, hv, hsend, htz, hb, World.step], by simp [hz']⟩
          | none =>
            exact ⟨[.SendCoinsFromAccountToModule acc.GetAddress FeeCollectorName feesOrTax,
              .BurnTaxSplit taxes, .RecordEpochTaxProceeds taxes],
              by simp [hz, hv, hsend, htz, hb, World.step], by simp [hz']⟩
    · exact ⟨[], by simp [hz, hv], by simp⟩

theorem mintAndDeduct_calls {σ : Type} (fd : FeeDecorator σ) (w : World σ) (acc : Account)
    (deductFeesFrom : AccAddress) (fee taxes : Coins) (simulate : Bool)
    (r : Option Error × World σ)
    (h : mintAndDeduct fd w acc deductFeesFrom fee taxes simulate = some r) :
    ∃ new, r.2.calls = w.calls ++ new ∧ ∀ c ∈ new, DeductCall acc fee taxes simulate c := by
  unfold mintAndDeduct at h
  cases simulate with
  | false =>
    simp only [Bool.false_eq_true, if_false, Option.some.injEq] at h
    subst h
    obtain ⟨new, hn, hc⟩ := deductAndSettle_calls fd w acc deductFeesFrom fee fee taxes
    refine ⟨new, hn, fun c hm => ?_⟩
    rcases hc c hm with h1 | h2 | h3
    · exact Or.inl ⟨fee, h1.1, Or.inl ⟨rfl, rfl⟩⟩
    · exact Or.inr (Or.inl h2)
    · exact Or.inr (Or.inr (Or.inl h3))
  | true =>
    simp only [if_true] at h
    cases hf : simulateFeesOrTax fee taxes with
    | none => simp [hf] at h
    | some feesOrTax =>
      simp only [hf] at h
      by_cases hz : Coins.IsZero feesOrTax = true
      · simp only [hz, Bool.not_true, Bool.false_eq_true, if_false, Option.some.injEq] at h
        subst h
        obtain ⟨new, hn, hc⟩ := deductAndSettle_calls fd w acc deductFeesFrom fee feesOrTax taxes
        refine ⟨new, hn, fun c hm => ?_⟩
        rcases hc c hm with h1 | h2 | h3
        · rw [hz] at h1
          exact absurd h1.2 (by simp)
        · exact Or.inr (Or.inl h2)
        · exact Or.inr (Or.inr (Or.inl h3))
      · have hz' : Coins.IsZero feesOrTax = false := by simpa using hz
        simp only [hz', Bool.not_false, if_true] at h
        cases hm : needMint feesOrTax fee with
        | none => simp [hm] at h
        | some mint =>
          simp only [hm] at h
          have settle : ∀ (w' : World σ) (pre : List Call), w'.calls = w.calls ++ pre →
              (∀ c ∈ pre, DeductCall acc fee taxes true c) →
              ∃ new, (deductAndSettle fd w' acc deductFeesFrom (Coins.Sort fee)
                (Coins.Sort feesOrTax) taxes).2.calls = w.calls ++ new ∧
                ∀ c ∈ new, DeductCall acc fee taxes true c := by
            intro w' pre hpre hP
            obtain ⟨new, hn, hc⟩ := deductAndSettle_calls fd w' acc deductFeesFrom
              (Coins.Sort fee) (Coins.Sort feesOrTax) taxes
            refine ⟨pre ++ new, by rw [hn, hpre, List.append_assoc], fun c hmem => ?_⟩
            rcases List.mem_append.mp hmem with hp | hq
            · exact hP c hp
            · rcases hc c hq with h1 | h2 | h3
              · exact Or.inl ⟨_, h1.1, Or.inr ⟨rfl, feesOrTax, hf, hz', rfl⟩⟩
              · exact Or.inr (Or.inl h2)
              · exact Or.inr (Or.inr (Or.inl h3))
          by_cases hmz : Coins.IsZero mint = true
          · simp only [hmz, Bool.not_true, Bool.false_eq_true, if_false, Option.some.injEq] at h
            subst h
            exact settle w [] (by simp) (by simp)
          · have hmz' : Coins.IsZero mint = false := by simpa using hmz
            have hmint : ∀ c, (c = Call.MintCoins MintModuleName mint ∨
                c = Call.SendCoinsFromModuleToAccount MintModuleName acc.GetAddress mint) →
                DeductCall acc fee taxes true c :=
              fun c hc => Or.inr (Or.inr (Or.inr ⟨rfl, feesOrTax, mint, hf, hz', hm, hmz', hc⟩))
            simp only [hmz', Bool.not_false, if_true] at h
            cases h1 : (fd.bankKeeper.MintCoins w.ledger MintModuleName mint).2 with
            | some err =>
              simp only [h1, Option.some.injEq] at h
              subst h
              exact ⟨[.MintCoins MintModuleName mint], by simp [World.step],
                fun c hc => hmint c (Or.inl (by simpa using hc))⟩
            | none =>
              simp only [h1] at h
              cases h2 : (fd.bankKeeper.SendCoinsFromModuleToAccount
                  (w.step (.MintCoins MintModuleName mint)
                    (fd.bankKeeper.MintCoins w.ledger MintModuleName mint).1).ledger
                  MintModuleName acc.GetAddress mint).2 with
              | some err =>
                simp only [h2, Option.some.injEq] at h
                subst h
                refine ⟨[.MintCoins MintModuleName mint,
                  .SendCoinsFromModuleToAccount MintModuleName acc.GetAddress mint],
                  by simp [World.step], fun c hc => hmint c ?_⟩
                simpa using hc
              | none =>
                simp only [h2, Option.some.injEq] at h
                subst h
                refine settle _ [.MintCoins MintModuleName mint,
                  .SendCoinsFromModuleToAccount MintModuleName acc.GetAddress mint]
                  (by simp [World.step]) (fun c hc => hmint c ?_)
                simpa using hc

theorem resolveAndDeduct_calls {σ : Type} (fd : FeeDecorator σ) (w : World σ)
    (deductFeesFrom : AccAddress) (fee taxes : Coins) (simulate : Bool)
    (r : Option Error × World σ)
    (h : resolveAndDeduct fd w deductFeesFrom fee taxes simulate = some r) :
    ∃ new, r.2.calls = w.calls ++ new ∧
      ∀ c ∈ new, ∃ acc : Account, DeductCall acc fee taxes simulate c := by
  unfold resolveAndDeduct at h
  cases hacc : fd.accountKeeper.GetAccount w.ledger deductFeesFrom with
  | none =>
    simp only [hacc, Option.some.injEq] at h
    subst h
    exact ⟨[], by simp, by simp⟩
  | some acc =>
    simp only [hacc] at h
    obtain ⟨new, hn, hc⟩ := mintAndDeduct_calls fd w acc deductFeesFrom fee taxes simulate r h
    exact ⟨new, hn, fun c hm => ⟨acc, hc c hm⟩⟩

/-- Every state-changing call of `checkDeductFee` is appended to the log and is
the fee-grant authorization or one of the calls of the deduction. -/
theorem checkDeductFee_calls {σ : Type} (fd : FeeDecorator σ) (w : World σ) (feeTx : FeeTx)
    (taxes : Coins) (simulate : Bool) (r : Option Error × World σ)
    (h : checkDeductFee fd w feeTx taxes simulate = some r) :
    ∃ new, r.2.calls = w.calls ++ new ∧
      ∀ c ∈ new, (∃ granter, c = .UseGrantedFees granter feeTx.FeePayer feeTx.GetFee feeTx.GetMsgs) ∨
        ∃ acc : Account, DeductCall acc feeTx.GetFee taxes simulate c := by
  unfold checkDeductFee at h
  cases hcol : fd.accountKeeper.GetModuleAddress w.ledger FeeCollectorName with
  | none =>
    simp only [hcol, Option.some.injEq] at h
    subst h
    exact ⟨[], by simp, by simp⟩
  | some addr =>
    simp only [hcol] at h
    cases hg : feeTx.FeeGranter with
    | none =>
      simp only [hg] at h
      obtain ⟨new, hn, hc⟩ := resolveAndDeduct_calls fd w _ _ taxes simulate r h
      exact ⟨new, hn, fun c hm => Or.inr (hc c hm)⟩
    | some granter =>
      simp only [hg] at h
      cases hk : fd.feegrantKeeper with
      | none =>
        simp only [hk, Option.some.injEq] at h
        subst h
        exact ⟨[], by simp, by simp⟩
      | some keeper =>
        simp only [hk] at h
        by_cases he : granter.Equals feeTx.FeePayer = true
        · simp only [he, Bool.not_true, Bool.false_eq_true, if_false] at h
          obtain ⟨new, hn, hc⟩ := resolveAndDeduct_calls fd w _ _ taxes simulate r h
          exact ⟨new, hn, fun c hm => Or.inr (hc c hm)⟩
        · have he' : granter.Equals feeTx.FeePayer = false := by simpa using he
          simp only [he', Bool.not_false, if_true] at h
          cases hu : (keeper.UseGrantedFees w.ledger granter feeTx.FeePayer feeTx.GetFee
              feeTx.GetMsgs).2 with
          | some err =>
            simp only [hu, Option.some.injEq] at h
            subst h
            exact ⟨[.UseGrantedFees granter feeTx.FeePayer feeTx.GetFee feeTx.GetMsgs],
              by simp [World.step], fun c hc => Or.inl ⟨granter, by simpa using hc⟩⟩
          | none =>
            simp only [hu] at h
            obtain ⟨new, hn, hc⟩ := resolveAndDeduct_calls fd _ _ _ taxes simulate r h
            refine ⟨.UseGrantedFees granter feeTx.FeePayer feeTx.GetFee feeTx.GetMsgs :: new,
              by rw [hn]; simp [World.step], fun c hm => ?_⟩
            rcases List.mem_cons.mp hm with e | hm'
            · exact Or.inl ⟨granter, e⟩
            · exact Or.inr (hc c hm')

/-! ## Zero fee and zero taxes -/

theorem findAux_mem (n : Nat) : ∀ (coins : Coins) (d : String) (c : Coin),
    Coins.findAux n coins d = some c → c ∈ coins := by
  induction n with
  | zero => intro coins d c h; simp [Coins.findAux] at h
  | succ n ih =>
    intro coins d c h
    by_cases h2 : 2 ≤ coins.length
    · rw [findAux_succ n coins d h2] at h
      cases hg : coins.get? (coins.length / 2) with
      | none =>
        rw [hg] at h
        cases h
      | some coin =>
        rw [hg] at h
        simp only at h
        split_ifs at h with h1 h3
        · exact List.mem_of_mem_take (ih _ _ _ h)
        · cases h
          exact List.get?_mem hg
        · exact List.mem_of_mem_drop (ih _ _ _ h)
    · match coins, h2, h with
      | [], _, h => simp [Coins.findAux] at h
      | [x], _, h =>
        simp only [Coins.findAux] at h
        split_ifs at h
        cases h
        exact List.mem_cons_self _ _
      | _ :: _ :: _, h2, _ => exact absurd (by simp) h2

theorem AmountOf_of_IsZero (f : Coins) (d : String) (x : Int) (hz : Coins.IsZero f = true)
    (h : Coins.AmountOf f d = some x) : x = 0 := by
  unfold Coins.AmountOf at h
  split_ifs at h
  cases h
  unfold Coins.AmountOfNoDenomValidation
  cases hf : Coins.Find f d with
  | none => rfl
  | some c =>
    have hm := findAux_mem _ _ _ _ hf
    have := List.all_eq_true.mp hz c hm
    simpa [Coin.IsZero] using this

theorem amountOf_of_IsZero (f : Coins) (d : String) (hz : Coins.IsZero f = true) :
    amountOf f d = 0 := by
  induction f with
  | nil => rfl
  | cons c cs ih =>
    simp only [Coins.IsZero, List.all_cons, Bool.and_eq_true, Coin.IsZero, decide_eq_true_eq] at hz
    rw [amountOf_cons, ih (by simpa [Coins.IsZero, Coin.IsZero] using hz.2), hz.1]
    simp

theorem safeAdd_of_IsZero (a b r : Coins) (ha : Coins.IsZero a = true)
    (hb : Coins.IsZero b = true) (h : Coins.safeAdd a b = some r) : r = [] := by
  unfold Coins.safeAdd at h
  split_ifs at h
  simp only [Option.some.injEq] at h
  subst h
  have hall : Coins.IsZero (a ++ b) = true := by
    simp only [Coins.IsZero, List.all_append, Bool.and_eq_true]
    exact ⟨ha, hb⟩
  have : List.filter (fun c : Coin => !c.IsZero)
      (List.map (fun denom => (⟨denom, ((List.filter (fun c => decide (c.Denom = denom))
        (a ++ b)).map Coin.Amount).sum⟩ : Coin)) ((a ++ b).map Coin.Denom).dedup) = [] := by
    rw [List.filter_eq_nil_iff]
    intro x hx
    obtain ⟨k, _, rfl⟩ := List.mem_map.mp hx
    have := amountOf_of_IsZero (a ++ b) k hall
    unfold amountOf at this
    simp only [Coin.IsZero, this]
    decide
  rw [this]
  rfl

theorem feesOrTaxLoop_of_IsZero : ∀ (taxes f r : Coins), Coins.IsZero f = true →
    Coins.IsZero taxes = true → feesOrTaxLoop taxes f = some r → Coins.IsZero r = true
  | [], f, r, hf, _, h => by
    simp only [feesOrTaxLoop, Option.some.injEq] at h
    subst h
    exact hf
  | tax :: rest, f, r, hf, ht, h => by
    have htax : Coins.IsZero [tax] = true ∧ Coins.IsZero rest = true := by
      simpa [Coins.IsZero] using ht
    rw [feesOrTaxLoop] at h
    cases ha : Coins.AmountOf f tax.Denom with
    | none => simp [ha] at h
    | some x =>
      have hx := AmountOf_of_IsZero f _ x hf ha
      subst hx
      simp only [ha, if_true] at h
      cases hs : Coins.Add f [tax] with
      | none => simp [hs] at h
      | some s =>
        simp only [hs] at h
        have := safeAdd_of_IsZero f [tax] s hf htax.1 hs
        subst this
        exact feesOrTaxLoop_of_IsZero rest [] r rfl htax.2 h

theorem simulateFeesOrTax_of_IsZero (fee taxes r : Coins) (hfee : Coins.IsZero fee = true)
    (htax : Coins.IsZero taxes = true) (h : simulateFeesOrTax fee taxes = some r) :
    Coins.IsZero r = true := by
  unfold simulateFeesOrTax at h
  rw [if_pos hfee] at h
  exact feesOrTaxLoop_of_IsZero taxes taxes r htax htax h

/-- For valid fee and taxes, a non-zero `needMint` means that some tax exceeds
the fee in its denomination. -/
theorem tax_exceeds_of_needMint (fee taxes feesOrTax mint : Coins)
    (hfee : Coins.IsValid fee = true) (htax : Coins.IsValid taxes = true)
    (hf : simulateFeesOrTax fee taxes = some feesOrTax) (hm : needMint feesOrTax fee = some mint)
    (hz : Coins.IsZero mint = false) :
    ∃ tax ∈ taxes, amountOf fee tax.Denom < tax.Amount := by
  obtain ⟨fot, hfot, hs, hamt⟩ := simulateFeesOrTax_spec fee taxes hfee htax
  rw [hf] at hfot
  cases hfot
  obtain ⟨m, hm', hms, hpos, hma⟩ := needMint_spec feesOrTax fee hfee hs
    (fun d => by rw [hamt d]; exact le_max_left _ _)
  rw [hm] at hm'
  cases hm'
  obtain ⟨hts, _⟩ := Validate_spec taxes htax
  have hne : mint ≠ [] := by
    intro e
    subst e
    simp [Coins.IsZero] at hz
  obtain ⟨c, hc⟩ := List.exists_mem_of_ne_nil mint hne
  have h1 := hms.amountOf_mem hc
  have h2 := hma c.Denom
  have h3 := hpos c hc
  have h4 := hamt c.Denom
  have hlt : amountOf fee c.Denom < amountOf taxes c.Denom := by
    rcases max_cases (amountOf fee c.Denom) (amountOf taxes c.Denom) with ⟨e, _⟩ | ⟨e, _⟩ <;> omega
  obtain ⟨hfs, hfv⟩ := Validate_spec fee hfee
  have hfn := amountOf_nonneg fee (fun c hc => (hfv c hc).2) c.Denom
  have hex : ∃ tax ∈ taxes, tax.Denom = c.Denom := by
    by_contra hno
    have := amountOf_eq_zero_of_not_mem taxes c.Denom (fun t ht e => hno ⟨t, ht, e⟩)
    omega
  obtain ⟨tax, ht, he⟩ := hex
  refine ⟨tax, ht, ?_⟩
  rw [← hts.amountOf_mem ht, he]
  exact hlt

/-! ## Required gas fees -/

theorem precisionReuse_eq : precisionReuse = 1000000000000000000 := by
  unfold precisionReuse
  norm_num

theorem int64_of_lt (g : Nat) (h : g < 2 ^ 63) : int64 g = (g : Int) := by
  unfold int64
  have h1 : g % 2 ^ 64 = g := Nat.mod_eq_of_lt (by omega)
  rw [h1, if_pos h]

theorem chopPrecisionAndRound_mul (x : Int) (hx : 0 ≤ x) :
    chopPrecisionAndRound (x * precisionReuse) = x := by
  have hp : (0 : Int) < precisionReuse := by rw [precisionReuse_eq]; norm_num
  have h0 : ¬ (x * precisionReuse < 0) := not_lt.mpr (mul_nonneg hx (le_of_lt hp))
  have h1 : (x * precisionReuse).tmod precisionReuse = 0 := Int.mul_tmod_left x precisionReuse
  have h2 : (x * precisionReuse).tdiv precisionReuse = x :=
    Int.mul_tdiv_cancel x (ne_of_gt hp)
  simp only [chopPrecisionAndRound, h0, if_false, chopNonNegative, h1, h2, if_true]

theorem ceilDiv_isLeast (x : Int) :
    x ≤ ceilDiv x * precisionReuse ∧ ∀ r' : Int, x ≤ r' * precisionReuse → ceilDiv x ≤ r' := by
  unfold ceilDiv
  rw [precisionReuse_eq]
  constructor
  · omega
  · intro r' h
    omega

theorem ceilDiv_zero : ceilDiv 0 = 0 := by
  unfold ceilDiv
  simp

theorem exceedsMaxDecBitLen_of_lt (x : Int) (hx : 0 ≤ x) (h : x < 2 ^ 315) :
    exceedsMaxDecBitLen x = false := by
  unfold exceedsMaxDecBitLen MaxBitLen decimalTruncateBits
  rw [decide_eq_false_iff_not]
  omega

theorem exceedsMaxBitLen_of_lt (x : Int) (hx : 0 ≤ x) (h : x < 2 ^ 256) :
    exceedsMaxBitLen x = false := by
  unfold exceedsMaxBitLen MaxBitLen
  rw [decide_eq_false_iff_not]
  omega

theorem ceilDiv_lt (x : Int) (h : x < 2 ^ 315) : ceilDiv x < 2 ^ 256 := by
  unfold ceilDiv
  rw [precisionReuse_eq]
  omega

theorem ceilDiv_nonneg (x : Int) (hx : 0 ≤ x) : 0 ≤ ceilDiv x := by
  unfold ceilDiv
  rw [precisionReuse_eq]
  omega

theorem Dec_Ceil_RoundInt (x : Int) (hx : 0 ≤ x) (hr : x < 2 ^ 315) :
    Dec.RoundInt (Dec.Ceil ⟨x⟩) = some (ceilDiv x) := by
  have hp : (0 : Int) ≤ precisionReuse := by rw [precisionReuse_eq]; norm_num
  have hc := exceedsMaxBitLen_of_lt _ (ceilDiv_nonneg x hx) (ceilDiv_lt x hr)
  have hd : x.tdiv precisionReuse = x / precisionReuse := Int.tdiv_eq_ediv hx hp
  have hm : x.tmod precisionReuse = x % precisionReuse := Int.tmod_eq_emod hx hp
  have hq : 0 ≤ x / precisionReuse := Int.ediv_nonneg hx hp
  have hval : chopPrecisionAndRound (Dec.Ceil ⟨x⟩).i = ceilDiv x := by
    unfold Dec.Ceil
    simp only [hd, hm]
    split_ifs with h1 h2
    · simp only [NewDec]
      rw [chopPrecisionAndRound_mul _ hq]
      unfold ceilDiv
      rw [precisionReuse_eq] at h1 ⊢
      omega
    · simp only [NewDec]
      rw [chopPrecisionAndRound_mul _ hq]
      unfold ceilDiv
      rw [precisionReuse_eq] at h1 h2 ⊢
      omega
    · simp only [NewDec]
      rw [chopPrecisionAndRound_mul _ (by omega)]
      unfold ceilDiv
      rw [precisionReuse_eq] at h1 h2 ⊢
      omega
  unfold Dec.RoundInt
  simp only [hval, hc, Bool.false_eq_true, if_false]

/-- The product that the loop of `checkTxFee` forms for one minimum gas price,
for a non-negative price and gas limit whose product stays below `2^315`. -/
theorem Dec_Mul_gas (price : Dec) (g : Int) (hp : 0 ≤ price.i) (hg : 0 ≤ g)
    (hr : price.i * g < 2 ^ 315) : Dec.Mul price (NewDec g) = some ⟨price.i * g⟩ := by
  have hx : 0 ≤ price.i * g := mul_nonneg hp hg
  unfold Dec.Mul NewDec
  simp only
  rw [← mul_assoc, chopPrecisionAndRound_mul _ hx, exceedsMaxDecBitLen_of_lt _ hx hr]
  simp

theorem requiredGasFeesLoop_spec (g : Int) (hg : 0 ≤ g) : ∀ (mgp : DecCoins),
    (∀ e ∈ mgp, ValidateDenom e.Denom = true ∧ 0 ≤ e.Amount.i) →
    (∀ e ∈ mgp, e.Amount.i * g < 2 ^ 315) →
    requiredGasFeesLoop (NewDec g) mgp
      = some (mgp.map fun gp => ⟨gp.Denom, ceilDiv (gp.Amount.i * g)⟩)
  | [], _, _ => rfl
  | gp :: rest, h, hr => by
    have hgp := h gp (List.mem_cons_self _ _)
    have hrg := hr gp (List.mem_cons_self _ _)
    have ih := requiredGasFeesLoop_spec g hg rest (fun e he => h e (List.mem_cons_of_mem _ he))
      (fun e he => hr e (List.mem_cons_of_mem _ he))
    have hn : ¬ ceilDiv (gp.Amount.i * g) < 0 :=
      not_lt.mpr (ceilDiv_nonneg _ (mul_nonneg hgp.2 hg))
    simp [requiredGasFeesLoop, Dec_Mul_gas gp.Amount g hgp.2 hg hrg,
      Dec_Ceil_RoundInt _ (mul_nonneg hgp.2 hg) hrg, NewCoin,
      Coin.Validate, hgp.1, Coin.IsNegative, hn, ih]

theorem amountOf_gasFees (mgp : DecCoins) (g : Int) (d : String) :
    amountOf (mgp.map fun gp => (⟨gp.Denom, ceilDiv (gp.Amount.i * g)⟩ : Coin)) d
      = ((mgp.filter (fun gp => decide (gp.Denom = d))).map
          (fun gp => ceilDiv (gp.Amount.i * g))).sum := by
  induction mgp with
  | nil => rfl
  | cons gp rest ih =>
    rw [List.map_cons, amountOf_cons, ih]
    by_cases h : gp.Denom = d <;> simp [List.filter_cons, h]

theorem gasFees_sum_of_IsZero (mgp : DecCoins) (g : Int) (d : String)
    (hz : DecCoins.IsZero mgp = true) :
    ((mgp.filter (fun gp => decide (gp.Denom = d))).map
      (fun gp => ceilDiv (gp.Amount.i * g))).sum = 0 := by
  apply List.sum_eq_zero
  intro x hx
  obtain ⟨gp, hgp, rfl⟩ := List.mem_map.mp hx
  have hm := (List.mem_filter.mp hgp).1
  have := List.all_eq_true.mp hz gp hm
  have hi : gp.Amount.i = 0 := by simpa [Dec.IsZero] using this
  rw [hi, zero_mul, ceilDiv_zero]

theorem isSorted_of_pairwise : ∀ (coins : Coins),
    coins.Pairwise (fun a b => a.Denom.data ≤ b.Denom.data) → Coins.isSorted coins = true
  | [], _ => rfl
  | [_], _ => rfl
  | a :: b :: rest, h => by
    have hp := List.pairwise_cons.mp h
    have hab := hp.1 b (List.mem_cons_self _ _)
    simp only [Coins.isSorted, Bool.and_eq_true, Bool.not_eq_true', decide_eq_false_iff_not]
    exact ⟨not_lt.mpr hab, isSorted_of_pairwise (b :: rest) hp.2⟩

/-- For a schedule with valid denominations and non-negative prices, sorted by
denomination, and a gas limit below `2^63` whose products with the prices stay
below `2^315`, `requiredGasFees` is computed, is sorted, and holds per
denomination the sum of `ceil(price * gas)`. -/
theorem requiredGasFees_spec (mgp : DecCoins) (gas : Nat) (hgas : gas < 2 ^ 63)
    (h : ∀ e ∈ mgp, ValidateDenom e.Denom = true ∧ 0 ≤ e.Amount.i)
    (hr : ∀ e ∈ mgp, e.Amount.i * (gas : Int) < 2 ^ 315) :
    ∃ rg, requiredGasFees mgp gas = some rg ∧
      (mgp.Pairwise (fun a b => a.Denom.data ≤ b.Denom.data) → Coins.isSorted rg = true) ∧
      ∀ d, amountOf rg d = ((mgp.filter (fun gp => decide (gp.Denom = d))).map
          (fun gp => ceilDiv (gp.Amount.i * (gas : Int)))).sum := by
  unfold requiredGasFees
  by_cases hz : DecCoins.IsZero mgp = true
  · refine ⟨[], by simp [hz], fun _ => rfl, fun d => ?_⟩
    rw [gasFees_sum_of_IsZero mgp _ d hz]
    rfl
  · refine ⟨_, ?_, ?_, fun d => amountOf_gasFees mgp gas d⟩
    · simp only [hz, Bool.not_eq_true', Bool.not_false, if_true]
      rw [int64_of_lt gas hgas]
      exact requiredGasFeesLoop_spec gas (Int.natCast_nonneg gas) mgp h hr
    · intro hs
      apply isSorted_of_pairwise
      rw [List.pairwise_map]
      exact hs

/-! ## `IsAnyGTE` and the priority loop -/

theorem isAnyGTELoop_spec (coinsB : Coins) (hB : StrictSorted coinsB) : ∀ (coins : Coins),
    (∀ c ∈ coins, ValidateDenom c.Denom = true) →
    (Coins.isAnyGTELoop coinsB coins = some true ∧
      ∃ c ∈ coins, amountOf coinsB c.Denom ≠ 0 ∧ amountOf coinsB c.Denom ≤ c.Amount) ∨
    (Coins.isAnyGTELoop coinsB coins = some false ∧
      ¬ ∃ c ∈ coins, amountOf coinsB c.Denom ≠ 0 ∧ amountOf coinsB c.Denom ≤ c.Amount)
  | [], _ => Or.inr ⟨rfl, by simp⟩
  | coin :: rest, hv => by
    have hc := hv coin (List.mem_cons_self _ _)
    rw [Coins.isAnyGTELoop, hB.AmountOf hc]
    by_cases h : amountOf coinsB coin.Denom ≤ coin.Amount ∧ amountOf coinsB coin.Denom ≠ 0
    · left
      exact ⟨by simp [h.1, h.2], coin, List.mem_cons_self _ _, h.2, h.1⟩
    · have hcond : (decide (amountOf coinsB coin.Denom ≤ coin.Amount) &&
          !decide (amountOf coinsB coin.Denom = 0)) = false := by
        rw [Bool.eq_false_iff]
        intro ht
        simp only [Bool.and_eq_true, decide_eq_true_eq, Bool.not_eq_true',
          decide_eq_false_iff_not] at ht
        exact h ht
      simp only [hcond, Bool.false_eq_true, if_false]
      rcases isAnyGTELoop_spec coinsB hB rest (fun c hm => hv c (List.mem_cons_of_mem _ hm)) with
        ⟨h1, c, hm, h2⟩ | ⟨h1, h2⟩
      · exact Or.inl ⟨h1, c, List.mem_cons_of_mem _ hm, h2⟩
      · right
        refine ⟨h1, ?_⟩
        rintro ⟨c, hm, h3⟩
        rcases List.mem_cons.mp hm with e | hm'
        · subst e
          exact h ⟨h3.2, h3.1⟩
        · exact h2 ⟨c, hm', h3⟩

theorem getTxPriorityLoop_isSome (gas : Int) (hg : gas ≠ 0) : ∀ (fee : Coins) (priority : Int),
    ∃ p, getTxPriorityLoop gas fee priority = some p
  | [], priority => ⟨priority, rfl⟩
  | c :: rest, priority => by
    simp only [getTxPriorityLoop, QuoRaw, hg, if_false]
    split_ifs <;> exact getTxPriorityLoop_isSome gas hg rest _

/-! ## The minimum-fee check of `checkTxFee` -/

theorem sum_filter_denom_of_nodup (f : DecCoin → Int) : ∀ (mgp : DecCoins) (gp : DecCoin),
    (mgp.map DecCoin.Denom).Nodup → gp ∈ mgp →
    ((mgp.filter (fun e => decide (e.Denom = gp.Denom))).map f).sum = f gp
  | [], _, _, h => by cases h
  | e :: rest, gp, hn, hm => by
    rw [List.map_cons, List.nodup_cons] at hn
    rcases List.mem_cons.mp hm with rfl | hr
    · have hnone : rest.filter (fun e => decide (e.Denom = gp.Denom)) = [] := by
        rw [List.filter_eq_nil_iff]
        intro x hx hd
        exact hn.1 (List.mem_map.mpr ⟨x, hx, by simpa using hd⟩)
      simp [List.filter_cons, hnone]
    · have hne : ¬ e.Denom = gp.Denom := fun he =>
        hn.1 (List.mem_map.mpr ⟨gp, hr, he.symm⟩)
      simp only [List.filter_cons, hne, decide_False, Bool.false_eq_true, if_false]
      exact sum_filter_denom_of_nodup f rest gp hn.2 hr

theorem checkRequiredFees_spec (ctx : Context) (feeCoins : Coins) (gas : Nat) (taxes : Coins)
    (hmgp : ∀ e ∈ ctx.MinGasPrices, ValidateDenom e.Denom = true ∧ 0 ≤ e.Amount.i)
    (hsorted : ctx.MinGasPrices.Pairwise (fun a b => a.Denom.data ≤ b.Denom.data))
    (htax : Coins.isSorted taxes = true)
    (hfee : ∀ c ∈ feeCoins, ValidateDenom c.Denom = true)
    (hgas : gas < 2 ^ 63)
    (hr : ∀ e ∈ ctx.MinGasPrices, e.Amount.i * (gas : Int) < 2 ^ 315) :
    (FeeInsufficient ctx.MinGasPrices gas taxes feeCoins ∧
      ∃ rf rg, checkRequiredFees ctx feeCoins gas taxes
        = some (some (insufficientFeeError feeCoins rf rg taxes))) ∨
    (¬ FeeInsufficient ctx.MinGasPrices gas taxes feeCoins ∧
      checkRequiredFees ctx feeCoins gas taxes = some none) := by
  obtain ⟨rg, hrg, hrgs, hrga⟩ := requiredGasFees_spec ctx.MinGasPrices gas hgas hmgp hr
  obtain ⟨rf, hrf, hrfs, hrfz, hrfa⟩ := Add_spec rg taxes (hrgs hsorted) htax
  have hreq : ∀ d, amountOf rf d = requiredAmount ctx.MinGasPrices gas taxes d := by
    intro d
    rw [hrfa d, hrga d]
    rfl
  unfold checkRequiredFees
  simp only [hrg, hrf]
  by_cases hz : Coins.IsZero rf = true
  · right
    refine ⟨?_, by simp [hz]⟩
    rintro ⟨⟨d, hd⟩, _⟩
    rw [← hreq d, amountOf_of_IsZero rf d hz] at hd
    exact hd rfl
  · have hne : rf ≠ [] := by
      intro e
      subst e
      exact hz rfl
    obtain ⟨c0, hc0⟩ := List.exists_mem_of_ne_nil rf hne
    have hex : ∃ d, requiredAmount ctx.MinGasPrices gas taxes d ≠ 0 :=
      ⟨c0.Denom, by rw [← hreq, hrfs.amountOf_mem hc0]; exact hrfz c0 hc0⟩
    have hlen : ¬ rf.length = 0 := fun e => hne (List.length_eq_zero.mp e)
    simp only [hz, Bool.false_eq_true, if_false, Coins.IsAnyGTE, hlen]
    rcases isAnyGTELoop_spec rf hrfs feeCoins hfee with ⟨h1, c, hc, h2⟩ | ⟨h1, h2⟩
    · right
      refine ⟨?_, by rw [h1]⟩
      rintro ⟨_, hno⟩
      exact hno ⟨c, hc, by rw [← hreq]; exact h2⟩
    · left
      refine ⟨⟨hex, ?_⟩, rf, rg, by rw [h1]⟩
      rintro ⟨c, hc, h3⟩
      exact h2 ⟨c, hc, by rw [hreq]; exact h3⟩

/-- C1: in check-phase, for a non-exempt transaction, `checkTxFee` returns an
insufficient-fee error if and only if the required amounts (required gas fee
plus tax, per denomination) are not all zero and no coin of the stated fee
reaches a non-zero required amount of its own denomination; otherwise it
returns no error. The hypotheses keep every step from panicking: the schedule
has valid denominations and non-negative prices and is sorted, the products of
the prices with the gas limit stay below `2^315`, the taxes are sorted and not
negative, the required gas fees and the taxes sum to less than `2^256`, the fee
has valid denominations and the gas limit lies in `[1, 2^63)`. -/
theorem checkTxFee_insufficient_iff (ctx : Context) (feeTx : FeeTx) (taxes : Coins)
    (hcheck : ctx.IsCheckTx = true) (hmsgs : isOracleTx feeTx.GetMsgs = false)
    (hmgp : ∀ e ∈ ctx.MinGasPrices, ValidateDenom e.Denom = true ∧ 0 ≤ e.Amount.i)
    (hsorted : ctx.MinGasPrices.Pairwise (fun a b => a.Denom.data ≤ b.Denom.data))
    (htax : Coins.isSorted taxes = true)
    (hfee : ∀ c ∈ feeTx.GetFee, ValidateDenom c.Denom = true)
    (hgas : 1 ≤ feeTx.GetGas) (hgas2 : feeTx.GetGas < 2 ^ 63)
    (hrange : ∀ e ∈ ctx.MinGasPrices, e.Amount.i * (feeTx.GetGas : Int) < 2 ^ 315)
    (_htaxes : ∀ c ∈ taxes, 0 ≤ c.Amount)
    (_hsum : ((ctx.MinGasPrices.map fun gp => ceilDiv (gp.Amount.i * (feeTx.GetGas : Int))).sum
      + (taxes.map Coin.Amount).sum < 2 ^ 256)) :
    ((∃ p e, checkTxFee ctx (.feeTx feeTx) taxes = some (p, some e) ∧
        e.kind = some .ErrInsufficientFee) ↔
      FeeInsufficient ctx.MinGasPrices feeTx.GetGas taxes feeTx.GetFee) ∧
    (¬ FeeInsufficient ctx.MinGasPrices feeTx.GetGas taxes feeTx.GetFee →
      ∃ p, checkTxFee ctx (.feeTx feeTx) taxes = some (p, none)) := by
  have hg0 : int64 feeTx.GetGas ≠ 0 := by
    rw [int64_of_lt _ hgas2]
    omega
  obtain ⟨p, hp⟩ := getTxPriorityLoop_isSome _ hg0 feeTx.GetFee 0
  have hok : ¬ FeeInsufficient ctx.MinGasPrices feeTx.GetGas taxes feeTx.GetFee →
      checkTxFee ctx (.feeTx feeTx) taxes = some (p, none) := by
    intro hni
    rcases checkRequiredFees_spec ctx feeTx.GetFee feeTx.GetGas taxes hmgp hsorted htax hfee
      hgas2 hrange with ⟨hi, _⟩ | ⟨_, hc⟩
    · exact absurd hi hni
    · simp only [checkTxFee, hcheck, hmsgs, Bool.not_false, Bool.and_self, if_true, hc,
        getTxPriority, hp]
  refine ⟨⟨?_, ?_⟩, fun hni => ⟨p, hok hni⟩⟩
  · rintro ⟨p', e, he, _⟩
    by_contra hni
    rw [hok hni] at he
    cases he
  · intro hi
    rcases checkRequiredFees_spec ctx feeTx.GetFee feeTx.GetGas taxes hmgp hsorted htax hfee
      hgas2 hrange with ⟨_, rf, rg, hc⟩ | ⟨hni, _⟩
    · refine ⟨0, insufficientFeeError feeTx.GetFee rf rg taxes, ?_, rfl⟩
      simp only [checkTxFee, hcheck, hmsgs, Bool.not_false, Bool.and_self, if_true, hc]
    · exact absurd hi hni

/-- Witness of C1: the schedule `{1 denomA, 1 denomB}` with gas 10 requires 10 of
each; the fee `{10 denomA}` pays nothing in `denomB` and is accepted. -/
theorem checkTxFee_insufficient_iff_witness :
    (((∃ p e, checkTxFee ⟨10, true, [⟨"denomA", ⟨10 ^ 18⟩⟩, ⟨"denomB", ⟨10 ^ 18⟩⟩], 0⟩
          (.feeTx (plainTx [⟨"denomA", 10⟩] 10)) [] = some (p, some e) ∧
        e.kind = some .ErrInsufficientFee) ↔
      FeeInsufficient [⟨"denomA", ⟨10 ^ 18⟩⟩, ⟨"denomB", ⟨10 ^ 18⟩⟩] (10 : Nat) []
        [⟨"denomA", 10⟩]) ∧
    (¬ FeeInsufficient [⟨"denomA", ⟨10 ^ 18⟩⟩, ⟨"denomB", ⟨10 ^ 18⟩⟩] (10 : Nat) []
        [⟨"denomA", 10⟩] →
      ∃ p, checkTxFee ⟨10, true, [⟨"denomA", ⟨10 ^ 18⟩⟩, ⟨"denomB", ⟨10 ^ 18⟩⟩], 0⟩
        (.feeTx (plainTx [⟨"denomA", 10⟩] 10)) [] = some (p, none))) ∧
    requiredGasFees [⟨"denomA", ⟨10 ^ 18⟩⟩, ⟨"denomB", ⟨10 ^ 18⟩⟩] 10
      = some [⟨"denomA", 10⟩, ⟨"denomB", 10⟩] ∧
    checkTxFee ⟨10, true, [⟨"denomA", ⟨10 ^ 18⟩⟩, ⟨"denomB", ⟨10 ^ 18⟩⟩], 0⟩
      (.feeTx (plainTx [⟨"denomA", 10⟩] 10)) [] = some (1, none) :=
  ⟨checkTxFee_insufficient_iff ⟨10, true, [⟨"denomA", ⟨10 ^ 18⟩⟩, ⟨"denomB", ⟨10 ^ 18⟩⟩], 0⟩
    (plainTx [⟨"denomA", 10⟩] 10) [] rfl (by decide) (by decide) (by decide) (by decide)
    (by decide) (by decide) (by decide) (by norm_num [plainTx]) (by decide)
    (by norm_num [plainTx, ceilDiv, precisionReuse]), by decide, by decide⟩

/-- C2 as stated, at the non-negative price `10^70` (the decimal `10^88 / 10^18`)
and the gas limit `2^62`: the product has more than 315 bits, `Dec.Mul` panics
and neither `requiredGasFees` nor `checkTxFee` returns. -/
theorem requiredGasFees_overflow :
    ValidateDenom "denomA" = true ∧
    (0 : Int) ≤ 10000000000000000000000000000000000000000000000000000000000000000000000000000000000000000 ∧
    (4611686018427387904 : Nat) < 2 ^ 63 ∧
    Dec.Mul ⟨10000000000000000000000000000000000000000000000000000000000000000000000000000000000000000⟩
      (NewDec (int64 4611686018427387904)) = none ∧
    requiredGasFees
      [⟨"denomA", ⟨10000000000000000000000000000000000000000000000000000000000000000000000000000000000000000⟩⟩]
      4611686018427387904 = none ∧
    checkTxFee
      ⟨10, true,
        [⟨"denomA", ⟨10000000000000000000000000000000000000000000000000000000000000000000000000000000000000000⟩⟩],
        0⟩
      (.feeTx (plainTx [] 4611686018427387904)) [] = none := by
  decide

/-- C2, amended: for a schedule with valid, pairwise distinct denominations and
non-negative prices and a gas limit below `2^63` whose products with the prices
stay within the range of `sdk.Dec` (`price.i * gas < 2^315`, the price being
`price.i / 10^18`), the required gas fee computed for the denomination of an
entry is the least integer `r` with `r ≥ price * gas`; with price 1 and gas
200000 a fee of 199999 is rejected with insufficient-fee (200000 being
required) and a fee of 200000 is accepted. -/
theorem requiredGasFees_ceil :
    (∀ (minGasPrices : DecCoins) (gas : Nat) (gp : DecCoin), gas < 2 ^ 63 →
      (∀ e ∈ minGasPrices, ValidateDenom e.Denom = true ∧ 0 ≤ e.Amount.i) →
      (∀ e ∈ minGasPrices, e.Amount.i * (gas : Int) < 2 ^ 315) →
      (minGasPrices.map DecCoin.Denom).Nodup → gp ∈ minGasPrices →
      ∃ rg, requiredGasFees minGasPrices gas = some rg ∧
        IsCeilOf gp.Amount gas (amountOf rg gp.Denom)) ∧
    checkTxFee checkCtx (.feeTx (plainTx [⟨"denomA", 199999⟩] 200000)) []
      = some (0, some (insufficientFeeError [⟨"denomA", 199999⟩] [⟨"denomA", 200000⟩]
          [⟨"denomA", 200000⟩] [])) ∧
    checkTxFee checkCtx (.feeTx (plainTx [⟨"denomA", 200000⟩] 200000)) [] = some (1, none) := by
  refine ⟨?_, by decide, by decide⟩
  intro mgp gas gp hgas hv hr hn hm
  obtain ⟨rg, hrg, _, hrga⟩ := requiredGasFees_spec mgp gas hgas hv hr
  refine ⟨rg, hrg, ?_⟩
  rw [hrga gp.Denom, sum_filter_denom_of_nodup _ mgp gp hn hm]
  exact ceilDiv_isLeast _

/-- Witness of C2 amended: price 1.5 of `denomA` and gas 3 require 5. -/
theorem requiredGasFees_ceil_witness :
    ∃ rg, requiredGasFees [⟨"denomA", ⟨15 * 10 ^ 17⟩⟩] 3 = some rg ∧
      IsCeilOf ⟨15 * 10 ^ 17⟩ (3 : Nat) (amountOf rg "denomA") :=
  requiredGasFees_ceil.1 [⟨"denomA", ⟨15 * 10 ^ 17⟩⟩] 3 ⟨"denomA", ⟨15 * 10 ^ 17⟩⟩ (by decide)
    (by decide) (by norm_num) (by decide) (by decide)

/-! ## Priority and exemption -/

/-- C3: a transaction whose messages are all of the exempt (oracle) class passes
`checkTxFee` with no error and priority `2^63 - 1`, whatever the fee, the gas
limit, the minimum-gas-price schedule, the taxes and the phase. -/
theorem checkTxFee_exempt (ctx : Context) (feeTx : FeeTx) (taxes : Coins)
    (h : isOracleTx feeTx.GetMsgs = true) :
    checkTxFee ctx (.feeTx feeTx) taxes = some (2 ^ 63 - 1, none) := by
  simp [checkTxFee, h, MaxInt64]

/-- Witness of C3: an oracle-only transaction with an empty fee and gas 0, in check-phase. -/
theorem checkTxFee_exempt_witness :
    isOracleTx (FeeTx.mk [⟨true, 7⟩] [] 0 ⟨[1]⟩ none).GetMsgs = true ∧
    checkTxFee checkCtx (.feeTx (FeeTx.mk [⟨true, 7⟩] [] 0 ⟨[1]⟩ none)) [⟨"denomA", 5⟩]
      = some (2 ^ 63 - 1, none) :=
  ⟨by decide, checkTxFee_exempt _ _ _ (by decide)⟩

/-- C4 at fee `{1 denomA, 10 denomB}` and gas 2: the gas prices are 0 and 5, their
minimum is 0, and `getTxPriority` returns 5. -/
theorem getTxPriority_not_minimum :
    getTxPriority [⟨"denomA", 1⟩, ⟨"denomB", 10⟩] 2 = some 5 ∧
    Coins.IsValid [⟨"denomA", 1⟩, ⟨"denomB", 10⟩] = true ∧
    min ((1 : Int) / 2) ((10 : Int) / 2) = 0 := by
  decide

/-- C5: for a fee of one denomination with amount `a ≥ 0` and gas `1 ≤ g < 2^63`,
`getTxPriority` returns `floor(a / g)` when that is at most `2^63 - 1` and
`2^63 - 1` otherwise; for an empty fee it returns 0; fee 200000 with gas 200000
gives priority 1. -/
theorem getTxPriority_single_denom :
    (∀ (denom : String) (a g : Int), 0 ≤ a → 1 ≤ g → g < 2 ^ 63 →
      getTxPriority [⟨denom, a⟩] g
        = some (if a / g ≤ 2 ^ 63 - 1 then a / g else 2 ^ 63 - 1)) ∧
    (∀ g : Int, getTxPriority [] g = some 0) ∧
    getTxPriority [⟨"denomA", 200000⟩] 200000 = some 1 := by
  refine ⟨?_, fun g => rfl, by decide⟩
  intro denom a g ha hg _
  have hg0 : g ≠ 0 := by omega
  have hq : a.tdiv g = a / g := Int.tdiv_eq_ediv ha (by omega)
  have hq0 : 0 ≤ a / g := Int.ediv_nonneg ha (by omega)
  simp only [getTxPriority, getTxPriorityLoop, QuoRaw, hg0, if_false, hq, IsInt64, MinInt64,
    MaxInt64]
  generalize a / g = q at hq0 ⊢
  simp only [Bool.and_eq_true, decide_eq_true_eq, true_or, if_true]
  split_ifs <;> first | rfl | omega

/-- Witness of C5: fee `{7 denomA}` with gas 2. -/
theorem getTxPriority_single_denom_witness :
    getTxPriority [⟨"denomA", 7⟩] 2
      = some (if (7 : Int) / 2 ≤ 2 ^ 63 - 1 then (7 : Int) / 2 else 2 ^ 63 - 1) :=
  getTxPriority_single_denom.1 "denomA" 7 2 (by decide) (by decide) (by decide)

/-! ## Fee grants without an authorizer -/

/-- C10: with the fee-collector account present, a fee granter set and different
from the fee payer, and no fee-grant keeper, `checkDeductFee` returns the
invalid-request error and leaves the world as it was: no call on a collaborator
and no event. -/
theorem checkDeductFee_no_feegrant_keeper {σ : Type} (fd : FeeDecorator σ) (w : World σ)
    (feeTx : FeeTx) (taxes : Coins) (simulate : Bool) (collector feeGranter : AccAddress)
    (hcol : fd.accountKeeper.GetModuleAddress w.ledger FeeCollectorName = some collector)
    (hgr : feeTx.FeeGranter = some feeGranter)
    (_hne : feeGranter.Equals feeTx.FeePayer = false)
    (hnil : fd.feegrantKeeper = none) :
    checkDeductFee fd w feeTx taxes simulate
      = some (some (.Wrapf (.registered .ErrInvalidRequest) "fee grants are not enabled" []), w) := by
  simp [checkDeductFee, hcol, hgr, hnil]

/-- Witness of C10: payer `[1]`, granter `[2]`, no fee-grant keeper. -/
theorem checkDeductFee_no_feegrant_keeper_witness :
    checkDeductFee (permissiveDecorator false) emptyWorld
        (FeeTx.mk [⟨false, 0⟩] [⟨"denomA", 5⟩] 10 ⟨[1]⟩ (some ⟨[2]⟩)) [] false
      = some (some (.Wrapf (.registered .ErrInvalidRequest) "fee grants are not enabled" []),
          emptyWorld) :=
  checkDeductFee_no_feegrant_keeper (permissiveDecorator false) emptyWorld _ [] false ⟨[0]⟩ ⟨[2]⟩
    rfl rfl (by decide) rfl

/-! ## The deduction amount and the simulation-only mint -/

/-- C7 as stated, at fee `{100 denomA}`, tax `{150 denomA}` outside simulation:
both sets are valid, the transfer to the fee collector is the stated fee
`{100 denomA}`, and the larger of fee and tax is 150. -/
theorem checkDeductFee_transfers_fee_outside_simulation :
    Coins.IsValid [⟨"denomA", 100⟩] = true ∧ Coins.IsValid [⟨"denomA", 150⟩] = true ∧
    checkDeductFee (permissiveDecorator false) emptyWorld (plainTx [⟨"denomA", 100⟩] 200000)
        [⟨"denomA", 150⟩] false
      = some (none, ⟨(), [.SendCoinsFromAccountToModule ⟨[1]⟩ "fee_collector" [⟨"denomA", 100⟩],
          .BurnTaxSplit [⟨"denomA", 150⟩], .RecordEpochTaxProceeds [⟨"denomA", 150⟩]],
          [⟨[⟨"denomA", 100⟩], ⟨[1]⟩⟩]⟩) ∧
    amountOf [⟨"denomA", 100⟩] "denomA"
      ≠ max (amountOf [⟨"denomA", 100⟩] "denomA") (amountOf [⟨"denomA", 150⟩] "denomA") := by
  decide

/-- C7, amended: for valid fee and tax sets, every transfer that `checkDeductFee`
makes to the fee collector carries, during simulation, in every denomination the
larger of the stated fee's and the tax's amount, and outside simulation the
stated fee. -/
theorem checkDeductFee_deducted_amount {σ : Type} (fd : FeeDecorator σ) (w : World σ)
    (feeTx : FeeTx) (taxes : Coins) (simulate : Bool) (r : Option Error × World σ)
    (hfee : Coins.IsValid feeTx.GetFee = true) (htax : Coins.IsValid taxes = true)
    (h : checkDeductFee fd w feeTx taxes simulate = some r) :
    ∃ new, r.2.calls = w.calls ++ new ∧
      ∀ sender recipientModule amt,
        Call.SendCoinsFromAccountToModule sender recipientModule amt ∈ new →
        recipientModule = FeeCollectorName ∧
        (simulate = true →
          ∀ d, amountOf amt d = max (amountOf feeTx.GetFee d) (amountOf taxes d)) ∧
        (simulate = false → amt = feeTx.GetFee) := by
  obtain ⟨new, hn, hc⟩ := checkDeductFee_calls fd w feeTx taxes simulate r h
  refine ⟨new, hn, fun sender recipientModule amt hm => ?_⟩
  rcases hc _ hm with ⟨g, hg⟩ | ⟨acc, hd⟩
  · cases hg
  · rcases hd with ⟨amt', he, hda⟩ | hb | hr | ⟨_, _, _, _, _, _, _, hmint⟩
    · cases he
      refine ⟨rfl, ?_, ?_⟩
      · intro hs d
        rcases hda with ⟨hf, _⟩ | ⟨_, fot, hfot, _, hamt⟩
        · rw [hs] at hf
          cases hf
        · obtain ⟨fot', hfot', _, hmax⟩ := simulateFeesOrTax_spec feeTx.GetFee taxes hfee htax
          rw [hfot] at hfot'
          cases hfot'
          rw [hamt, amountOf_perm (Sort_perm fot) d, hmax d]
      · intro hs
        rcases hda with ⟨_, he⟩ | ⟨hf, _⟩
        · exact he
        · rw [hs] at hf
          cases hf
    · cases hb
    · cases hr
    · rcases hmint with e | e <;> cases e

/-- Witness of C7 amended: the simulation of fee `{100 denomA}` with tax `{150 denomA}`. -/
theorem checkDeductFee_deducted_amount_witness :
    ∃ new, [Call.MintCoins "mint" [⟨"denomA", 50⟩],
        .SendCoinsFromModuleToAccount "mint" ⟨[1]⟩ [⟨"denomA", 50⟩],
        .SendCoinsFromAccountToModule ⟨[1]⟩ "fee_collector" [⟨"denomA", 150⟩],
        .BurnTaxSplit [⟨"denomA", 150⟩], .RecordEpochTaxProceeds [⟨"denomA", 150⟩]] = [] ++ new ∧
      ∀ sender recipientModule amt,
        Call.SendCoinsFromAccountToModule sender recipientModule amt ∈ new →
        recipientModule = FeeCollectorName ∧
        (true = true →
          ∀ d, amountOf amt d = max (amountOf [⟨"denomA", 100⟩] d) (amountOf [⟨"denomA", 150⟩] d)) ∧
        (true = false → amt = [⟨"denomA", 100⟩]) :=
  checkDeductFee_deducted_amount (permissiveDecorator false) emptyWorld
    (plainTx [⟨"denomA", 100⟩] 200000) [⟨"denomA", 150⟩] true
    (none, ⟨(), [.MintCoins "mint" [⟨"denomA", 50⟩],
        .SendCoinsFromModuleToAccount "mint" ⟨[1]⟩ [⟨"denomA", 50⟩],
        .SendCoinsFromAccountToModule ⟨[1]⟩ "fee_collector" [⟨"denomA", 150⟩],
        .BurnTaxSplit [⟨"denomA", 150⟩], .RecordEpochTaxProceeds [⟨"denomA", 150⟩]],
        [⟨[⟨"denomA", 100⟩], ⟨[1]⟩⟩]⟩)
    (by decide) (by decide) (by decide)

/-- C8: during simulation, for valid fee and taxes, `needMint` is computed without
panic: the subtraction reports no negative amount, and `needMint` holds in every
denomination `max(0, tax - fee)`; fee `{100 denomA}` with tax `{150 denomA}` gives
`needMint = {50 denomA}` and a final deduction of `{150 denomA}`. -/
theorem needMint_simulate :
    (∀ fee taxes : Coins, Coins.IsValid fee = true → Coins.IsValid taxes = true →
      ∃ feesOrTax mint, simulateFeesOrTax fee taxes = some feesOrTax ∧
        Coins.SafeSub (Coins.Sort feesOrTax) (Coins.Sort fee) = some (mint, false) ∧
        needMint feesOrTax fee = some mint ∧
        (∀ c ∈ mint, 0 < c.Amount) ∧
        ∀ d, amountOf mint d = max 0 (amountOf taxes d - amountOf fee d)) ∧
    (simulateFeesOrTax [⟨"denomA", 100⟩] [⟨"denomA", 150⟩] = some [⟨"denomA", 150⟩] ∧
      needMint [⟨"denomA", 150⟩] [⟨"denomA", 100⟩] = some [⟨"denomA", 50⟩] ∧
      checkDeductFee (permissiveDecorator false) emptyWorld (plainTx [⟨"denomA", 100⟩] 200000)
          [⟨"denomA", 150⟩] true
        = some (none, ⟨(), [.MintCoins "mint" [⟨"denomA", 50⟩],
            .SendCoinsFromModuleToAccount "mint" ⟨[1]⟩ [⟨"denomA", 50⟩],
            .SendCoinsFromAccountToModule ⟨[1]⟩ "fee_collector" [⟨"denomA", 150⟩],
            .BurnTaxSplit [⟨"denomA", 150⟩], .RecordEpochTaxProceeds [⟨"denomA", 150⟩]],
            [⟨[⟨"denomA", 100⟩], ⟨[1]⟩⟩]⟩)) := by
  refine ⟨?_, by decide⟩
  intro fee taxes hfee htax
  obtain ⟨fot, hfot, hs, hmax⟩ := simulateFeesOrTax_spec fee taxes hfee htax
  obtain ⟨m, hm, _, hpos, hma⟩ := needMint_spec fot fee hfee hs
    (fun d => by rw [hmax d]; exact le_max_left _ _)
  refine ⟨fot, m, hfot, ?_, hm, hpos, fun d => ?_⟩
  · have hm' := hm
    unfold needMint Coins.Sub at hm'
    cases hss : Coins.SafeSub (Coins.Sort fot) (Coins.Sort fee) with
    | none => simp [hss] at hm'
    | some p =>
      obtain ⟨diff, hasNeg⟩ := p
      simp only [hss] at hm'
      cases hasNeg with
      | true => simp at hm'
      | false =>
        simp only [Bool.false_eq_true, if_false, Option.some.injEq] at hm'
        rw [hm']
  · rw [hma d, hmax d]
    rcases max_cases (amountOf fee d) (amountOf taxes d) with ⟨e, _⟩ | ⟨e, _⟩ <;>
      rcases max_cases (0 : Int) (amountOf taxes d - amountOf fee d) with ⟨e', _⟩ | ⟨e', _⟩ <;>
      omega

/-- Witness of C8: fee `{100 denomA}` and tax `{150 denomA}`. -/
theorem needMint_simulate_witness :
    ∃ feesOrTax mint, simulateFeesOrTax [⟨"denomA", 100⟩] [⟨"denomA", 150⟩] = some feesOrTax ∧
      Coins.SafeSub (Coins.Sort feesOrTax) (Coins.Sort [⟨"denomA", 100⟩]) = some (mint, false) ∧
      needMint feesOrTax [⟨"denomA", 100⟩] = some mint ∧
      (∀ c ∈ mint, 0 < c.Amount) ∧
      ∀ d, amountOf mint d
        = max 0 (amountOf [⟨"denomA", 150⟩] d - amountOf [⟨"denomA", 100⟩] d) :=
  needMint_simulate.1 [⟨"denomA", 100⟩] [⟨"denomA", 150⟩] (by decide) (by decide)

/-- C9: among the calls of `checkDeductFee`, a mint occurs only during
simulation, into the mint reserve, for exactly `needMint`, and (for valid fee
and taxes) only when some tax exceeds the stated fee in its denomination;
outside simulation there is no mint and no payout of a module account; during
simulation with a zero fee and zero taxes there is no mint. -/
theorem checkDeductFee_mint_only_simulating {σ : Type} (fd : FeeDecorator σ) (w : World σ)
    (feeTx : FeeTx) (taxes : Coins) (simulate : Bool) (r : Option Error × World σ)
    (h : checkDeductFee fd w feeTx taxes simulate = some r) :
    ∃ new, r.2.calls = w.calls ++ new ∧
      (∀ moduleName amt, Call.MintCoins moduleName amt ∈ new →
        simulate = true ∧ moduleName = MintModuleName ∧
        (∃ feesOrTax, simulateFeesOrTax feeTx.GetFee taxes = some feesOrTax ∧
          needMint feesOrTax feeTx.GetFee = some amt) ∧
        (Coins.IsValid feeTx.GetFee = true → Coins.IsValid taxes = true →
          ∃ tax ∈ taxes, amountOf feeTx.GetFee tax.Denom < tax.Amount)) ∧
      (simulate = false → ∀ c ∈ new, c.isMint = false ∧ c.isModulePayout = false) ∧
      (simulate = true → Coins.IsZero feeTx.GetFee = true → Coins.IsZero taxes = true →
        ∀ c ∈ new, c.isMint = false) := by
  obtain ⟨new, hn, hc⟩ := checkDeductFee_calls fd w feeTx taxes simulate r h
  have key : ∀ c ∈ new, (c.isMint = true ∨ c.isModulePayout = true) →
      ∃ acc : Account, MintStep acc feeTx.GetFee taxes simulate c := by
    intro c hm hmint
    rcases hc c hm with ⟨g, hg⟩ | ⟨acc, hd⟩
    · subst hg
      simp [Call.isMint, Call.isModulePayout] at hmint
    · rcases hd with ⟨amt', he, _⟩ | hb | hr | hstep
      · subst he
        simp [Call.isMint, Call.isModulePayout] at hmint
      · subst hb
        simp [Call.isMint, Call.isModulePayout] at hmint
      · subst hr
        simp [Call.isMint, Call.isModulePayout] at hmint
      · exact ⟨acc, hstep⟩
  refine ⟨new, hn, ?_, ?_, ?_⟩
  · intro moduleName amt hm
    obtain ⟨acc, hs, fot, mint, hfot, _, hmint, hmz, hcall⟩ := key _ hm (Or.inl rfl)
    rcases hcall with e | e
    · cases e
      exact ⟨hs, rfl, ⟨fot, hfot, hmint⟩,
        fun hfee htax => tax_exceeds_of_needMint _ _ fot amt hfee htax hfot hmint hmz⟩
    · cases e
  · intro hs c hm
    constructor
    · by_contra hne
      obtain ⟨_, hs', _⟩ := key c hm (Or.inl (by simpa using hne))
      rw [hs] at hs'
      cases hs'
    · by_contra hne
      obtain ⟨_, hs', _⟩ := key c hm (Or.inr (by simpa using hne))
      rw [hs] at hs'
      cases hs'
  · intro _ hfz htz c hm
    by_contra hne
    obtain ⟨_, _, fot, _, hfot, hz, _⟩ := key c hm (Or.inl (by simpa using hne))
    rw [simulateFeesOrTax_of_IsZero _ _ fot hfz htz hfot] at hz
    cases hz

/-- Witness of C9: the simulation of fee `{100 denomA}` with tax `{150 denomA}`,
where `{50 denomA}` is minted. -/
theorem checkDeductFee_mint_only_simulating_witness :
    ∃ new, [Call.MintCoins "mint" [⟨"denomA", 50⟩],
        .SendCoinsFromModuleToAccount "mint" ⟨[1]⟩ [⟨"denomA", 50⟩],
        .SendCoinsFromAccountToModule ⟨[1]⟩ "fee_collector" [⟨"denomA", 150⟩],
        .BurnTaxSplit [⟨"denomA", 150⟩], .RecordEpochTaxProceeds [⟨"denomA", 150⟩]] = [] ++ new ∧
      (∀ moduleName amt, Call.MintCoins moduleName amt ∈ new →
        true = true ∧ moduleName = MintModuleName ∧
        (∃ feesOrTax, simulateFeesOrTax [⟨"denomA", 100⟩] [⟨"denomA", 150⟩] = some feesOrTax ∧
          needMint feesOrTax [⟨"denomA", 100⟩] = some amt) ∧
        (Coins.IsValid [⟨"denomA", 100⟩] = true → Coins.IsValid [⟨"denomA", 150⟩] = true →
          ∃ tax ∈ [(⟨"denomA", 150⟩ : Coin)], amountOf [⟨"denomA", 100⟩] tax.Denom < tax.Amount)) ∧
      (true = false → ∀ c ∈ new, c.isMint = false ∧ c.isModulePayout = false) ∧
      (true = true → Coins.IsZero [⟨"denomA", 100⟩] = true →
        Coins.IsZero [⟨"denomA", 150⟩] = true → ∀ c ∈ new, c.isMint = false) :=
  checkDeductFee_mint_only_simulating (permissiveDecorator false) emptyWorld
    (plainTx [⟨"denomA", 100⟩] 200000) [⟨"denomA", 150⟩] true
    (none, ⟨(), [.MintCoins "mint" [⟨"denomA", 50⟩],
        .SendCoinsFromModuleToAccount "mint" ⟨[1]⟩ [⟨"denomA", 50⟩],
        .SendCoinsFromAccountToModule ⟨[1]⟩ "fee_collector" [⟨"denomA", 150⟩],
        .BurnTaxSplit [⟨"denomA", 150⟩], .RecordEpochTaxProceeds [⟨"denomA", 150⟩]],
        [⟨[⟨"denomA", 100⟩], ⟨[1]⟩⟩]⟩)
    (by decide)

/-! ## Fee granter equal to the fee payer -/

theorem AccAddress.eq_of_Equals {a b : AccAddress} (h : a.Equals b = true) : a = b := by
  cases a
  cases b
  simpa [AccAddress.Equals] using h

theorem DeductCall.not_UseGrantedFees {acc : Account} {fee taxes : Coins} {simulate : Bool}
    {c : Call} (h : DeductCall acc fee taxes simulate c) (g p : AccAddress) (f : Coins)
    (m : List Msg) : c ≠ .UseGrantedFees g p f m := by
  intro e
  subst e
  rcases h with ⟨_, he, _⟩ | he | he | ⟨_, _, _, _, _, _, _, he⟩
  · cases he
  · cases he
  · cases he
  · rcases he with he | he <;> cases he

/-- C11 as stated, at fee granter `[1]` equal to the fee payer `[1]` with no
fee-grant keeper: `checkDeductFee` fails with the invalid-request error
"fee grants are not enabled". -/
theorem checkDeductFee_granter_is_payer_no_keeper :
    AccAddress.Equals ⟨[1]⟩ ⟨[1]⟩ = true ∧
    (permissiveDecorator false).feegrantKeeper.isNone = true ∧
    checkDeductFee (permissiveDecorator false) emptyWorld
        (FeeTx.mk [⟨false, 0⟩] [⟨"denomA", 5⟩] 10 ⟨[1]⟩ (some ⟨[1]⟩)) [] false
      = some (some (.Wrapf (.registered .ErrInvalidRequest) "fee grants are not enabled" []),
          emptyWorld) := by
  decide

/-- C11, amended: with the fee-collector account present and a fee granter set
and equal to the fee payer, `checkDeductFee` fails with the invalid-request
error "fee grants are not enabled" when no fee-grant keeper is configured;
when one is configured it makes no `UseGrantedFees` call and continues with the
fee payer as the deduction target. -/
theorem checkDeductFee_granter_is_payer {σ : Type} (fd : FeeDecorator σ) (w : World σ)
    (feeTx : FeeTx) (taxes : Coins) (simulate : Bool) (collector granter : AccAddress)
    (hcol : fd.accountKeeper.GetModuleAddress w.ledger FeeCollectorName = some collector)
    (hgr : feeTx.FeeGranter = some granter)
    (heq : granter.Equals feeTx.FeePayer = true) :
    (fd.feegrantKeeper = none →
      checkDeductFee fd w feeTx taxes simulate
        = some (some (.Wrapf (.registered .ErrInvalidRequest) "fee grants are not enabled" []),
            w)) ∧
    (∀ keeper, fd.feegrantKeeper = some keeper →
      checkDeductFee fd w feeTx taxes simulate
        = resolveAndDeduct fd w feeTx.FeePayer feeTx.GetFee taxes simulate ∧
      ∀ r, checkDeductFee fd w feeTx taxes simulate = some r →
        ∃ new, r.2.calls = w.calls ++ new ∧
          ∀ c ∈ new, ∀ g p f m, c ≠ Call.UseGrantedFees g p f m) := by
  have hg : granter = feeTx.FeePayer := AccAddress.eq_of_Equals heq
  constructor
  · intro hnil
    simp [checkDeductFee, hcol, hgr, hnil]
  · intro keeper hk
    have hrun : checkDeductFee fd w feeTx taxes simulate
        = resolveAndDeduct fd w feeTx.FeePayer feeTx.GetFee taxes simulate := by
      simp only [checkDeductFee, hcol, hgr, hk, heq, Bool.not_true, Bool.false_eq_true, if_false]
      rw [hg]
    refine ⟨hrun, fun r hr => ?_⟩
    rw [hrun] at hr
    obtain ⟨new, hn, hc⟩ := resolveAndDeduct_calls fd w _ _ taxes simulate r hr
    refine ⟨new, hn, fun c hm g p f m => ?_⟩
    obtain ⟨acc, hd⟩ := hc c hm
    exact hd.not_UseGrantedFees g p f m

/-- Witness of C11 amended: fee granter `[1]` equal to the fee payer `[1]`, with
a fee-grant keeper. -/
theorem checkDeductFee_granter_is_payer_witness :
    checkDeductFee (permissiveDecorator true) emptyWorld
        (FeeTx.mk [⟨false, 0⟩] [⟨"denomA", 5⟩] 10 ⟨[1]⟩ (some ⟨[1]⟩)) [] false
      = resolveAndDeduct (permissiveDecorator true) emptyWorld ⟨[1]⟩ [⟨"denomA", 5⟩] [] false ∧
    checkDeductFee (permissiveDecorator true) emptyWorld
        (FeeTx.mk [⟨false, 0⟩] [⟨"denomA", 5⟩] 10 ⟨[1]⟩ (some ⟨[1]⟩)) [] false
      = some (none, ⟨(), [.SendCoinsFromAccountToModule ⟨[1]⟩ "fee_collector" [⟨"denomA", 5⟩]],
          [⟨[⟨"denomA", 5⟩], ⟨[1]⟩⟩]⟩) :=
  ⟨((checkDeductFee_granter_is_payer (permissiveDecorator true) emptyWorld
      (FeeTx.mk [⟨false, 0⟩] [⟨"denomA", 5⟩] 10 ⟨[1]⟩ (some ⟨[1]⟩)) [] false ⟨[0]⟩ ⟨[1]⟩
      rfl rfl (by decide)).2 _ rfl).1, by decide⟩

/-! ## `DeductFees` -/

theorem pairwise_le_of_StrictSorted {coins : Coins} (h : StrictSorted coins) :
    coins.Pairwise (fun a b => a.Denom.data ≤ b.Denom.data) :=
  List.Pairwise.imp (fun hab => le_of_lt hab) h

theorem nodup_of_StrictSorted {coins : Coins} (h : StrictSorted coins) :
    (coins.map Coin.Denom).Nodup := by
  unfold List.Nodup
  rw [List.pairwise_map]
  exact List.Pairwise.imp (fun hab => denom_ne_of_lt hab) h

/-- C13: for a coin set that is not valid, in particular one with an amount that
is negative or zero, with a duplicate denomination or not sorted by
denomination, `DeductFees` returns the insufficient-fee error and leaves the
world as it was (no transfer); for a valid coin set it makes exactly one call,
the transfer of that coin set from the account to the fee collector, and
returns an insufficient-funds error when the transfer fails and no error when
it succeeds. -/
theorem DeductFees_spec {σ : Type} (bankKeeper : BankKeeper σ) (w : World σ) (acc : Account)
    (fees : Coins) :
    (((∃ c ∈ fees, c.Amount ≤ 0) ∨ ¬ (fees.map Coin.Denom).Nodup ∨
        ¬ fees.Pairwise (fun a b => a.Denom.data ≤ b.Denom.data)) →
      Coins.IsValid fees = false) ∧
    (Coins.IsValid fees = false →
      DeductFees bankKeeper w acc fees
        = (some (.Wrapf (.registered .ErrInsufficientFee) "invalid fee amount: %s" [.coins fees]),
            w)) ∧
    (Coins.IsValid fees = true →
      (DeductFees bankKeeper w acc fees).2
        = w.step (.SendCoinsFromAccountToModule acc.GetAddress FeeCollectorName fees)
            (bankKeeper.SendCoinsFromAccountToModule w.ledger acc.GetAddress
              FeeCollectorName fees).1 ∧
      (DeductFees bankKeeper w acc fees).2.calls
        = w.calls ++ [.SendCoinsFromAccountToModule acc.GetAddress FeeCollectorName fees] ∧
      (∀ err, (bankKeeper.SendCoinsFromAccountToModule w.ledger acc.GetAddress
            FeeCollectorName fees).2 = some err →
        (DeductFees bankKeeper w acc fees).1
          = some (.WrapErrorText (.registered .ErrInsufficientFunds) err) ∧
        Error.kind (.WrapErrorText (.registered .ErrInsufficientFunds) err)
          = some .ErrInsufficientFunds) ∧
      ((bankKeeper.SendCoinsFromAccountToModule w.ledger acc.GetAddress
            FeeCollectorName fees).2 = none →
        (DeductFees bankKeeper w acc fees).1 = none)) := by
  refine ⟨?_, ?_, ?_⟩
  · intro hbad
    by_contra hv
    have hv' : Coins.Validate fees = true := by simpa [Coins.IsValid] using hv
    obtain ⟨hs, hpos⟩ := Validate_spec fees hv'
    rcases hbad with ⟨c, hc, hle⟩ | hdup | hns
    · have := (hpos c hc).2
      omega
    · exact hdup (nodup_of_StrictSorted hs)
    · exact hns (pairwise_le_of_StrictSorted hs)
  · intro hv
    simp [DeductFees, hv]
  · intro hv
    refine ⟨?_, ?_, ?_, ?_⟩
    · unfold DeductFees
      simp only [hv, Bool.not_true, Bool.false_eq_true, if_false]
      split <;> rfl
    · unfold DeductFees
      simp only [hv, Bool.not_true, Bool.false_eq_true, if_false]
      split <;> rfl
    · intro err herr
      refine ⟨?_, rfl⟩
      unfold DeductFees
      simp only [hv, Bool.not_true, Bool.false_eq_true, if_false, herr]
    · intro hok
      unfold DeductFees
      simp only [hv, Bool.not_true, Bool.false_eq_true, if_false, hok]

/-- Witness of C13: the coin set `{0 denomA}` is rejected without a transfer. -/
theorem DeductFees_spec_witness :
    DeductFees (permissiveDecorator false).bankKeeper emptyWorld ⟨⟨[1]⟩⟩ [⟨"denomA", 0⟩]
      = (some (.Wrapf (.registered .ErrInsufficientFee) "invalid fee amount: %s"
          [.coins [⟨"denomA", 0⟩]]), emptyWorld) :=
  (DeductFees_spec (permissiveDecorator false).bankKeeper emptyWorld ⟨⟨[1]⟩⟩
    [⟨"denomA", 0⟩]).2.1
    ((DeductFees_spec (permissiveDecorator false).bankKeeper emptyWorld ⟨⟨[1]⟩⟩
      [⟨"denomA", 0⟩]).1 (Or.inl ⟨⟨"denomA", 0⟩, by decide, by decide⟩))

/-! ## The zero accumulator of `getTxPriority` -/

/-- C14: for gas `1 ≤ g < 2^63` and a fee of at least two denominations whose
first gas price `floor(amount / g)` is 0, `getTxPriority` returns what it
returns on the fee without its first denomination. -/
theorem getTxPriority_first_zero (c : Coin) (rest : Coins) (g : Int) (hg : 1 ≤ g)
    (_hg2 : g < 2 ^ 63) (_hrest : rest ≠ []) (h0 : c.Amount / g = 0) :
    getTxPriority (c :: rest) g = getTxPriority rest g := by
  have hg0 : g ≠ 0 := by omega
  have ha : 0 ≤ c.Amount := by
    have h1 := Int.emod_add_ediv c.Amount g
    have h2 := Int.emod_nonneg c.Amount hg0
    rw [h0, mul_zero, add_zero] at h1
    omega
  have hq : c.Amount.tdiv g = 0 := by
    rw [Int.tdiv_eq_ediv ha (by omega), h0]
  have hi : IsInt64 0 = true := by decide
  simp [getTxPriority, getTxPriorityLoop, QuoRaw, hg0, hq, hi]

/-- Witness of C14: fee `{1 denomA, 10 denomB}` with gas 2; the zero candidate of
`denomA` is replaced by the candidate 5 of `denomB`. -/
theorem getTxPriority_first_zero_witness :
    getTxPriority [⟨"denomA", 1⟩, ⟨"denomB", 10⟩] 2 = getTxPriority [⟨"denomB", 10⟩] 2 ∧
    getTxPriority [⟨"denomB", 10⟩] 2 = some 5 :=
  ⟨getTxPriority_first_zero ⟨"denomA", 1⟩ [⟨"denomB", 10⟩] 2 (by decide) (by decide)
    (by decide) (by decide), by decide⟩

/-! ## The priority passed to the next stage -/

/-- C15: for a fee-capable transaction that passes the gas-limit check,
`AnteHandle` calls the next stage exactly when `checkTxFee` (evaluated only
outside simulation) and `checkDeductFee` return no error, passes it the context
with the priority of `checkTxFee` outside simulation and 0 during simulation,
on the world left by `checkDeductFee`, and returns its result; when one of the
two fails, the result is that error whatever the next stage is. -/
theorem AnteHandle_next {σ : Type} (fd : FeeDecorator σ) (ctx : Context) (w : World σ)
    (feeTx : FeeTx) (simulate : Bool)
    (hguard : ¬ (simulate = false ∧ 0 < ctx.BlockHeight ∧ feeTx.GetGas = 0)) :
    (∀ (next : AnteHandler σ) (p : Int) (w1 : World σ), simulate = false →
      checkTxFee ctx (.feeTx feeTx)
        (fd.treasuryKeeper.FilterMsgAndComputeTax ctx w.ledger false feeTx.GetMsgs)
          = some (p, none) →
      checkDeductFee fd w feeTx
        (fd.treasuryKeeper.FilterMsgAndComputeTax ctx w.ledger false feeTx.GetMsgs) false
          = some (none, w1) →
      AnteHandle fd ctx w (.feeTx feeTx) simulate next
          = next (ctx.WithPriority p) (.feeTx feeTx) false w1 ∧
        (ctx.WithPriority p).Priority = p) ∧
    (∀ (next : AnteHandler σ) (w1 : World σ), simulate = true →
      checkDeductFee fd w feeTx
        (fd.treasuryKeeper.FilterMsgAndComputeTax ctx w.ledger true feeTx.GetMsgs) true
          = some (none, w1) →
      AnteHandle fd ctx w (.feeTx feeTx) simulate next
          = next (ctx.WithPriority 0) (.feeTx feeTx) true w1 ∧
        (ctx.WithPriority 0).Priority = 0) ∧
    (∀ (next : AnteHandler σ) (p : Int) (err : Error), simulate = false →
      checkTxFee ctx (.feeTx feeTx)
        (fd.treasuryKeeper.FilterMsgAndComputeTax ctx w.ledger false feeTx.GetMsgs)
          = some (p, some err) →
      AnteHandle fd ctx w (.feeTx feeTx) simulate next = some ((ctx, some err), w)) ∧
    (∀ (next : AnteHandler σ) (p : Int) (err : Error) (w1 : World σ),
      (if !simulate then checkTxFee ctx (.feeTx feeTx)
          (fd.treasuryKeeper.FilterMsgAndComputeTax ctx w.ledger simulate feeTx.GetMsgs)
        else some (0, none)) = some (p, none) →
      checkDeductFee fd w feeTx
        (fd.treasuryKeeper.FilterMsgAndComputeTax ctx w.ledger simulate feeTx.GetMsgs) simulate
          = some (some err, w1) →
      AnteHandle fd ctx w (.feeTx feeTx) simulate next = some ((ctx, some err), w1)) := by
  have hg : (!simulate && decide (0 < ctx.BlockHeight) && decide (feeTx.GetGas = 0)) = false := by
    rw [Bool.eq_false_iff]
    intro h
    simp only [Bool.and_eq_true, Bool.not_eq_true', decide_eq_true_eq] at h
    exact hguard ⟨h.1.1, h.1.2, h.2⟩
  have hbody : ∀ next : AnteHandler σ, AnteHandle fd ctx w (.feeTx feeTx) simulate next
      = anteHandleBody fd ctx w feeTx simulate next := by
    intro next
    simp only [AnteHandle, hg, Bool.false_eq_true, if_false]
  refine ⟨?_, ?_, ?_, ?_⟩
  · intro next p w1 hs hc hd
    rw [hbody]
    subst hs
    refine ⟨?_, rfl⟩
    simp only [anteHandleBody, Bool.not_false, if_true, hc, hd]
  · intro next w1 hs hd
    rw [hbody]
    subst hs
    refine ⟨?_, rfl⟩
    simp only [anteHandleBody, Bool.not_true, Bool.false_eq_true, if_false, hd]
  · intro next p err hs hc
    rw [hbody]
    subst hs
    simp only [anteHandleBody, Bool.not_false, if_true, hc]
  · intro next p err w1 hc hd
    rw [hbody]
    simp only [anteHandleBody, hc, hd]

/-- Witness of C15: the fee `{200000 denomA}` with gas 200000 in check-phase at
minimum gas price 1 reaches the next stage with priority 1. -/
theorem AnteHandle_next_witness :
    AnteHandle (permissiveDecorator false) checkCtx emptyWorld
        (.feeTx (plainTx [⟨"denomA", 200000⟩] 200000)) false nextOk
      = nextOk (checkCtx.WithPriority 1) (.feeTx (plainTx [⟨"denomA", 200000⟩] 200000)) false
          ⟨(), [.SendCoinsFromAccountToModule ⟨[1]⟩ "fee_collector" [⟨"denomA", 200000⟩]],
            [⟨[⟨"denomA", 200000⟩], ⟨[1]⟩⟩]⟩ ∧
    (checkCtx.WithPriority 1).Priority = 1 :=
  (AnteHandle_next (permissiveDecorator false) checkCtx emptyWorld
    (plainTx [⟨"denomA", 200000⟩] 200000) false (by decide)).1 nextOk 1 _ rfl (by decide)
    (by decide)

/-! ## The range of the priority -/

theorem getTxPriorityLoop_range (gas : Int) (hg : 0 < gas) : ∀ (fee : Coins) (acc p : Int),
    (∀ c ∈ fee, 0 ≤ c.Amount) → 0 ≤ acc → acc ≤ MaxInt64 →
    getTxPriorityLoop gas fee acc = some p → 0 ≤ p ∧ p ≤ MaxInt64
  | [], acc, p, _, h0, h1, h => by
    simp only [getTxPriorityLoop, Option.some.injEq] at h
    subst h
    exact ⟨h0, h1⟩
  | c :: rest, acc, p, hpos, h0, h1, h => by
    have hg0 : gas ≠ 0 := by omega
    have hq : 0 ≤ c.Amount.tdiv gas :=
      Int.tdiv_nonneg (hpos c (List.mem_cons_self _ _)) (le_of_lt hg)
    have hrest : ∀ x ∈ rest, 0 ≤ x.Amount := fun x hx => hpos x (List.mem_cons_of_mem _ hx)
    have hp : 0 ≤ (if IsInt64 (c.Amount.tdiv gas) = true then c.Amount.tdiv gas else MaxInt64) ∧
        (if IsInt64 (c.Amount.tdiv gas) = true then c.Amount.tdiv gas else MaxInt64)
          ≤ MaxInt64 := by
      split_ifs with hi
      · simp only [IsInt64, Bool.and_eq_true, decide_eq_true_eq] at hi
        exact ⟨hq, hi.2⟩
      · exact ⟨by decide, le_refl _⟩
    simp only [getTxPriorityLoop, QuoRaw, hg0, if_false] at h
    generalize (if IsInt64 (c.Amount.tdiv gas) = true then c.Amount.tdiv gas else MaxInt64) = q
      at hp h
    by_cases hc : acc = 0 ∨ q < acc
    · rw [if_pos hc] at h
      exact getTxPriorityLoop_range gas hg rest q p hrest hp.1 hp.2 h
    · rw [if_neg hc] at h
      exact getTxPriorityLoop_range gas hg rest acc p hrest h0 h1 h

/-- C19 as stated, at the valid fee `{10 denomA}` and the non-zero gas limit
`2^64 - 1` outside check-phase: `int64(gas)` is -1 and `checkTxFee` returns
priority -10 with no error. -/
theorem checkTxFee_negative_priority :
    Coins.IsValid [⟨"denomA", 10⟩] = true ∧ (2 ^ 64 - 1 : Nat) ≠ 0 ∧ (2 ^ 64 - 1 : Nat) < 2 ^ 64 ∧
    int64 (2 ^ 64 - 1) = -1 ∧
    checkTxFee deliverCtx (.feeTx (plainTx [⟨"denomA", 10⟩] (2 ^ 64 - 1))) []
      = some (-10, none) := by
  decide

/-- C19, amended: for a valid stated fee and a gas limit `g` with
`1 ≤ g < 2^63`, the priority that a successful `checkTxFee` returns lies
between 0 and `2^63 - 1`. -/
theorem checkTxFee_priority_range (ctx : Context) (feeTx : FeeTx) (taxes : Coins) (p : Int)
    (hfee : Coins.IsValid feeTx.GetFee = true)
    (hg1 : 1 ≤ feeTx.GetGas) (hg2 : feeTx.GetGas < 2 ^ 63)
    (h : checkTxFee ctx (.feeTx feeTx) taxes = some (p, none)) :
    0 ≤ p ∧ p ≤ 2 ^ 63 - 1 := by
  have hmax : MaxInt64 = 2 ^ 63 - 1 := rfl
  have hpos : ∀ c ∈ feeTx.GetFee, 0 ≤ c.Amount :=
    fun c hc => le_of_lt ((Validate_spec _ hfee).2 c hc).2
  have hgas : 0 < int64 feeTx.GetGas := by
    rw [int64_of_lt _ hg2]
    omega
  rw [← hmax]
  unfold checkTxFee at h
  simp only at h
  split at h
  · cases h
  · cases h
  · split_ifs at h with ho
    · cases hp : getTxPriority feeTx.GetFee (int64 feeTx.GetGas) with
      | none => simp [hp] at h
      | some q =>
        simp only [hp, Option.some.injEq, Prod.mk.injEq, and_true] at h
        subst h
        exact getTxPriorityLoop_range _ hgas _ 0 q hpos (le_refl _) (by decide) hp
    · simp only [Option.some.injEq, Prod.mk.injEq, and_true] at h
      subst h
      exact ⟨by decide, le_refl _⟩

/-- Witness of C19 amended: the fee `{200000 denomA}` with gas 200000. -/
theorem checkTxFee_priority_range_witness :
    checkTxFee checkCtx (.feeTx (plainTx [⟨"denomA", 200000⟩] 200000)) [] = some (1, none) ∧
    (0 : Int) ≤ 1 ∧ (1 : Int) ≤ 2 ^ 63 - 1 :=
  ⟨by decide, checkTxFee_priority_range checkCtx (plainTx [⟨"denomA", 200000⟩] 200000) [] 1
    (by decide) (by decide) (by decide) (by decide)⟩

/-! ## The divisor of `getTxPriority` -/

theorem int64_ne_zero (g : Nat) (h0 : g ≠ 0) (h : g < 2 ^ 64) : int64 g ≠ 0 := by
  unfold int64
  have h1 : g % 2 ^ 64 = g := Nat.mod_eq_of_lt h
  rw [h1]
  split_ifs <;> omega

/-- C20 as stated, at block height 0 outside simulation, fee `{5 denomA}` and
gas limit 0: the gas-limit check does not reject, `getTxPriority` is reached
with divisor 0 and the division panics. -/
theorem AnteHandle_zero_divisor_at_height_zero :
    genesisCtx.BlockHeight = 0 ∧
    (plainTx [⟨"denomA", 5⟩] 0).GetGas = 0 ∧ (plainTx [⟨"denomA", 5⟩] 0).GetFee ≠ [] ∧
    QuoRaw 5 (int64 0) = none ∧
    getTxPriority [⟨"denomA", 5⟩] (int64 0) = none ∧
    checkTxFee genesisCtx (.feeTx (plainTx [⟨"denomA", 5⟩] 0)) [] = none ∧
    AnteHandle (permissiveDecorator false) genesisCtx emptyWorld
      (.feeTx (plainTx [⟨"denomA", 5⟩] 0)) false nextOk = none := by
  decide

/-- C20, amended: in every run of `AnteHandle` at a positive block height the
division of `getTxPriority` has a non-zero divisor: outside simulation a gas
limit of 0 is rejected before `checkTxFee`, and for a non-zero gas limit
`int64(gas)` is not 0 and `getTxPriority` returns; during simulation
`checkTxFee` is not evaluated, the stage being `checkDeductFee` followed by the
next stage. -/
theorem AnteHandle_divisor_nonzero {σ : Type} (fd : FeeDecorator σ) (ctx : Context)
    (w : World σ) (feeTx : FeeTx) (next : AnteHandler σ)
    (hh : 0 < ctx.BlockHeight) (hgas : feeTx.GetGas < 2 ^ 64) :
    (feeTx.GetGas = 0 →
      AnteHandle fd ctx w (.feeTx feeTx) false next
        = some ((ctx, some (.Wrapf (.registered .ErrInvalidGasLimit)
            "must provide positive gas" [])), w)) ∧
    (feeTx.GetGas ≠ 0 →
      int64 feeTx.GetGas ≠ 0 ∧
      (∀ c ∈ feeTx.GetFee, QuoRaw c.Amount (int64 feeTx.GetGas) ≠ none) ∧
      ∃ p, getTxPriority feeTx.GetFee (int64 feeTx.GetGas) = some p) ∧
    AnteHandle fd ctx w (.feeTx feeTx) true next
      = (match checkDeductFee fd w feeTx
            (fd.treasuryKeeper.FilterMsgAndComputeTax ctx w.ledger true feeTx.GetMsgs) true with
          | none => none
          | some (some err, w1) => some ((ctx, some err), w1)
          | some (none, w1) => next (ctx.WithPriority 0) (.feeTx feeTx) true w1) := by
  refine ⟨?_, ?_, ?_⟩
  · intro h0
    simp [AnteHandle, h0, hh]
  · intro hne
    have hi := int64_ne_zero _ hne hgas
    refine ⟨hi, fun c _ => ?_, getTxPriorityLoop_isSome _ hi _ 0⟩
    simp [QuoRaw, hi]
  · simp only [AnteHandle, Bool.not_true, Bool.false_and, Bool.false_eq_true, if_false,
      anteHandleBody]

/-- Witness of C20 amended: at height 10, gas 0 is rejected and gas 200000 gives
a non-zero divisor. -/
theorem AnteHandle_divisor_nonzero_witness :
    AnteHandle (permissiveDecorator false) checkCtx emptyWorld (.feeTx (plainTx [] 0)) false nextOk
      = some ((checkCtx, some (.Wrapf (.registered .ErrInvalidGasLimit)
          "must provide positive gas" [])), emptyWorld) ∧
    int64 (plainTx [⟨"denomA", 200000⟩] 200000).GetGas ≠ 0 :=
  ⟨(AnteHandle_divisor_nonzero (permissiveDecorator false) checkCtx emptyWorld (plainTx [] 0)
      nextOk (by decide) (by decide)).1 rfl,
   ((AnteHandle_divisor_nonzero (permissiveDecorator false) checkCtx emptyWorld
      (plainTx [⟨"denomA", 200000⟩] 200000) nextOk (by decide) (by decide)).2.1
      (by decide)).1⟩

/-! ## The event of `checkDeductFee` -/

theorem deductAndSettle_events {σ : Type} (fd : FeeDecorator σ) (w : World σ) (acc : Account)
    (deductFeesFrom : AccAddress) (fee feesOrTax taxes : Coins) :
    ((deductAndSettle fd w acc deductFeesFrom fee feesOrTax taxes).1 = none →
      (deductAndSettle fd w acc deductFeesFrom fee feesOrTax taxes).2.events
        = w.events ++ [⟨fee, deductFeesFrom⟩]) ∧
    (∀ e, (deductAndSettle fd w acc deductFeesFrom fee feesOrTax taxes).1 = some e →
      ((deductAndSettle fd w acc deductFeesFrom fee feesOrTax taxes).2.events = w.events ∧
        (StageError e ∨ CollaboratorError fd e))) := by
  unfold deductAndSettle DeductFees
  by_cases hz : Coins.IsZero feesOrTax = true
  · simp [hz]
  · by_cases hv : Coins.IsValid feesOrTax = true
    · cases hsend : (fd.bankKeeper.SendCoinsFromAccountToModule w.ledger acc.GetAddress
          FeeCollectorName feesOrTax).2 with
      | some err =>
        simp only [hz, hv, hsend, Bool.not_true, Bool.false_eq_true, if_false, Bool.not_false,
          if_true, World.step]
        refine ⟨by simp, fun e he => ⟨trivial, Or.inr (Or.inr (Or.inl ⟨_, _, _, _, err, hsend, ?_⟩))⟩⟩
        simpa using he.symm
      | none =>
        by_cases htz : Coins.IsZero taxes = true
        · simp [hz, hv, hsend, htz, World.step]
        · cases hb : (fd.treasuryKeeper.BurnTaxSplit (fd.bankKeeper.SendCoinsFromAccountToModule
              w.ledger acc.GetAddress FeeCollectorName feesOrTax).1 taxes).2 with
          | some err =>
            simp only [hz, hv, hsend, htz, hb, Bool.not_true, Bool.false_eq_true, if_false,
              Bool.not_false, if_true, World.step]
            refine ⟨by simp, fun e he => ⟨trivial, Or.inr (Or.inr (Or.inr (Or.inr (Or.inr
              ⟨(fd.bankKeeper.SendCoinsFromAccountToModule w.ledger acc.GetAddress
                FeeCollectorName feesOrTax).1, taxes, ?_⟩))))⟩⟩
            have : err = e := by simpa using he
            rw [← this]
            exact hb
          | none =>
            simp [hz, hv, hsend, htz, hb, World.step]
    · simp only [hz, hv, Bool.not_false, if_true, Bool.not_true, Bool.false_eq_true, if_false]
      refine ⟨by simp, fun e he => ⟨trivial, Or.inl (Or.inr (Or.inr (Or.inr ⟨feesOrTax, ?_⟩)))⟩⟩
      simpa using he.symm

theorem mintAndDeduct_outcome {σ : Type} (fd : FeeDecorator σ) (w : World σ) (acc : Account)
    (deductFeesFrom : AccAddress) (fee taxes : Coins) (simulate : Bool)
    (r : Option Error × World σ)
    (h : mintAndDeduct fd w acc deductFeesFrom fee taxes simulate = some r) :
    (r.1 = none → ∃ f, r.2.events = w.events ++ [⟨f, deductFeesFrom⟩] ∧
      (f = fee ∨ f = Coins.Sort fee)) ∧
    (∀ e, r.1 = some e → r.2.events = w.events ∧ (StageError e ∨ CollaboratorError fd e)) := by
  have settle : ∀ (w' : World σ) (f fot : Coins), w'.events = w.events →
      (f = fee ∨ f = Coins.Sort fee) →
      ((deductAndSettle fd w' acc deductFeesFrom f fot taxes).1 = none →
        ∃ f', (deductAndSettle fd w' acc deductFeesFrom f fot taxes).2.events
            = w.events ++ [⟨f', deductFeesFrom⟩] ∧ (f' = fee ∨ f' = Coins.Sort fee)) ∧
      (∀ e, (deductAndSettle fd w' acc deductFeesFrom f fot taxes).1 = some e →
        (deductAndSettle fd w' acc deductFeesFrom f fot taxes).2.events = w.events ∧
          (StageError e ∨ CollaboratorError fd e)) := by
    intro w' f fot hev hf
    obtain ⟨h1, h2⟩ := deductAndSettle_events fd w' acc deductFeesFrom f fot taxes
    refine ⟨fun hn => ⟨f, by rw [h1 hn, hev], hf⟩, fun e he => ?_⟩
    obtain ⟨h3, h4⟩ := h2 e he
    exact ⟨by rw [h3, hev], h4⟩
  unfold mintAndDeduct at h
  cases simulate with
  | false =>
    simp only [Bool.false_eq_true, if_false, Option.some.injEq] at h
    subst h
    exact settle w fee fee rfl (Or.inl rfl)
  | true =>
    simp only [if_true] at h
    cases hf : simulateFeesOrTax fee taxes with
    | none => simp [hf] at h
    | some feesOrTax =>
      simp only [hf] at h
      by_cases hz : Coins.IsZero feesOrTax = true
      · simp only [hz, Bool.not_true, Bool.false_eq_true, if_false, Option.some.injEq] at h
        subst h
        exact settle w fee feesOrTax rfl (Or.inl rfl)
      · have hz' : Coins.IsZero feesOrTax = false := by simpa using hz
        simp only [hz', Bool.not_false, if_true] at h
        cases hm : needMint feesOrTax fee with
        | none => simp [hm] at h
        | some mint =>
          simp only [hm] at h
          by_cases hmz : Coins.IsZero mint = true
          · simp only [hmz, Bool.not_true, Bool.false_eq_true, if_false, Option.some.injEq] at h
            subst h
            exact settle w _ _ rfl (Or.inr rfl)
          · have hmz' : Coins.IsZero mint = false := by simpa using hmz
            simp only [hmz', Bool.not_false, if_true] at h
            cases h1 : (fd.bankKeeper.MintCoins w.ledger MintModuleName mint).2 with
            | some err =>
              simp only [h1, Option.some.injEq] at h
              subst h
              refine ⟨fun hn => by simp at hn, fun e he => ⟨rfl, Or.inr (Or.inr (Or.inr (Or.inl
                ⟨w.ledger, MintModuleName, mint, ?_⟩)))⟩⟩
              have : err = e := by simpa using he
              rw [← this]
              exact h1
            | none =>
              simp only [h1] at h
              cases h2 : (fd.bankKeeper.SendCoinsFromModuleToAccount
                  (w.step (.MintCoins MintModuleName mint)
                    (fd.bankKeeper.MintCoins w.ledger MintModuleName mint).1).ledger
                  MintModuleName acc.GetAddress mint).2 with
              | some err =>
                simp only [h2, Option.some.injEq] at h
                subst h
                refine ⟨fun hn => by simp at hn, fun e he => ⟨rfl, Or.inr (Or.inr (Or.inr (Or.inr
                  (Or.inl ⟨(w.step (.MintCoins MintModuleName mint)
                    (fd.bankKeeper.MintCoins w.ledger MintModuleName mint).1).ledger,
                    MintModuleName, acc.GetAddress, mint, ?_⟩))))⟩⟩
                have : err = e := by simpa using he
                rw [← this]
                exact h2
              | none =>
                simp only [h2, Option.some.injEq] at h
                subst h
                exact settle _ _ _ rfl (Or.inr rfl)

theorem resolveAndDeduct_outcome {σ : Type} (fd : FeeDecorator σ) (w : World σ)
    (deductFeesFrom : AccAddress) (fee taxes : Coins) (simulate : Bool)
    (r : Option Error × World σ)
    (h : resolveAndDeduct fd w deductFeesFrom fee taxes simulate = some r) :
    (r.1 = none → ∃ f, r.2.events = w.events ++ [⟨f, deductFeesFrom⟩] ∧
      (f = fee ∨ f = Coins.Sort fee)) ∧
    (∀ e, r.1 = some e → r.2.events = w.events ∧ (StageError e ∨ CollaboratorError fd e)) := by
  unfold resolveAndDeduct at h
  cases hacc : fd.accountKeeper.GetAccount w.ledger deductFeesFrom with
  | none =>
    simp only [hacc, Option.some.injEq] at h
    subst h
    refine ⟨fun hn => by simp at hn, fun e he => ⟨rfl, Or.inl (Or.inr (Or.inr (Or.inl
      ⟨deductFeesFrom, ?_⟩)))⟩⟩
    simpa using he.symm
  | some acc =>
    simp only [hacc] at h
    exact mintAndDeduct_outcome fd w acc deductFeesFrom fee taxes simulate r h

/-- The outcome of `checkDeductFee`: on success one event with the stated fee
(sorted in the simulation branch that sorts it in place) and the deduction
target; on failure no event, and an error raised by the stage or coming from a
collaborator. -/
theorem checkDeductFee_outcome {σ : Type} (fd : FeeDecorator σ) (w : World σ) (feeTx : FeeTx)
    (taxes : Coins) (simulate : Bool) (r : Option Error × World σ)
    (h : checkDeductFee fd w feeTx taxes simulate = some r) :
    (r.1 = none → ∃ f, r.2.events = w.events ++ [⟨f, deductionTarget feeTx⟩] ∧
      (f = feeTx.GetFee ∨ f = Coins.Sort feeTx.GetFee)) ∧
    (∀ e, r.1 = some e → r.2.events = w.events ∧ (StageError e ∨ CollaboratorError fd e)) := by
  unfold checkDeductFee at h
  cases hcol : fd.accountKeeper.GetModuleAddress w.ledger FeeCollectorName with
  | none =>
    simp only [hcol, Option.some.injEq] at h
    subst h
    refine ⟨fun hn => by simp at hn, fun e he => ⟨rfl, Or.inl (Or.inl ?_)⟩⟩
    simpa using he.symm
  | some addr =>
    simp only [hcol] at h
    cases hg : feeTx.FeeGranter with
    | none =>
      simp only [hg] at h
      have ht : deductionTarget feeTx = feeTx.FeePayer := by simp [deductionTarget, hg]
      rw [ht]
      exact resolveAndDeduct_outcome fd w _ _ taxes simulate r h
    | some granter =>
      simp only [hg] at h
      have ht : deductionTarget feeTx = granter := by simp [deductionTarget, hg]
      rw [ht]
      cases hk : fd.feegrantKeeper with
      | none =>
        simp only [hk, Option.some.injEq] at h
        subst h
        refine ⟨fun hn => by simp at hn, fun e he => ⟨rfl, Or.inl (Or.inr (Or.inl ?_))⟩⟩
        simpa using he.symm
      | some keeper =>
        simp only [hk] at h
        by_cases he : granter.Equals feeTx.FeePayer = true
        · simp only [he, Bool.not_true, Bool.false_eq_true, if_false] at h
          exact resolveAndDeduct_outcome fd w _ _ taxes simulate r h
        · have he' : granter.Equals feeTx.FeePayer = false := by simpa using he
          simp only [he', Bool.not_false, if_true] at h
          cases hu : (keeper.UseGrantedFees w.ledger granter feeTx.FeePayer feeTx.GetFee
              feeTx.GetMsgs).2 with
          | some err =>
            simp only [hu, Option.some.injEq] at h
            subst h
            refine ⟨fun hn => by simp at hn, fun e he2 => ⟨rfl, Or.inr (Or.inl
              ⟨keeper, w.ledger, granter, feeTx.FeePayer, feeTx.GetFee, feeTx.GetMsgs, err, hk,
                hu, ?_⟩)⟩⟩
            simpa using he2.symm
          | none =>
            simp only [hu] at h
            exact resolveAndDeduct_outcome fd
              (w.step (.UseGrantedFees granter feeTx.FeePayer feeTx.GetFee feeTx.GetMsgs)
                (keeper.UseGrantedFees w.ledger granter feeTx.FeePayer feeTx.GetFee
                  feeTx.GetMsgs).1) _ _ taxes simulate r h

/-- C16: a successful `checkDeductFee` appends exactly one event, whose payer is
the deduction target (the fee granter when one is set, otherwise the fee payer)
and whose fee is the stated fee, never the tax-adjusted `feesOrTax`: the stated
fee itself when it is a valid coin set, and in general the stated fee or, in
the simulation branch that sorts it in place, the stated fee sorted by
denomination; a failing `checkDeductFee` leaves the event log as it was. -/
theorem checkDeductFee_event {σ : Type} (fd : FeeDecorator σ) (w : World σ) (feeTx : FeeTx)
    (taxes : Coins) (simulate : Bool) (r : Option Error × World σ)
    (h : checkDeductFee fd w feeTx taxes simulate = some r) :
    (r.1 = none → ∃ f, r.2.events = w.events ++ [⟨f, deductionTarget feeTx⟩] ∧
      (f = feeTx.GetFee ∨ f = Coins.Sort feeTx.GetFee) ∧
      (Coins.IsValid feeTx.GetFee = true → f = feeTx.GetFee)) ∧
    (∀ granter, feeTx.FeeGranter = some granter → deductionTarget feeTx = granter) ∧
    (feeTx.FeeGranter = none → deductionTarget feeTx = feeTx.FeePayer) ∧
    (r.1 ≠ none → r.2.events = w.events) := by
  obtain ⟨h1, h2⟩ := checkDeductFee_outcome fd w feeTx taxes simulate r h
  refine ⟨fun hn => ?_, fun g hg => by simp [deductionTarget, hg],
    fun hg => by simp [deductionTarget, hg], fun hne => ?_⟩
  · obtain ⟨f, hev, hf⟩ := h1 hn
    refine ⟨f, hev, hf, fun hv => ?_⟩
    rcases hf with hf | hf
    · exact hf
    · rw [hf, (Validate_spec _ hv).1.Sort_eq]
  · cases hr : r.1 with
    | none => exact absurd hr hne
    | some e => exact (h2 e hr).1

/-- Witness of C16: the simulation of fee `{100 denomA}` with tax `{150 denomA}`
records the fee `{100 denomA}` and the payer `[1]`. -/
theorem checkDeductFee_event_witness :
    ∃ f, [(⟨[⟨"denomA", 100⟩], ⟨[1]⟩⟩ : Event)]
        = [] ++ [⟨f, deductionTarget (plainTx [⟨"denomA", 100⟩] 200000)⟩] ∧
      (f = [⟨"denomA", 100⟩] ∨ f = Coins.Sort [⟨"denomA", 100⟩]) ∧
      (Coins.IsValid [⟨"denomA", 100⟩] = true → f = [⟨"denomA", 100⟩]) :=
  (checkDeductFee_event (permissiveDecorator false) emptyWorld
    (plainTx [⟨"denomA", 100⟩] 200000) [⟨"denomA", 150⟩] true
    (none, ⟨(), [.MintCoins "mint" [⟨"denomA", 50⟩],
        .SendCoinsFromModuleToAccount "mint" ⟨[1]⟩ [⟨"denomA", 50⟩],
        .SendCoinsFromAccountToModule ⟨[1]⟩ "fee_collector" [⟨"denomA", 150⟩],
        .BurnTaxSplit [⟨"denomA", 150⟩], .RecordEpochTaxProceeds [⟨"denomA", 150⟩]],
        [⟨[⟨"denomA", 100⟩], ⟨[1]⟩⟩]⟩)
    (by decide)).1 rfl

/-! ## Errors of the collaborators -/

/-- C12 as stated, with a bank whose transfer to the fee collector fails with the
collaborator error 7 and a fee-grant keeper that denies with the collaborator
error 3: `checkDeductFee` returns an insufficient-funds error in place of the
first and a wrapped error in place of the second. -/
theorem checkDeductFee_changes_collaborator_errors :
    checkDeductFee failingDecorator emptyWorld (plainTx [⟨"denomA", 5⟩] 10) [] false
      = some (some (.WrapErrorText (.registered .ErrInsufficientFunds) (.collaborator 7)),
          ⟨(), [.SendCoinsFromAccountToModule ⟨[1]⟩ "fee_collector" [⟨"denomA", 5⟩]], []⟩) ∧
    Error.WrapErrorText (.registered .ErrInsufficientFunds) (.collaborator 7)
      ≠ Error.collaborator 7 ∧
    Error.kind (.WrapErrorText (.registered .ErrInsufficientFunds) (.collaborator 7))
      ≠ Error.kind (.collaborator 7) ∧
    checkDeductFee failingDecorator emptyWorld
        (FeeTx.mk [⟨false, 0⟩] [⟨"denomA", 5⟩] 10 ⟨[1]⟩ (some ⟨[2]⟩)) [] false
      = some (some (.Wrapf (.collaborator 3) "%s does not not allow to pay fees for %s"
          [.address ⟨[2]⟩, .address ⟨[1]⟩]),
          ⟨(), [.UseGrantedFees ⟨[2]⟩ ⟨[1]⟩ [⟨"denomA", 5⟩] [⟨false, 0⟩]], []⟩) ∧
    Error.Wrapf (.collaborator 3) "%s does not not allow to pay fees for %s"
      [.address ⟨[2]⟩, .address ⟨[1]⟩] ≠ Error.collaborator 3 := by
  decide

/-- C12, amended: every error that `checkDeductFee` returns is raised by the
stage itself or comes from a collaborator, and an error of a collaborator is
returned as follows: that of the fee-grant authorization wrapped with a
description (same kind), that of the transfer to the fee collector as the text
of an insufficient-funds error, and those of the mint, of the transfer out of
the mint reserve and of the tax burn-split unchanged; `AnteHandle` returns the
error of `checkDeductFee` unchanged. -/
theorem checkDeductFee_collaborator_errors {σ : Type} (fd : FeeDecorator σ) :
    (∀ (w : World σ) (feeTx : FeeTx) (taxes : Coins) (simulate : Bool) (e : Error)
        (w1 : World σ), checkDeductFee fd w feeTx taxes simulate = some (some e, w1) →
      StageError e ∨ CollaboratorError fd e) ∧
    (∀ (w : World σ) (feeTx : FeeTx) (taxes : Coins) (simulate : Bool)
        (collector granter : AccAddress) (keeper : FeegrantKeeper σ) (err : Error),
      fd.accountKeeper.GetModuleAddress w.ledger FeeCollectorName = some collector →
      feeTx.FeeGranter = some granter → fd.feegrantKeeper = some keeper →
      granter.Equals feeTx.FeePayer = false →
      (keeper.UseGrantedFees w.ledger granter feeTx.FeePayer feeTx.GetFee feeTx.GetMsgs).2
        = some err →
      (checkDeductFee fd w feeTx taxes simulate).map Prod.fst
          = some (some (.Wrapf err "%s does not not allow to pay fees for %s"
              [.address granter, .address feeTx.FeePayer])) ∧
        Error.kind (.Wrapf err "%s does not not allow to pay fees for %s"
              [.address granter, .address feeTx.FeePayer]) = err.kind) ∧
    (∀ (w : World σ) (acc : Account) (deductFeesFrom : AccAddress) (fee taxes feesOrTax
        mint : Coins) (err : Error),
      simulateFeesOrTax fee taxes = some feesOrTax → Coins.IsZero feesOrTax = false →
      needMint feesOrTax fee = some mint → Coins.IsZero mint = false →
      (fd.bankKeeper.MintCoins w.ledger MintModuleName mint).2 = some err →
      (mintAndDeduct fd w acc deductFeesFrom fee taxes true).map Prod.fst = some (some err)) ∧
    (∀ (w : World σ) (acc : Account) (deductFeesFrom : AccAddress) (fee taxes feesOrTax
        mint : Coins) (err : Error),
      simulateFeesOrTax fee taxes = some feesOrTax → Coins.IsZero feesOrTax = false →
      needMint feesOrTax fee = some mint → Coins.IsZero mint = false →
      (fd.bankKeeper.MintCoins w.ledger MintModuleName mint).2 = none →
      (fd.bankKeeper.SendCoinsFromModuleToAccount
        (fd.bankKeeper.MintCoins w.ledger MintModuleName mint).1 MintModuleName
        acc.GetAddress mint).2 = some err →
      (mintAndDeduct fd w acc deductFeesFrom fee taxes true).map Prod.fst = some (some err)) ∧
    (∀ (w : World σ) (acc : Account) (deductFeesFrom : AccAddress) (fee feesOrTax
        taxes : Coins) (err : Error),
      Coins.IsZero feesOrTax = false → Coins.IsValid feesOrTax = true →
      (fd.bankKeeper.SendCoinsFromAccountToModule w.ledger acc.GetAddress FeeCollectorName
        feesOrTax).2 = some err →
      (deductAndSettle fd w acc deductFeesFrom fee feesOrTax taxes).1
        = some (.WrapErrorText (.registered .ErrInsufficientFunds) err)) ∧
    (∀ (w : World σ) (acc : Account) (deductFeesFrom : AccAddress) (fee feesOrTax
        taxes : Coins) (err : Error),
      Coins.IsZero feesOrTax = false → Coins.IsValid feesOrTax = true →
      Coins.IsZero taxes = false →
      (fd.bankKeeper.SendCoinsFromAccountToModule w.ledger acc.GetAddress FeeCollectorName
        feesOrTax).2 = none →
      (fd.treasuryKeeper.BurnTaxSplit (fd.bankKeeper.SendCoinsFromAccountToModule w.ledger
        acc.GetAddress FeeCollectorName feesOrTax).1 taxes).2 = some err →
      (deductAndSettle fd w acc deductFeesFrom fee feesOrTax taxes).1 = some err) ∧
    (∀ (ctx : Context) (w : World σ) (feeTx : FeeTx) (simulate : Bool) (next : AnteHandler σ)
        (p : Int) (e : Error) (w1 : World σ),
      ¬ (simulate = false ∧ 0 < ctx.BlockHeight ∧ feeTx.GetGas = 0) →
      (if !simulate then checkTxFee ctx (.feeTx feeTx)
          (fd.treasuryKeeper.FilterMsgAndComputeTax ctx w.ledger simulate feeTx.GetMsgs)
        else some (0, none)) = some (p, none) →
      checkDeductFee fd w feeTx
        (fd.treasuryKeeper.FilterMsgAndComputeTax ctx w.ledger simulate feeTx.GetMsgs) simulate
          = some (some e, w1) →
      AnteHandle fd ctx w (.feeTx feeTx) simulate next = some ((ctx, some e), w1)) := by
  refine ⟨?_, ?_, ?_, ?_, ?_, ?_, ?_⟩
  · intro w feeTx taxes simulate e w1 h
    exact ((checkDeductFee_outcome fd w feeTx taxes simulate _ h).2 e rfl).2
  · intro w feeTx taxes simulate collector granter keeper err hcol hgr hk hne hu
    refine ⟨?_, rfl⟩
    simp [checkDeductFee, hcol, hgr, hk, hne, hu]
  · intro w acc deductFeesFrom fee taxes feesOrTax mint err hf hz hm hmz h1
    simp [mintAndDeduct, hf, hz, hm, hmz, h1]
  · intro w acc deductFeesFrom fee taxes feesOrTax mint err hf hz hm hmz h1 h2
    simp [mintAndDeduct, hf, hz, hm, hmz, h1, World.step, h2]
  · intro w acc deductFeesFrom fee feesOrTax taxes err hz hv hs
    simp [deductAndSettle, DeductFees, hz, hv, hs]
  · intro w acc deductFeesFrom fee feesOrTax taxes err hz hv htz hs hb
    simp [deductAndSettle, DeductFees, hz, hv, hs, htz, World.step, hb]
  · intro ctx w feeTx simulate next p e w1 hguard hc hd
    have hg : (!simulate && decide (0 < ctx.BlockHeight) && decide (feeTx.GetGas = 0))
        = false := by
      rw [Bool.eq_false_iff]
      intro h
      simp only [Bool.and_eq_true, Bool.not_eq_true', decide_eq_true_eq] at h
      exact hguard ⟨h.1.1, h.1.2, h.2⟩
    simp only [AnteHandle, hg, Bool.false_eq_true, if_false, anteHandleBody, hc, hd]

/-- Witness of C12 amended: the insufficient-funds error returned with the
failing bank comes from the transfer to the fee collector. -/
theorem checkDeductFee_collaborator_errors_witness :
    StageError (.WrapErrorText (.registered .ErrInsufficientFunds) (.collaborator 7)) ∨
    CollaboratorError failingDecorator
      (.WrapErrorText (.registered .ErrInsufficientFunds) (.collaborator 7)) :=
  (checkDeductFee_collaborator_errors failingDecorator).1 emptyWorld
    (plainTx [⟨"denomA", 5⟩] 10) [] false _
    ⟨(), [.SendCoinsFromAccountToModule ⟨[1]⟩ "fee_collector" [⟨"denomA", 5⟩]], []⟩
    (by decide)

/-! ## The gas-limit check of `AnteHandle` -/

theorem checkTxFee_error_kind (ctx : Context) (feeTx : FeeTx) (taxes : Coins) (p : Int)
    (e : Error) (h : checkTxFee ctx (.feeTx feeTx) taxes = some (p, some e)) :
    e.kind = some .ErrInsufficientFee := by
  unfold checkTxFee at h
  simp only at h
  split at h
  · cases h
  · rename_i err hc
    simp only [Option.some.injEq, Prod.mk.injEq] at h
    obtain ⟨_, rfl⟩ := h
    split at hc
    · unfold checkRequiredFees at hc
      split at hc
      · cases hc
      · split at hc
        · cases hc
        · split at hc
          · cases hc
          · split at hc
            · cases hc
            · cases hc
            · simp only [Option.some.injEq] at hc
              subst hc
              rfl
    · cases hc
  · split at h
    · split at h
      · cases h
      · cases h
    · cases h

theorem StageError.kind_ne {e : Error} (h : StageError e) :
    e.kind ≠ some .ErrInvalidGasLimit := by
  rcases h with rfl | rfl | ⟨_, rfl⟩ | ⟨_, rfl⟩ <;> simp [Error.kind]

theorem failingDecorator_noGasLimitError : NoGasLimitError failingDecorator := by
  intro e h
  rcases h with ⟨k, s, a, b, f, m, err, hk, hu, rfl⟩ | ⟨s, a, b, c, err, hu, rfl⟩ |
    ⟨s, a, b, hu⟩ | ⟨s, a, b, c, hu⟩ | ⟨s, a, hu⟩
  · simp only [failingDecorator, Option.some.injEq] at hk
    subst hk
    simp only [Option.some.injEq] at hu
    subst hu
    simp [Error.kind]
  · simp [Error.kind]
  · simp [failingDecorator] at hu
  · simp [failingDecorator] at hu
  · simp [failingDecorator] at hu

theorem nextOk_noGasLimitError : NextNoGasLimitError nextOk := by
  intro ctx tx simulate w r e h he
  simp only [nextOk, Option.some.injEq] at h
  subst h
  simp at he

/-- C6: outside simulation, at a positive block height, a fee-capable transaction
with gas limit 0 makes `AnteHandle` return the invalid-gas-limit error with the
context and the world (store, calls, events) unchanged, whatever the next stage
is; when simulating or at a non-positive height a zero gas limit passes the
check, `AnteHandle` is the rest of the stage, and no error it returns is an
invalid-gas-limit error, provided that neither the collaborators nor the next
stage return one of their own. -/
theorem AnteHandle_zero_gas {σ : Type} (fd : FeeDecorator σ) (ctx : Context) (w : World σ)
    (feeTx : FeeTx) (hgas : feeTx.GetGas = 0) :
    (0 < ctx.BlockHeight → ∀ next : AnteHandler σ,
      AnteHandle fd ctx w (.feeTx feeTx) false next
        = some ((ctx, some (.Wrapf (.registered .ErrInvalidGasLimit)
            "must provide positive gas" [])), w)) ∧
    (∀ (simulate : Bool) (next : AnteHandler σ), (simulate = true ∨ ctx.BlockHeight ≤ 0) →
      AnteHandle fd ctx w (.feeTx feeTx) simulate next
        = anteHandleBody fd ctx w feeTx simulate next ∧
      (NoGasLimitError fd → NextNoGasLimitError next →
        ∀ r e, AnteHandle fd ctx w (.feeTx feeTx) simulate next = some r → r.1.2 = some e →
          e.kind ≠ some .ErrInvalidGasLimit)) := by
  constructor
  · intro hh next
    simp [AnteHandle, hgas, hh]
  · intro simulate next hc
    have hbody : AnteHandle fd ctx w (.feeTx feeTx) simulate next
        = anteHandleBody fd ctx w feeTx simulate next := by
      rcases hc with hs | hh
      · simp [AnteHandle, hs]
      · have : ¬ (0 < ctx.BlockHeight) := by omega
        simp [AnteHandle, this]
    refine ⟨hbody, ?_⟩
    intro hfd hnext r e hr he
    rw [hbody] at hr
    unfold anteHandleBody at hr
    simp only at hr
    split at hr
    · cases hr
    · rename_i p err hc
      simp only [Option.some.injEq] at hr
      subst hr
      simp only [Option.some.injEq] at he
      subst he
      split at hc
      · rw [checkTxFee_error_kind ctx feeTx _ p err hc]
        simp
      · cases hc
    · rename_i p hc
      split at hr
      · cases hr
      · rename_i err w1 hd
        simp only [Option.some.injEq] at hr
        subst hr
        simp only [Option.some.injEq] at he
        subst he
        rcases (checkDeductFee_outcome fd w feeTx _ simulate _ hd).2 err rfl with ⟨_, hs | hcoll⟩
        · exact hs.kind_ne
        · exact hfd _ hcoll
      · exact hnext _ _ _ _ r e hr he

/-- Witness of C6: a zero-gas transaction at height 10 is rejected with the
invalid-gas-limit error; when simulating the same transaction passes the stage,
and with a bank whose transfer fails a zero-gas transaction with the fee
`{5 denomA}` returns the insufficient-funds error of the deduction, which is
not an invalid-gas-limit error. -/
theorem AnteHandle_zero_gas_witness :
    AnteHandle (permissiveDecorator false) checkCtx emptyWorld (.feeTx (plainTx [] 0)) false nextOk
      = some ((checkCtx, some (.Wrapf (.registered .ErrInvalidGasLimit)
          "must provide positive gas" [])), emptyWorld) ∧
    AnteHandle (permissiveDecorator false) checkCtx emptyWorld (.feeTx (plainTx [] 0)) true nextOk
      = some ((checkCtx, none), ⟨(), [], [⟨[], ⟨[1]⟩⟩]⟩) ∧
    AnteHandle failingDecorator checkCtx emptyWorld (.feeTx (plainTx [⟨"denomA", 5⟩] 0)) true
        nextOk
      = some ((checkCtx,
          some (.WrapErrorText (.registered .ErrInsufficientFunds) (.collaborator 7))),
        ⟨(), [.SendCoinsFromAccountToModule ⟨[1]⟩ FeeCollectorName [⟨"denomA", 5⟩]], []⟩) ∧
    (Error.WrapErrorText (.registered .ErrInsufficientFunds) (.collaborator 7)).kind
      ≠ some .ErrInvalidGasLimit :=
  ⟨(AnteHandle_zero_gas (permissiveDecorator false) checkCtx emptyWorld (plainTx [] 0) rfl).1
      (by decide) nextOk,
   by decide, by decide,
   ((AnteHandle_zero_gas failingDecorator checkCtx emptyWorld (plainTx [⟨"denomA", 5⟩] 0)
      rfl).2 true nextOk (Or.inl rfl)).2 failingDecorator_noGasLimitError nextOk_noGasLimitError
      ((checkCtx, some (.WrapErrorText (.registered .ErrInsufficientFunds) (.collaborator 7))),
        ⟨(), [.SendCoinsFromAccountToModule ⟨[1]⟩ FeeCollectorName [⟨"denomA", 5⟩]], []⟩)
      (.WrapErrorText (.registered .ErrInsufficientFunds) (.collaborator 7)) (by decide) rfl⟩

/-! ## The store key of the staking parameters -/

theorem le_foldr_max : ∀ (l : List Nat) (x : Nat), x ∈ l → x ≤ l.foldr max 0
  | [], _, h => by simp at h
  | y :: ys, x, h => by
    rcases List.mem_cons.mp h with rfl | h
    · exact le_max_left _ _
    · exact le_trans (le_foldr_max ys x h) (le_max_right _ _)

theorem KVStore_NewKVStoreKey (ctx : StakingContext) (name : String) :
    ctx.KVStore (NewKVStoreKey ctx name) = none := by
  unfold StakingContext.KVStore
  rw [Option.map_eq_none', List.find?_eq_none]
  intro s hs
  have h := le_foldr_max (ctx.stores.map fun s => s.1.pointer) s.1.pointer
    (List.mem_map_of_mem _ hs)
  simp only [NewKVStoreKey, decide_eq_true_eq]
  omega

/-- C17: `GetParams` looks the staking store up under a store key that it has
just made; no store is mounted under a new key, so the lookup panics and
`GetParams` returns neither the parameters of the base keeper nor the legacy
parameters, in every context; so it does in a context whose staking store,
mounted under the key of the application, holds a value under the parameters
key. -/
theorem Keeper_GetParams_fresh_key :
    (∀ (k : Keeper) (ctx : StakingContext), k.GetParams ctx = none) ∧
    ((stakingCtx.KVStore ⟨1, "staking"⟩).bind fun store => store ParamsKey) = some [1] ∧
    stakingCtx.KVStore (NewKVStoreKey stakingCtx StakingStoreKey) = none ∧
    stakingKeeper.GetParams stakingCtx = none := by
  refine ⟨fun k ctx => ?_, by decide, KVStore_NewKVStoreKey _ _, by decide⟩
  simp [Keeper.GetParams, KVStore_NewKVStoreKey]

/-! ## The balances after the ledger steps of the simulation -/

theorem simpleBank_laws :
    LedgerLaws simpleBank SimpleLedger.balance SimpleLedger.supply simpleModuleAddress where
  mint := fun _ _ _ _ _ => ⟨rfl, fun _ => rfl⟩
  moduleToAccount := fun _ _ _ _ _ _ => ⟨rfl, fun _ => rfl⟩
  accountToModule := fun _ _ _ _ _ _ => ⟨rfl, fun _ => rfl⟩

theorem IsZero_false_of_pos (coins : Coins) (c : Coin) (hc : c ∈ coins) (hp : 0 < c.Amount) :
    Coins.IsZero coins = false := by
  rw [Bool.eq_false_iff]
  intro hz
  have := List.all_eq_true.mp hz c hc
  simp [Coin.IsZero] at this
  omega

/-- C18: during simulation, for a valid stated fee and valid taxes with a
non-zero `needMint`, when the mint, the credit to the deduction-target account
and the deduction succeed, the run of `checkDeductFee` from the resolved
account on (`mintAndDeduct`) makes exactly these three ledger steps and then
settles the taxes on the ledger they leave: it returns the error of the tax
burn-split made on that ledger, or else no error, the record of the tax
proceeds and the event. On the ledger after the three steps the balance of the
deduction-target account is its balance before minus the stated fee in every
denomination, the fee collector holds `feesOrTax` more and the supply has grown
by `needMint`. The ledger obeys `LedgerLaws`, and the account is neither the
mint reserve nor the fee collector. -/
theorem simulate_balance_effect {σ : Type} (fd : FeeDecorator σ)
    (balance : σ → AccAddress → String → Int) (supply : σ → String → Int)
    (moduleAddress : String → AccAddress)
    (laws : LedgerLaws fd.bankKeeper balance supply moduleAddress)
    (w : World σ) (acc : Account) (deductFeesFrom : AccAddress)
    (fee taxes feesOrTax mint : Coins)
    (hfee : Coins.IsValid fee = true) (htax : Coins.IsValid taxes = true)
    (hf : simulateFeesOrTax fee taxes = some feesOrTax)
    (hm : needMint feesOrTax fee = some mint) (hmz : Coins.IsZero mint = false)
    (hacc1 : acc.GetAddress ≠ moduleAddress MintModuleName)
    (hacc2 : acc.GetAddress ≠ moduleAddress FeeCollectorName)
    (hmod : moduleAddress FeeCollectorName ≠ moduleAddress MintModuleName)
    (h1 : (fd.bankKeeper.MintCoins w.ledger MintModuleName mint).2 = none)
    (h2 : (fd.bankKeeper.SendCoinsFromModuleToAccount
      (fd.bankKeeper.MintCoins w.ledger MintModuleName mint).1 MintModuleName
      acc.GetAddress mint).2 = none)
    (h3 : (DeductFees fd.bankKeeper (worldAfterMint fd w acc mint) acc feesOrTax).1 = none) :
    (∀ err, (fd.treasuryKeeper.BurnTaxSplit
        (worldAfterDeduction fd w acc mint feesOrTax).ledger taxes).2 = some err →
      mintAndDeduct fd w acc deductFeesFrom fee taxes true
        = some (some err,
            (worldAfterDeduction fd w acc mint feesOrTax).step (.BurnTaxSplit taxes)
              (fd.treasuryKeeper.BurnTaxSplit
                (worldAfterDeduction fd w acc mint feesOrTax).ledger taxes).1)) ∧
    ((fd.treasuryKeeper.BurnTaxSplit
        (worldAfterDeduction fd w acc mint feesOrTax).ledger taxes).2 = none →
      mintAndDeduct fd w acc deductFeesFrom fee taxes true
        = some (none,
            ⟨fd.treasuryKeeper.RecordEpochTaxProceeds
                (fd.treasuryKeeper.BurnTaxSplit
                  (worldAfterDeduction fd w acc mint feesOrTax).ledger taxes).1 taxes,
              (worldAfterDeduction fd w acc mint feesOrTax).calls
                ++ [.BurnTaxSplit taxes, .RecordEpochTaxProceeds taxes],
              w.events ++ [⟨fee, deductFeesFrom⟩]⟩)) ∧
    (worldAfterDeduction fd w acc mint feesOrTax).calls
      = w.calls ++ [.MintCoins MintModuleName mint,
          .SendCoinsFromModuleToAccount MintModuleName acc.GetAddress mint,
          .SendCoinsFromAccountToModule acc.GetAddress FeeCollectorName feesOrTax] ∧
    ∀ d,
      balance (worldAfterDeduction fd w acc mint feesOrTax).ledger acc.GetAddress d
        = balance w.ledger acc.GetAddress d - amountOf fee d ∧
      balance (worldAfterDeduction fd w acc mint feesOrTax).ledger
          (moduleAddress FeeCollectorName) d
        = balance w.ledger (moduleAddress FeeCollectorName) d + amountOf feesOrTax d ∧
      supply (worldAfterDeduction fd w acc mint feesOrTax).ledger d
        = supply w.ledger d + amountOf mint d := by
  obtain ⟨fot, hfot, hs, hmax⟩ := simulateFeesOrTax_spec fee taxes hfee htax
  rw [hf] at hfot
  cases hfot
  obtain ⟨m, hm', hms, hpos, hma⟩ := needMint_spec feesOrTax fee hfee hs
    (fun d => by rw [hmax d]; exact le_max_left _ _)
  rw [hm] at hm'
  cases hm'
  obtain ⟨hfs, hfv⟩ := Validate_spec fee hfee
  obtain ⟨hts, htv⟩ := Validate_spec taxes htax
  have hfn : ∀ d, 0 ≤ amountOf fee d := amountOf_nonneg fee (fun c hc => (hfv c hc).2)
  obtain ⟨tax, htm, htlt⟩ := tax_exceeds_of_needMint fee taxes feesOrTax mint hfee htax hf hm hmz
  have htz : Coins.IsZero taxes = false :=
    IsZero_false_of_pos taxes tax htm (by have := hfn tax.Denom; omega)
  have hz : Coins.IsZero feesOrTax = false := by
    rw [Bool.eq_false_iff]
    intro hz
    have h5 := amountOf_of_IsZero feesOrTax tax.Denom hz
    have h6 := hmax tax.Denom
    have h7 := hts.amountOf_mem htm
    have h8 := le_max_right (amountOf fee tax.Denom) (amountOf taxes tax.Denom)
    have h9 := hfn tax.Denom
    omega
  have hv : Coins.IsValid feesOrTax = true := by
    by_contra hv
    have hv' : Coins.IsValid feesOrTax = false := by simpa using hv
    simp [DeductFees, hv'] at h3
  have hsend : (fd.bankKeeper.SendCoinsFromAccountToModule (worldAfterMint fd w acc mint).ledger
      acc.GetAddress FeeCollectorName feesOrTax).2 = none := by
    cases hq : (fd.bankKeeper.SendCoinsFromAccountToModule (worldAfterMint fd w acc mint).ledger
      acc.GetAddress FeeCollectorName feesOrTax).2 with
    | none => rfl
    | some err => simp [DeductFees, hv, hq] at h3
  have hD : DeductFees fd.bankKeeper (worldAfterMint fd w acc mint) acc feesOrTax
      = (none, worldAfterDeduction fd w acc mint feesOrTax) := by
    unfold DeductFees
    simp only [hv, Bool.not_true, Bool.false_eq_true, if_false, hsend]
    rfl
  have hrun : mintAndDeduct fd w acc deductFeesFrom fee taxes true
      = some (deductAndSettle fd (worldAfterMint fd w acc mint) acc deductFeesFrom fee
          feesOrTax taxes) := by
    simp [mintAndDeduct, hf, hz, hm, hmz, h1, World.step, h2, worldAfterMint, hs.Sort_eq,
      hfs.Sort_eq]
  refine ⟨?_, ?_, ?_, fun d => ?_⟩
  · intro err hb
    rw [hrun]
    unfold deductAndSettle
    simp only [hz, Bool.not_false, if_true, hD, htz, hb]
  · intro hb
    rw [hrun]
    unfold deductAndSettle
    simp only [hz, Bool.not_false, if_true, hD, htz, hb]
    simp [World.step, worldAfterDeduction, worldAfterMint]
  · simp [World.step, worldAfterDeduction, worldAfterMint]
  · have hL1 := laws.mint w.ledger MintModuleName mint h1 d
    have hL2 := laws.moduleToAccount (fd.bankKeeper.MintCoins w.ledger MintModuleName mint).1
      MintModuleName acc.GetAddress mint h2 d
    have hw : (worldAfterMint fd w acc mint).ledger
        = (fd.bankKeeper.SendCoinsFromModuleToAccount
            (fd.bankKeeper.MintCoins w.ledger MintModuleName mint).1 MintModuleName
            acc.GetAddress mint).1 := rfl
    have hled : (worldAfterDeduction fd w acc mint feesOrTax).ledger
        = (fd.bankKeeper.SendCoinsFromAccountToModule (worldAfterMint fd w acc mint).ledger
            acc.GetAddress FeeCollectorName feesOrTax).1 := rfl
    rw [hled]
    rw [hw] at hsend ⊢
    have hL3 := laws.accountToModule _ acc.GetAddress FeeCollectorName feesOrTax hsend d
    have hmd := hma d
    refine ⟨?_, ?_, ?_⟩
    · rw [hL3.2 acc.GetAddress, hL2.2 acc.GetAddress, hL1.2 acc.GetAddress]
      simp only [if_true, hacc1, hacc2, if_false]
      omega
    · rw [hL3.2 (moduleAddress FeeCollectorName), hL2.2 (moduleAddress FeeCollectorName),
        hL1.2 (moduleAddress FeeCollectorName)]
      simp only [if_true, hmod, Ne.symm hacc2, if_false]
      omega
    · rw [hL3.1, hL2.1, hL1.1]

/-- Witness of C18: fee `{100 denomA}`, tax `{150 denomA}`, account `[1]` on the
simple ledger, whose tax burn-split succeeds. -/
theorem simulate_balance_effect_witness :
    mintAndDeduct simpleDecorator simpleWorld ⟨⟨[1]⟩⟩ ⟨[1]⟩ [⟨"denomA", 100⟩]
        [⟨"denomA", 150⟩] true
      = some (none,
          ⟨simpleDecorator.treasuryKeeper.RecordEpochTaxProceeds
              (simpleDecorator.treasuryKeeper.BurnTaxSplit
                (worldAfterDeduction simpleDecorator simpleWorld ⟨⟨[1]⟩⟩ [⟨"denomA", 50⟩]
                  [⟨"denomA", 150⟩]).ledger [⟨"denomA", 150⟩]).1 [⟨"denomA", 150⟩],
            (worldAfterDeduction simpleDecorator simpleWorld ⟨⟨[1]⟩⟩ [⟨"denomA", 50⟩]
                [⟨"denomA", 150⟩]).calls
              ++ [.BurnTaxSplit [⟨"denomA", 150⟩], .RecordEpochTaxProceeds [⟨"denomA", 150⟩]],
            simpleWorld.events ++ [⟨[⟨"denomA", 100⟩], ⟨[1]⟩⟩]⟩) ∧
    (worldAfterDeduction simpleDecorator simpleWorld ⟨⟨[1]⟩⟩ [⟨"denomA", 50⟩]
        [⟨"denomA", 150⟩]).calls
      = simpleWorld.calls ++ [.MintCoins MintModuleName [⟨"denomA", 50⟩],
          .SendCoinsFromModuleToAccount MintModuleName ⟨[1]⟩ [⟨"denomA", 50⟩],
          .SendCoinsFromAccountToModule ⟨[1]⟩ FeeCollectorName [⟨"denomA", 150⟩]] ∧
    ∀ d,
      SimpleLedger.balance (worldAfterDeduction simpleDecorator simpleWorld ⟨⟨[1]⟩⟩
          [⟨"denomA", 50⟩] [⟨"denomA", 150⟩]).ledger ⟨[1]⟩ d
        = SimpleLedger.balance simpleWorld.ledger ⟨[1]⟩ d - amountOf [⟨"denomA", 100⟩] d ∧
      SimpleLedger.balance (worldAfterDeduction simpleDecorator simpleWorld ⟨⟨[1]⟩⟩
          [⟨"denomA", 50⟩] [⟨"denomA", 150⟩]).ledger (simpleModuleAddress FeeCollectorName) d
        = SimpleLedger.balance simpleWorld.ledger (simpleModuleAddress FeeCollectorName) d
          + amountOf [⟨"denomA", 150⟩] d ∧
      SimpleLedger.supply (worldAfterDeduction simpleDecorator simpleWorld ⟨⟨[1]⟩⟩
          [⟨"denomA", 50⟩] [⟨"denomA", 150⟩]).ledger d
        = SimpleLedger.supply simpleWorld.ledger d + amountOf [⟨"denomA", 50⟩] d :=
  ⟨(simulate_balance_effect simpleDecorator SimpleLedger.balance SimpleLedger.supply
      simpleModuleAddress simpleBank_laws simpleWorld ⟨⟨[1]⟩⟩ ⟨[1]⟩ [⟨"denomA", 100⟩]
      [⟨"denomA", 150⟩] [⟨"denomA", 150⟩] [⟨"denomA", 50⟩] (by decide) (by decide) (by decide)
      (by decide) (by decide) (by decide) (by decide) (by decide) rfl rfl (by decide)).2.1 rfl,
   (simulate_balance_effect simpleDecorator SimpleLedger.balance SimpleLedger.supply
      simpleModuleAddress simpleBank_laws simpleWorld ⟨⟨[1]⟩⟩ ⟨[1]⟩ [⟨"denomA", 100⟩]
      [⟨"denomA", 150⟩] [⟨"denomA", 150⟩] [⟨"denomA", 50⟩] (by decide) (by decide) (by decide)
      (by decide) (by decide) (by decide) (by decide) (by decide) rfl rfl (by decide)).2.2⟩

end Core
